import Mathlib

/-!
# The HDFS access layer of caffe_hdfs: a shallow embedding and its properties

Sources embedded here:
* `src/caffe/hdfs/error.cpp` (`ErrnoToCode`, `IOError`),
* `src/caffe/hdfs/status.cpp` (`Status::Status`, `Status::ToString`),
* `src/caffe/hdfs/path.cpp` (`ParseURI`, `SplitPath`, `Basename`),
* `include/caffe/hdfs/hadoop_file_system.h` (`RandomAccessFile::Read`,
  `WritableFile::Append`, `WritableFile::Close`, `LibHDFS::LoadAndBind`),
* `src/caffe/hdfs/hadoop_file_system.cpp` (`LibHDFS::LoadLibrary`,
  `LibHDFS::GetSymbolFromLibrary`, `LibHDFS::BindFunc`, and the methods of
  `HadoopFileSystem`).

Conventions.  A C++ `char` is a Lean `Char`; a pointer is an address, a
`Nat`; machine integers are `Int`/`Nat` with the conversions written out
(`toInt32` for `static_cast<tSize>`, `toInt64` for `static_cast<tOffset>`,
`% 2^64` for `size_t`/`uint64` arithmetic).  The native client (libhdfs) is
foreign code: it is a record of functions over an arbitrary native-world type
`σ`, and every operation reports the native calls it issued.  A function that can abort (a failing `assert`, a null-pointer
dereference) or loop returns an `Outcome`.
-/

namespace caffe

/-! ## Definitions -/

/-! ### Status and the error taxonomy -/

/-- Modelled from the spec: the enumeration `Code` (declared in `status.h`,
which is not among the sources).  A C++ enumeration value is an integer, so a
`Code` is an `Int`; the enumerators carry the numbering of the upstream
`error_codes` table, in which `NOT_FOUND = 5` and `FAILED_PRECONDITION = 9`. -/
abbrev Code := Int

abbrev Code.OK : Code := 0
abbrev Code.CANCELLED : Code := 1
abbrev Code.UNKNOWN : Code := 2
abbrev Code.INVALID_ARGUMENT : Code := 3
abbrev Code.DEADLINE_EXCEEDED : Code := 4
abbrev Code.NOT_FOUND : Code := 5
abbrev Code.ALREADY_EXISTS : Code := 6
abbrev Code.PERMISSION_DENIED : Code := 7
abbrev Code.RESOURCE_EXHAUSTED : Code := 8
abbrev Code.FAILED_PRECONDITION : Code := 9
abbrev Code.ABORTED : Code := 10
abbrev Code.OUT_OF_RANGE : Code := 11
abbrev Code.UNIMPLEMENTED : Code := 12
abbrev Code.INTERNAL : Code := 13
abbrev Code.UNAVAILABLE : Code := 14
abbrev Code.DATA_LOSS : Code := 15
abbrev Code.UNAUTHENTICATED : Code := 16

/-- The ways a call can fail to return: a failing `assert`, a dereference of
`nullptr`, or (in the model only) a loop that is still running when the
iteration budget is spent. -/
inductive Fault where
  | assertion
  | nullDereference
  | outOfFuel
deriving DecidableEq, Repr

/-- The result of running a piece of code: it returned a value, or it did not
return. -/
inductive Outcome (α : Type) where
  | returned (a : α)
  | aborted (f : Fault)
deriving DecidableEq, Repr

/-- Sequencing of outcomes: the continuation runs only after a return. -/
def Outcome.andThen {α β : Type} (x : Outcome α) (k : α → Outcome β) : Outcome β :=
  match x with
  | .returned a => k a
  | .aborted f => .aborted f

/-- Modelled from the spec: the heap record `Status::State` of `status.h`
behind a non-OK status. -/
structure State where
  code : Code
  msg : String
deriving DecidableEq, Repr

/-- Modelled from the spec: class `Status` (declared in `status.h`, which is
not among the sources): a pointer `state_` that is null for the OK value and
otherwise owns a `State` with the code and the message. -/
structure Status where
  state_ : Option State
deriving DecidableEq, Repr

/-- Modelled from the spec: `Status::OK()` and the default constructor of
`status.h`, the reserved OK value: `state_ == NULL`. -/
def Status.OK : Status := ⟨none⟩

/-- Modelled from the spec: the test `Status::ok()` of `status.h`:
`state_ == NULL`. -/
def Status.ok (s : Status) : Bool := s.state_.isNone

/-- Modelled from the spec: the accessor `Status::code()` of `status.h`: `OK`
for the null state, else the stored code. -/
def Status.code (s : Status) : Code :=
  match s.state_ with
  | none => Code.OK
  | some st => st.code

/-- Modelled from the spec: the accessor `Status::error_message()` of
`status.h`: empty for the null state, else the stored message. -/
def Status.error_message (s : Status) : String :=
  match s.state_ with
  | none => ""
  | some st => st.msg

/-- The constructor `Status::Status(Code code, StringPiece msg)` of
`status.cpp`: `assert(code != Code::OK)`, then a fresh state holding `code`
and a copy of `msg`. -/
def Status.new (code : Code) (msg : String) : Outcome Status :=
  if code = Code.OK then .aborted .assertion
  else .returned ⟨some ⟨code, msg⟩⟩

/-! ### OS error numbers (`<errno.h>`, Linux values) -/

abbrev EPERM : Int := 1
abbrev ENOENT : Int := 2
abbrev ESRCH : Int := 3
abbrev EINTR : Int := 4
abbrev EIO : Int := 5
abbrev ENXIO : Int := 6
abbrev E2BIG : Int := 7
abbrev ENOEXEC : Int := 8
abbrev EBADF : Int := 9
abbrev ECHILD : Int := 10
abbrev EAGAIN : Int := 11
abbrev ENOMEM : Int := 12
abbrev EACCES : Int := 13
abbrev EFAULT : Int := 14
abbrev ENOTBLK : Int := 15
abbrev EBUSY : Int := 16
abbrev EEXIST : Int := 17
abbrev EXDEV : Int := 18
abbrev ENODEV : Int := 19
abbrev ENOTDIR : Int := 20
abbrev EISDIR : Int := 21
abbrev EINVAL : Int := 22
abbrev ENFILE : Int := 23
abbrev EMFILE : Int := 24
abbrev ENOTTY : Int := 25
abbrev ETXTBSY : Int := 26
abbrev EFBIG : Int := 27
abbrev ENOSPC : Int := 28
abbrev ESPIPE : Int := 29
abbrev EROFS : Int := 30
abbrev EMLINK : Int := 31
abbrev EPIPE : Int := 32
abbrev EDOM : Int := 33
abbrev ERANGE : Int := 34
abbrev EDEADLK : Int := 35
abbrev ENAMETOOLONG : Int := 36
abbrev ENOLCK : Int := 37
abbrev ENOSYS : Int := 38
abbrev ENOTEMPTY : Int := 39
abbrev ELOOP : Int := 40
abbrev ENOMSG : Int := 42
abbrev EIDRM : Int := 43
abbrev ENOSTR : Int := 60
abbrev ENODATA : Int := 61
abbrev ETIME : Int := 62
abbrev ENOSR : Int := 63
abbrev ENONET : Int := 64
abbrev EREMOTE : Int := 66
abbrev ENOLINK : Int := 67
abbrev EPROTO : Int := 71
abbrev EBADMSG : Int := 74
abbrev EOVERFLOW : Int := 75
abbrev EILSEQ : Int := 84
abbrev EUSERS : Int := 87
abbrev ENOTSOCK : Int := 88
abbrev EDESTADDRREQ : Int := 89
abbrev EPROTOTYPE : Int := 91
abbrev ENOPROTOOPT : Int := 92
abbrev EPROTONOSUPPORT : Int := 93
abbrev ESOCKTNOSUPPORT : Int := 94
abbrev ENOTSUP : Int := 95
abbrev EPFNOSUPPORT : Int := 96
abbrev EAFNOSUPPORT : Int := 97
abbrev EADDRINUSE : Int := 98
abbrev EADDRNOTAVAIL : Int := 99
abbrev ENETDOWN : Int := 100
abbrev ENETUNREACH : Int := 101
abbrev ENETRESET : Int := 102
abbrev ECONNABORTED : Int := 103
abbrev ECONNRESET : Int := 104
abbrev ENOBUFS : Int := 105
abbrev EISCONN : Int := 106
abbrev ENOTCONN : Int := 107
abbrev ESHUTDOWN : Int := 108
abbrev ETIMEDOUT : Int := 110
abbrev ECONNREFUSED : Int := 111
abbrev EHOSTDOWN : Int := 112
abbrev EHOSTUNREACH : Int := 113
abbrev EALREADY : Int := 114
abbrev EINPROGRESS : Int := 115
abbrev ESTALE : Int := 116
abbrev EDQUOT : Int := 122
abbrev ECANCELED : Int := 125

/-- The function `ErrnoToCode` of `error.cpp`: the `switch` over the error
number, one `if` per group of `case` labels, in source order (the platform is
Linux, so every conditional label is present). -/
def ErrnoToCode (err_number : Int) : Code :=
  if err_number = 0 then Code.OK
  else if err_number ∈ [EINVAL, ENAMETOOLONG, E2BIG, EDESTADDRREQ, EDOM, EFAULT, EILSEQ,
      ENOPROTOOPT, ENOSTR, ENOTSOCK, ENOTTY, EPROTOTYPE, ESPIPE] then Code.INVALID_ARGUMENT
  else if err_number ∈ [ETIMEDOUT, ETIME] then Code.DEADLINE_EXCEEDED
  else if err_number ∈ [ENODEV, ENOENT, ENXIO, ESRCH] then Code.NOT_FOUND
  else if err_number ∈ [EEXIST, EADDRNOTAVAIL, EALREADY] then Code.ALREADY_EXISTS
  else if err_number ∈ [EPERM, EACCES, EROFS] then Code.PERMISSION_DENIED
  else if err_number ∈ [ENOTEMPTY, EISDIR, ENOTDIR, EADDRINUSE, EBADF, EBUSY, ECHILD,
      EISCONN, ENOTBLK, ENOTCONN, EPIPE, ESHUTDOWN, ETXTBSY] then Code.FAILED_PRECONDITION
  else if err_number ∈ [ENOSPC, EDQUOT, EMFILE, EMLINK, ENFILE, ENOBUFS, ENODATA, ENOMEM,
      ENOSR, EUSERS] then Code.RESOURCE_EXHAUSTED
  else if err_number ∈ [EFBIG, EOVERFLOW, ERANGE] then Code.OUT_OF_RANGE
  else if err_number ∈ [ENOSYS, ENOTSUP, EAFNOSUPPORT, EPFNOSUPPORT, EPROTONOSUPPORT,
      ESOCKTNOSUPPORT, EXDEV] then Code.UNIMPLEMENTED
  else if err_number ∈ [EAGAIN, ECONNREFUSED, ECONNABORTED, ECONNRESET, EINTR, EHOSTDOWN,
      EHOSTUNREACH, ENETDOWN, ENETRESET, ENETUNREACH, ENOLCK, ENOLINK, ENONET]
    then Code.UNAVAILABLE
  else if err_number ∈ [EDEADLK, ESTALE] then Code.ABORTED
  else if err_number ∈ [ECANCELED] then Code.CANCELLED
  else if err_number ∈ [EBADMSG, EIDRM, EINPROGRESS, EIO, ELOOP, ENOEXEC, ENOMSG, EPROTO,
      EREMOTE] then Code.UNKNOWN
  else Code.UNKNOWN

/-- The function `IOError` of `error.cpp`.  `strerror` is the C library's
description of an error number. -/
def IOError (strerror : Int → String) (context : String) (err_number : Int) :
    Outcome Status :=
  let code := ErrnoToCode err_number
  if code = Code.UNKNOWN then
    Status.new code (context ++ "; " ++ strerror err_number)
  else
    Status.new code context

/-! ### String views (`stringpiece.h`) -/

/-- Modelled from the spec: class `StringPiece` (`stringpiece.h` is not among
the sources), a non-owning view: the address of its first character and the
characters it covers (`size()` of them). -/
structure StringPiece where
  data : Nat
  chars : List Char
deriving DecidableEq, Repr

/-- Modelled from the spec: `StringPiece::size()`, the length of a view. -/
def StringPiece.size (s : StringPiece) : Nat := s.chars.length

/-- Modelled from the spec: `StringPiece::begin()`, the pointer to the first
character. -/
def StringPiece.begin (s : StringPiece) : Nat := s.data

/-- Modelled from the spec: `StringPiece::end()`, the pointer one past the
last character. -/
def StringPiece.end_ (s : StringPiece) : Nat := s.data + s.chars.length

/-- Modelled from the spec: `StringPiece::empty()`. -/
def StringPiece.empty (s : StringPiece) : Bool := s.chars.isEmpty

/-- Modelled from the spec: the constructor `StringPiece(p, len)` for a
pointer `p` into the text that `base` covers. -/
def StringPiece.sub (base : StringPiece) (p : Nat) (len : Nat) : StringPiece :=
  ⟨p, (base.chars.drop (p - base.data)).take len⟩

/-- Modelled from the spec: `StringPiece::remove_prefix(n)`. -/
def StringPiece.remove_prefix (s : StringPiece) (n : Nat) : StringPiece :=
  ⟨s.data + n, s.chars.drop n⟩

/-- Modelled from the spec: `StringPiece::Consume(x)`: when the view starts
with `x`, the view with that prefix removed; `none` stands for the answer
`false`, which leaves the view as it is. -/
def StringPiece.Consume (s : StringPiece) (x : List Char) : Option StringPiece :=
  if x.isPrefixOf s.chars then some (s.remove_prefix x.length) else none

/-- The index of the last occurrence of `c` in a list, if any. -/
def rfindList (c : Char) : List Char → Option Nat
  | [] => none
  | x :: xs =>
    match rfindList c xs with
    | some i => some (i + 1)
    | none => if x = c then some 0 else none

/-- Modelled from the spec: `StringPiece::rfind(c)`, the index of the last
`c`; `none` is `npos`. -/
def StringPiece.rfind (s : StringPiece) (c : Char) : Option Nat := rfindList c s.chars

/-! ### The scanner (`scanner.h`) -/

/-- Modelled from the spec: the character classes of `Scanner` that
`ParseURI` uses. -/
inductive CharClass where
  | LETTER
  | LETTER_DIGIT_DOT
deriving DecidableEq, Repr

/-- Modelled from the spec: the class `LETTER`, an ASCII letter. -/
def IsLetter (ch : Char) : Bool :=
  (decide ('a' ≤ ch) && decide (ch ≤ 'z')) || (decide ('A' ≤ ch) && decide (ch ≤ 'Z'))

/-- Modelled from the spec: an ASCII digit. -/
def IsDigit (ch : Char) : Bool := decide ('0' ≤ ch) && decide (ch ≤ '9')

/-- Modelled from the spec: membership of a character in a class;
`LETTER_DIGIT_DOT` is a letter, a digit or `.`. -/
def Matches (clz : CharClass) (ch : Char) : Bool :=
  match clz with
  | .LETTER => IsLetter ch
  | .LETTER_DIGIT_DOT => IsLetter ch || IsDigit ch || ch == '.'

/-- Modelled from the spec: class `Scanner` (`scanner.h` is not among the
sources), the cursor that `ParseURI` drives: "starts with one letter followed
by letters/digits/dots followed by the literal `://`" and "scan the remainder
up to the first `/`".  `cur_` is the text still to scan, `capture_start_` and
`capture_end_` delimit the captured text (`none` is a null `capture_end_`),
`error_` records a failed step, and `src_` is the text handed to the
constructor, the memory the pointers range over. -/
structure Scanner where
  src_ : StringPiece
  cur_ : StringPiece
  capture_start_ : Nat
  capture_end_ : Option Nat
  error_ : Bool
deriving DecidableEq, Repr

/-- Modelled from the spec: the constructor `Scanner(source)`: the cursor at
the start, the capture starting there. -/
def Scanner.new (source : StringPiece) : Scanner :=
  { src_ := source, cur_ := source, capture_start_ := source.data,
    capture_end_ := none, error_ := false }

/-- Modelled from the spec: the step `Scanner::Error()`: record the failure. -/
def Scanner.Error (s : Scanner) : Scanner := { s with error_ := true }

/-- Modelled from the spec: the step `Scanner::One(clz)`: consume one
character of the class, or fail. -/
def Scanner.One (s : Scanner) (clz : CharClass) : Scanner :=
  match s.cur_.chars with
  | [] => s.Error
  | ch :: _ => if Matches clz ch then { s with cur_ := s.cur_.remove_prefix 1 } else s.Error

/-- Modelled from the spec: the step `Scanner::Any(clz)`: consume the longest
run of characters of the class. -/
def Scanner.Any (s : Scanner) (clz : CharClass) : Scanner :=
  { s with cur_ := s.cur_.remove_prefix (s.cur_.chars.takeWhile (Matches clz)).length }

/-- Modelled from the spec: the step `Scanner::Many(clz)`: one character of
the class, then any number more. -/
def Scanner.Many (s : Scanner) (clz : CharClass) : Scanner := (s.One clz).Any clz

/-- Modelled from the spec: the step `Scanner::StopCapture()`: the capture
ends at the cursor. -/
def Scanner.StopCapture (s : Scanner) : Scanner := { s with capture_end_ := some s.cur_.data }

/-- Modelled from the spec: the step `Scanner::OneLiteral(lit)`: consume the
literal, or fail. -/
def Scanner.OneLiteral (s : Scanner) (lit : List Char) : Scanner :=
  match s.cur_.Consume lit with
  | some rest => { s with cur_ := rest }
  | none => s.Error

/-- Modelled from the spec: the step `Scanner::ScanUntil(end_ch)`: consume
characters up to, not including, the first `end_ch`; fail when the text ends
first. -/
def Scanner.ScanUntil (s : Scanner) (end_ch : Char) : Scanner :=
  let rest := s.cur_.remove_prefix (s.cur_.chars.takeWhile (fun ch => ch != end_ch)).length
  if rest.chars.isEmpty then { s with cur_ := rest, error_ := true } else { s with cur_ := rest }

/-- Modelled from the spec: the call `Scanner::GetResult(&remaining,
&capture)`: `none` (the answer `false`, nothing written) after a failure, else
the text left and the captured text. -/
def Scanner.GetResult (s : Scanner) : Option (StringPiece × StringPiece) :=
  if s.error_ then none
  else
    let end_ := match s.capture_end_ with
      | none => s.cur_.data
      | some e => e
    some (s.cur_, s.src_.sub s.capture_start_ (end_ - s.capture_start_))

/-! ### URI parsing (`path.cpp`) -/

/-- The three views that `ParseURI` writes. -/
structure ParsedURI where
  scheme : StringPiece
  host : StringPiece
  path : StringPiece
deriving DecidableEq, Repr

/-- The function `ParseURI` of `path.cpp`. -/
def ParseURI (remaining : StringPiece) : ParsedURI :=
  match (((((Scanner.new remaining).One .LETTER).Many .LETTER_DIGIT_DOT).StopCapture).OneLiteral
      "://".toList).GetResult with
  | none =>
    -- If there's no scheme, assume the entire string is a path.
    { scheme := remaining.sub remaining.begin 0, host := remaining.sub remaining.begin 0,
      path := remaining }
  | some (remaining1, scheme) =>
    -- 1. Parse host
    match ((Scanner.new remaining1).ScanUntil '/').GetResult with
    | none =>
      -- No path, so the rest of the URI is the host.
      { scheme := scheme, host := remaining1, path := remaining1.sub remaining1.end_ 0 }
    | some (remaining2, host) =>
      -- 2. The rest is the path
      { scheme := scheme, host := host, path := remaining2 }

/-- The function `SplitPath` of `path.cpp` (not `PLATFORM_WINDOWS`). -/
def SplitPath (uri : StringPiece) : StringPiece × StringPiece :=
  let p := ParseURI uri
  match p.path.rfind '/' with
  | none =>
    -- Handle the case with no '/' in 'path'.
    (uri.sub uri.begin (p.host.end_ - uri.begin), p.path)
  | some pos =>
    if pos = 0 then
      -- Handle the case with a single leading '/' in 'path'.
      (uri.sub uri.begin (p.path.begin + 1 - uri.begin),
        p.path.sub (p.path.data + 1) (p.path.size - 1))
    else
      (uri.sub uri.begin (p.path.begin + pos - uri.begin),
        p.path.sub (p.path.data + pos + 1) (p.path.size - (pos + 1)))

/-- The function `Basename` of `path.cpp`. -/
def Basename (path : StringPiece) : StringPiece := (SplitPath path).2

/-- The view of a string stored at address `p`. -/
def StringPiece.ofString (p : Nat) (s : String) : StringPiece := ⟨p, s.toList⟩

/-- Modelled from the spec: `StringPiece::ToString()`, the copy of a view. -/
def StringPiece.ToString (s : StringPiece) : String := String.mk s.chars

/-! ### The native client as seen from the file handles -/

/-- The null pointer. -/
abbrev nullptr : Nat := 0

/-- Memory: the character stored at each address. -/
abbrev Mem := Nat → Char

/-- The conversion `static_cast<tSize>(x)`: `tSize` is a 32-bit signed
integer. -/
def toInt32 (x : Int) : Int := (x + 2 ^ 31) % 2 ^ 32 - 2 ^ 31

/-- The conversion `static_cast<tOffset>(x)`: `tOffset` is a 64-bit signed
integer. -/
def toInt64 (x : Int) : Int := (x + 2 ^ 63) % 2 ^ 64 - 2 ^ 63

/-- The view `StringPiece(p, len)` of the `len` characters stored at `p`. -/
def StringPiece.ofMem (mem : Mem) (p : Nat) (len : Nat) : StringPiece :=
  ⟨p, (List.range len).map (fun i => mem (p + i))⟩

/-- What a call of `hdfsPread` leaves behind: its return value (a `tSize`),
the value of `errno`, the memory (the call stores into the buffer) and the
native world. -/
structure PreadReply (σ : Type) where
  ret : Int
  errno : Int
  mem : Mem
  world : σ

/-- What a call of an `int`- or `tSize`-valued native function that does not
write to the caller's memory leaves behind: its return value, the value of
`errno` and the native world. -/
structure IntReply (σ : Type) where
  ret : Int
  errno : Int
  world : σ

/-- The entry points of `LibHDFS` that the file handles call, as functions of
the native world: `hdfsPread(fs, file, position, buffer, length)`,
`hdfsWrite(fs, file, buffer, length)` (the buffer is passed as the pointer
together with what is stored there) and `hdfsCloseFile(fs, file)`. -/
structure LibHDFS (σ : Type) where
  hdfsPread : σ → Mem → Nat → Nat → Int → Nat → Int → PreadReply σ
  hdfsWrite : σ → Nat → Nat → StringPiece → Int → IntReply σ
  hdfsCloseFile : σ → Nat → Nat → IntReply σ

/-- A record of one `hdfsPread` call: its arguments and what it answered. -/
structure PreadCall where
  fs : Nat
  file : Nat
  position : Int
  buffer : Nat
  length : Int
  ret : Int
  errno : Int
deriving DecidableEq, Repr

/-- A record of one `hdfsWrite` call: its arguments and what it answered. -/
structure WriteCall where
  fs : Nat
  file : Nat
  buffer : StringPiece
  length : Int
  ret : Int
  errno : Int
deriving DecidableEq, Repr

/-- A record of one `hdfsCloseFile` call: its arguments and what it answered. -/
structure CloseCall where
  fs : Nat
  file : Nat
  ret : Int
  errno : Int
deriving DecidableEq, Repr

/-! ### `RandomAccessFile` (`hadoop_file_system.h`) -/

/-- The class `RandomAccessFile`.  `hdfs_` is the table the constructor was
given; nothing in the class resets it. -/
structure RandomAccessFile (σ : Type) where
  filename_ : String
  hdfs_ : LibHDFS σ
  fs_ : Nat
  file_ : Nat

/-- The variables of the loop in `Read`, with the memory and the native
world: `offset` (a `uint64`), `n` (a `size_t`), `dst` and `s`. -/
structure ReadState (σ : Type) where
  world : σ
  mem : Mem
  offset : Nat
  n : Nat
  dst : Nat
  s : Status

/-- The loop condition of `Read`: `n > 0 && s.ok()`. -/
def ReadState.guard {σ : Type} (st : ReadState σ) : Bool := decide (0 < st.n) && st.s.ok

/-- The native call that one iteration of the loop in `Read` issues from the
state `st`. -/
def RandomAccessFile.pread {σ : Type} (f : RandomAccessFile σ) (st : ReadState σ) :
    PreadReply σ :=
  f.hdfs_.hdfsPread st.world st.mem f.fs_ f.file_ (toInt64 st.offset) st.dst (toInt32 st.n)

/-- The record of the native call of one iteration from the state `st`. -/
def RandomAccessFile.preadCall {σ : Type} (f : RandomAccessFile σ) (st : ReadState σ) :
    PreadCall :=
  { fs := f.fs_, file := f.file_, position := toInt64 st.offset, buffer := st.dst,
    length := toInt32 st.n, ret := (f.pread st).ret, errno := (f.pread st).errno }

/-- One iteration of the loop body of `Read`: the native call, then the four
branches on its return value `r` and on `errno`.  The arithmetic on `n` and
`offset` is that of `size_t` and `uint64`. -/
def RandomAccessFile.ReadBody {σ : Type} (strerror : Int → String) (f : RandomAccessFile σ)
    (st : ReadState σ) : Outcome (ReadState σ) :=
  let rep := f.pread st
  let r := rep.ret
  let st1 : ReadState σ := { st with world := rep.world, mem := rep.mem }
  if 0 < r then
    .returned { st1 with
      dst := st.dst + r.toNat
      n := (((st.n : Int) - r) % 2 ^ 64).toNat
      offset := (((st.offset : Int) + r) % 2 ^ 64).toNat }
  else if r = 0 then
    (Status.new Code.OUT_OF_RANGE "Read less bytes than requested").andThen fun s =>
      .returned { st1 with s := s }
  else if rep.errno = EINTR ∨ rep.errno = EAGAIN then
    -- hdfsPread may return EINTR too. Just retry.
    .returned st1
  else
    (IOError strerror f.filename_ rep.errno).andThen fun s => .returned { st1 with s := s }

/-- The loop `while (n > 0 && s.ok()) { ... }` of `Read`, run with an
iteration budget: the state at the exit of the loop and the native calls
issued, in order; `outOfFuel` when the budget ends with the loop still
running. -/
def RandomAccessFile.ReadLoop {σ : Type} (strerror : Int → String) (f : RandomAccessFile σ) :
    Nat → ReadState σ → Outcome (ReadState σ × List PreadCall)
  | 0, st => if st.guard then .aborted .outOfFuel else .returned (st, [])
  | k + 1, st =>
    if st.guard then
      (f.ReadBody strerror st).andThen fun st1 =>
        (RandomAccessFile.ReadLoop strerror f k st1).andThen fun r =>
          .returned (r.1, f.preadCall st :: r.2)
    else .returned (st, [])

/-- The first `k` iterations of the loop of `Read` (fewer when the loop exits
earlier): the state reached and the native calls issued so far. -/
def RandomAccessFile.ReadIter {σ : Type} (strerror : Int → String) (f : RandomAccessFile σ) :
    Nat → ReadState σ → Outcome (ReadState σ × List PreadCall)
  | 0, st => .returned (st, [])
  | k + 1, st =>
    if st.guard then
      (f.ReadBody strerror st).andThen fun st1 =>
        (RandomAccessFile.ReadIter strerror f k st1).andThen fun r =>
          .returned (r.1, f.preadCall st :: r.2)
    else .returned (st, [])

/-- What `Read` hands back: the returned status, the view written to
`*result`, and the memory, native world and native calls after the call. -/
structure ReadResult (σ : Type) where
  status : Status
  result : StringPiece
  mem : Mem
  world : σ
  calls : List PreadCall

/-- The state in which the loop of `Read` starts: `Status s; char* dst =
scratch;`. -/
def ReadState.init {σ : Type} (world : σ) (mem : Mem) (offset n : Nat) (scratch : Nat) :
    ReadState σ :=
  { world := world, mem := mem, offset := offset, n := n, dst := scratch, s := Status.OK }

/-- What `Read` does after the loop: `*result = StringPiece(scratch, dst -
scratch); return s;`. -/
def ReadState.finish {σ : Type} (scratch : Nat) (r : ReadState σ × List PreadCall) :
    ReadResult σ :=
  { status := r.1.s, result := StringPiece.ofMem r.1.mem scratch (r.1.dst - scratch),
    mem := r.1.mem, world := r.1.world, calls := r.2 }

/-- The method `RandomAccessFile::Read(offset, n, result, scratch)`. -/
def RandomAccessFile.Read {σ : Type} (strerror : Int → String) (f : RandomAccessFile σ)
    (fuel : Nat) (world : σ) (mem : Mem) (offset n : Nat) (scratch : Nat) :
    Outcome (ReadResult σ) :=
  (f.ReadLoop strerror fuel (ReadState.init world mem offset n scratch)).andThen fun r =>
    .returned (ReadState.finish scratch r)

/-- The sum of the positive return values of a sequence of native reads: the
number of bytes they delivered. -/
def bytesDelivered (calls : List PreadCall) : Int :=
  (calls.map (fun c => if 0 < c.ret then c.ret else 0)).sum

/-! ### `WritableFile` (`hadoop_file_system.h`) -/

/-- The class `WritableFile`.  `hdfs_` is a pointer that `Close` resets:
`none` is `nullptr`. -/
structure WritableFile (σ : Type) where
  filename_ : String
  hdfs_ : Option (LibHDFS σ)
  fs_ : Nat
  file_ : Nat

/-- What `Append` hands back: the returned status, and the native world and
native calls after the call. -/
structure AppendResult (σ : Type) where
  status : Status
  world : σ
  calls : List WriteCall

/-- The method `WritableFile::Append(data)`. -/
def WritableFile.Append {σ : Type} (strerror : Int → String) (f : WritableFile σ) (world : σ)
    (data : StringPiece) : Outcome (AppendResult σ) :=
  match f.hdfs_ with
  | none => .aborted .nullDereference
  | some hdfs =>
    let rep := hdfs.hdfsWrite world f.fs_ f.file_ data (toInt32 data.size)
    let call : WriteCall :=
      { fs := f.fs_, file := f.file_, buffer := data, length := toInt32 data.size,
        ret := rep.ret, errno := rep.errno }
    if rep.ret = -1 then
      (IOError strerror f.filename_ rep.errno).andThen fun s =>
        .returned { status := s, world := rep.world, calls := [call] }
    else .returned { status := Status.OK, world := rep.world, calls := [call] }

/-- What `Close` hands back: the returned status, the object after the call,
and the native world and native calls after the call. -/
structure CloseResult (σ : Type) where
  status : Status
  file : WritableFile σ
  world : σ
  calls : List CloseCall

/-- The method `WritableFile::Close()`. -/
def WritableFile.Close {σ : Type} (strerror : Int → String) (f : WritableFile σ) (world : σ) :
    Outcome (CloseResult σ) :=
  match f.hdfs_ with
  | none => .aborted .nullDereference
  | some hdfs =>
    let rep := hdfs.hdfsCloseFile world f.fs_ f.file_
    let call : CloseCall := { fs := f.fs_, file := f.file_, ret := rep.ret, errno := rep.errno }
    let closed : WritableFile σ := { f with hdfs_ := none, fs_ := nullptr, file_ := nullptr }
    if rep.ret ≠ 0 then
      (IOError strerror f.filename_ rep.errno).andThen fun result =>
        .returned { status := result, file := closed, world := rep.world, calls := [call] }
    else .returned { status := Status.OK, file := closed, world := rep.world, calls := [call] }

/-- The destructor `WritableFile::~WritableFile()`: `if (file_ != nullptr)
Close();`, the status dropped.  It hands back the native world and the native
calls. -/
def WritableFile.destroy {σ : Type} (strerror : Int → String) (f : WritableFile σ) (world : σ) :
    Outcome (σ × List CloseCall) :=
  if f.file_ ≠ nullptr then
    (f.Close strerror world).andThen fun r => .returned (r.world, r.calls)
  else .returned (world, [])

/-- The write loop of `tools/convert_image_to_hdfs.cpp`: one `Append` per
record, in order; the statuses returned and the native world at the end. -/
def AppendAll {σ : Type} (strerror : Int → String) (f : WritableFile σ) :
    σ → List StringPiece → Outcome (List Status × σ)
  | world, [] => .returned ([], world)
  | world, data :: rest =>
    (f.Append strerror world data).andThen fun r =>
      (AppendAll strerror f r.world rest).andThen fun rs =>
        .returned (r.status :: rs.1, rs.2)

/-! ### Native clients used in the statements -/

/-- The contract of a faithful native client over one file, whose contents in
the native world `w` are `content w`: a write of `length` characters of the
buffer appends them to the file and returns `length`; a positional read
inside the file with a positive `length` delivers between one and `length`
of the characters stored from `position` on into the buffer, returns their
number, and changes neither the rest of the memory nor the file. -/
structure Faithful {σ : Type} (hdfs : LibHDFS σ) (content : σ → List Char) : Prop where
  write : ∀ (w : σ) (fs file : Nat) (buffer : StringPiece) (length : Int),
    0 ≤ length → length ≤ buffer.size →
    (hdfs.hdfsWrite w fs file buffer length).ret = length ∧
    content (hdfs.hdfsWrite w fs file buffer length).world
      = content w ++ buffer.chars.take length.toNat
  pread : ∀ (w : σ) (mem : Mem) (fs file : Nat) (position : Int) (buffer : Nat) (length : Int),
    0 ≤ position → position < (content w).length → 0 < length →
    0 < (hdfs.hdfsPread w mem fs file position buffer length).ret ∧
    (hdfs.hdfsPread w mem fs file position buffer length).ret ≤ length ∧
    position + (hdfs.hdfsPread w mem fs file position buffer length).ret ≤ (content w).length ∧
    content (hdfs.hdfsPread w mem fs file position buffer length).world = content w ∧
    ∀ a : Nat, (hdfs.hdfsPread w mem fs file position buffer length).mem a =
      if buffer ≤ a ∧ a < buffer + (hdfs.hdfsPread w mem fs file position buffer length).ret.toNat
      then (content w).getD (position.toNat + (a - buffer)) ' ' else mem a

/-- A faithful native client over one file, the native world being the
contents of the file.  A read delivers at most `chunk` characters a call; a
negative position or length is refused with `EINVAL`, as libhdfs does. -/
def fileLib (chunk : Nat) : LibHDFS (List Char) where
  hdfsPread := fun w mem _ _ position buffer length =>
    if position < 0 ∨ length < 0 then ⟨-1, EINVAL, mem, w⟩
    else
      let r := min (min length.toNat (w.length - position.toNat)) chunk
      ⟨(r : Int), 0,
        fun a => if buffer ≤ a ∧ a < buffer + r then w.getD (position.toNat + (a - buffer)) ' '
          else mem a, w⟩
  hdfsWrite := fun w _ _ buffer length =>
    if length < 0 then ⟨-1, EINVAL, w⟩ else ⟨length, 0, w ++ buffer.chars.take length.toNat⟩
  hdfsCloseFile := fun w _ _ => ⟨0, 0, w⟩

/-- A native client that answers from a script: the native world is the list
of the answers (return value, `errno`) still to give, each call takes the
next one, and a spent script answers `(0, 0)`.  It stores nothing. -/
def scriptLib : LibHDFS (List (Int × Int)) where
  hdfsPread := fun w mem _ _ _ _ _ =>
    match w with
    | [] => ⟨0, 0, mem, []⟩
    | a :: rest => ⟨a.1, a.2, mem, rest⟩
  hdfsWrite := fun w _ _ _ _ =>
    match w with
    | [] => ⟨0, 0, []⟩
    | a :: rest => ⟨a.1, a.2, rest⟩
  hdfsCloseFile := fun w _ _ =>
    match w with
    | [] => ⟨0, 0, []⟩
    | a :: rest => ⟨a.1, a.2, rest⟩

/-- A description of error numbers for the examples. -/
def strerrorStub (e : Int) : String := "errno " ++ toString e

/-- A memory holding `'.'` everywhere. -/
def blankMem : Mem := fun _ => '.'

/-- A `RandomAccessFile` on the scripted client. -/
def scriptRAF : RandomAccessFile (List (Int × Int)) :=
  { filename_ := "hdfs://nn1/data", hdfs_ := scriptLib, fs_ := 1, file_ := 2 }

/-- A `WritableFile` on the scripted client. -/
def scriptWF : WritableFile (List (Int × Int)) :=
  { filename_ := "hdfs://nn1/data", hdfs_ := some scriptLib, fs_ := 1, file_ := 2 }

/-- What `Read` of five bytes hands back on the scripted client answering 2,
then -1 with `EINTR`, then 3. -/
def scriptReadResult : ReadResult (List (Int × Int)) :=
  { status := Status.OK, result := ⟨100, ['.', '.', '.', '.', '.']⟩, mem := blankMem,
    world := [],
    calls :=
      [{ fs := 1, file := 2, position := 0, buffer := 100, length := 5, ret := 2, errno := 0 },
       { fs := 1, file := 2, position := 2, buffer := 102, length := 3, ret := -1,
         errno := EINTR },
       { fs := 1, file := 2, position := 2, buffer := 102, length := 3, ret := 3, errno := 0 }] }

/-- The loop state of `Read` of five bytes at offset 0 on the scripted client
after two iterations (2 bytes delivered, then a retry), with the answer
`last` still to come. -/
def scriptMidState (last : Int × Int) : ReadState (List (Int × Int)) :=
  { world := [last], mem := blankMem, offset := 2, n := 3, dst := 102, s := Status.OK }

/-- The native calls of those two iterations. -/
def scriptMidCalls : List PreadCall :=
  [{ fs := 1, file := 2, position := 0, buffer := 100, length := 5, ret := 2, errno := 0 },
   { fs := 1, file := 2, position := 2, buffer := 102, length := 3, ret := -1, errno := EINTR }]

/-- A `WritableFile` on the file client delivering at most 3 bytes a read. -/
def fileWF : WritableFile (List Char) :=
  { filename_ := "hdfs://nn1/data", hdfs_ := some (fileLib 3), fs_ := 1, file_ := 2 }

/-- A `RandomAccessFile` on the same client. -/
def fileRAF : RandomAccessFile (List Char) :=
  { filename_ := "hdfs://nn1/data", hdfs_ := fileLib 3, fs_ := 1, file_ := 3 }

/-- Three records of 5, 3 and 4 bytes. -/
def sampleRecords : List StringPiece :=
  [⟨50, "hello".toList⟩, ⟨60, "wor".toList⟩, ⟨70, "ld!!".toList⟩]

/-- A record of `2^32 + 1` bytes. -/
def bigRecord : StringPiece := ⟨50, List.replicate (2 ^ 32 + 1) 'a'⟩

/-! ### Reference data for the statements -/

/-- The rows of the reference table of `ErrnoToCode`: the error numbers named
for each kind. -/
def referenceTable : List (List Int × Code) :=
  [([0], Code.OK),
   ([EINVAL, ENAMETOOLONG, E2BIG, EFAULT, EILSEQ], Code.INVALID_ARGUMENT),
   ([ETIMEDOUT, ETIME], Code.DEADLINE_EXCEEDED),
   ([ENOENT, ENODEV, ENXIO, ESRCH], Code.NOT_FOUND),
   ([EEXIST], Code.ALREADY_EXISTS),
   ([EPERM, EACCES, EROFS], Code.PERMISSION_DENIED),
   ([ENOTEMPTY, EBUSY, ENOTDIR, EPIPE], Code.FAILED_PRECONDITION),
   ([ENOSPC, EDQUOT, EMFILE, ENFILE], Code.RESOURCE_EXHAUSTED),
   ([EFBIG, EOVERFLOW, ERANGE], Code.OUT_OF_RANGE),
   ([ENOSYS, ENOTSUP, EPFNOSUPPORT, EPROTONOSUPPORT], Code.UNIMPLEMENTED),
   ([ECONNREFUSED, ECONNRESET, ENETUNREACH, EHOSTUNREACH], Code.UNAVAILABLE),
   ([EDEADLK, ESTALE], Code.ABORTED),
   ([ECANCELED], Code.CANCELLED)]

/-- The full table of `ErrnoToCode`: for each kind other than `UNKNOWN`, every
error number that the `switch` gives this kind, those that the reference table
leaves out included. -/
def switchTable : List (List Int × Code) :=
  [([0], Code.OK),
   ([EINVAL, ENAMETOOLONG, E2BIG, EDESTADDRREQ, EDOM, EFAULT, EILSEQ, ENOPROTOOPT, ENOSTR,
     ENOTSOCK, ENOTTY, EPROTOTYPE, ESPIPE], Code.INVALID_ARGUMENT),
   ([ETIMEDOUT, ETIME], Code.DEADLINE_EXCEEDED),
   ([ENODEV, ENOENT, ENXIO, ESRCH], Code.NOT_FOUND),
   ([EEXIST, EADDRNOTAVAIL, EALREADY], Code.ALREADY_EXISTS),
   ([EPERM, EACCES, EROFS], Code.PERMISSION_DENIED),
   ([ENOTEMPTY, EISDIR, ENOTDIR, EADDRINUSE, EBADF, EBUSY, ECHILD, EISCONN, ENOTBLK,
     ENOTCONN, EPIPE, ESHUTDOWN, ETXTBSY], Code.FAILED_PRECONDITION),
   ([ENOSPC, EDQUOT, EMFILE, EMLINK, ENFILE, ENOBUFS, ENODATA, ENOMEM, ENOSR, EUSERS],
     Code.RESOURCE_EXHAUSTED),
   ([EFBIG, EOVERFLOW, ERANGE], Code.OUT_OF_RANGE),
   ([ENOSYS, ENOTSUP, EAFNOSUPPORT, EPFNOSUPPORT, EPROTONOSUPPORT, ESOCKTNOSUPPORT, EXDEV],
     Code.UNIMPLEMENTED),
   ([EAGAIN, ECONNREFUSED, ECONNABORTED, ECONNRESET, EINTR, EHOSTDOWN, EHOSTUNREACH,
     ENETDOWN, ENETRESET, ENETUNREACH, ENOLCK, ENOLINK, ENONET], Code.UNAVAILABLE),
   ([EDEADLK, ESTALE], Code.ABORTED),
   ([ECANCELED], Code.CANCELLED)]

/-- The error numbers to which the `switch` gives a kind other than `UNKNOWN`
and which the reference table does not name. -/
def unlistedErrnos : List Int :=
  [EDESTADDRREQ, EDOM, ENOPROTOOPT, ENOSTR, ENOTSOCK, ENOTTY, EPROTOTYPE, ESPIPE,
   EADDRNOTAVAIL, EALREADY,
   EISDIR, EADDRINUSE, EBADF, ECHILD, EISCONN, ENOTBLK, ENOTCONN, ESHUTDOWN, ETXTBSY,
   EMLINK, ENOBUFS, ENODATA, ENOMEM, ENOSR, EUSERS,
   EAFNOSUPPORT, ESOCKTNOSUPPORT, EXDEV,
   EAGAIN, ECONNABORTED, EINTR, EHOSTDOWN, ENETDOWN, ENETRESET, ENOLCK, ENOLINK, ENONET]

/-- The classified error numbers: `0` and the error numbers that carry a
`case` label of a kind other than `UNKNOWN` in the `switch` of `ErrnoToCode`. -/
def classifiedErrnos : List Int :=
  [0,
   EINVAL, ENAMETOOLONG, E2BIG, EDESTADDRREQ, EDOM, EFAULT, EILSEQ, ENOPROTOOPT, ENOSTR,
   ENOTSOCK, ENOTTY, EPROTOTYPE, ESPIPE,
   ETIMEDOUT, ETIME,
   ENODEV, ENOENT, ENXIO, ESRCH,
   EEXIST, EADDRNOTAVAIL, EALREADY,
   EPERM, EACCES, EROFS,
   ENOTEMPTY, EISDIR, ENOTDIR, EADDRINUSE, EBADF, EBUSY, ECHILD, EISCONN, ENOTBLK, ENOTCONN,
   EPIPE, ESHUTDOWN, ETXTBSY,
   ENOSPC, EDQUOT, EMFILE, EMLINK, ENFILE, ENOBUFS, ENODATA, ENOMEM, ENOSR, EUSERS,
   EFBIG, EOVERFLOW, ERANGE,
   ENOSYS, ENOTSUP, EAFNOSUPPORT, EPFNOSUPPORT, EPROTONOSUPPORT, ESOCKTNOSUPPORT, EXDEV,
   EAGAIN, ECONNREFUSED, ECONNABORTED, ECONNRESET, EINTR, EHOSTDOWN, EHOSTUNREACH, ENETDOWN,
   ENETRESET, ENETUNREACH, ENOLCK, ENOLINK, ENONET,
   EDEADLK, ESTALE,
   ECANCELED]

/-- A well-formed scheme: a letter followed by one or more letters, digits or
dots. -/
def IsScheme : List Char → Bool
  | c :: d :: rest => IsLetter c && (d :: rest).all (Matches .LETTER_DIGIT_DOT)
  | _ => false

/-- The text begins with a well-formed scheme followed by `://`. -/
def BeginsWithScheme (l : List Char) : Prop :=
  ∃ s rest : List Char, IsScheme s = true ∧ l = s ++ "://".toList ++ rest

/-- The part of a text after its last `/`; the whole text when it has no
`/`. -/
def afterLastSlash (l : List Char) : List Char :=
  (l.reverse.takeWhile (fun ch => ch != '/')).reverse

/-! ### The named constructors (`hadoop_file_system.cpp`) and `Status::ToString` -/

/-- The function `Cancelled` declared by `DECLARE_ERROR(Cancelled, CANCELLED)`. -/
def Cancelled (args : String) : Outcome Status := Status.new Code.CANCELLED args

/-- The function `InvalidArgument` declared by `DECLARE_ERROR`. -/
def InvalidArgument (args : String) : Outcome Status := Status.new Code.INVALID_ARGUMENT args

/-- The function `NotFound` declared by `DECLARE_ERROR`. -/
def NotFound (args : String) : Outcome Status := Status.new Code.NOT_FOUND args

/-- The function `AlreadyExists` declared by `DECLARE_ERROR`. -/
def AlreadyExists (args : String) : Outcome Status := Status.new Code.ALREADY_EXISTS args

/-- The function `ResourceExhausted` declared by `DECLARE_ERROR`. -/
def ResourceExhausted (args : String) : Outcome Status :=
  Status.new Code.RESOURCE_EXHAUSTED args

/-- The function `Unavailable` declared by `DECLARE_ERROR`. -/
def Unavailable (args : String) : Outcome Status := Status.new Code.UNAVAILABLE args

/-- The function `FailedPrecondition` declared by `DECLARE_ERROR`. -/
def FailedPrecondition (args : String) : Outcome Status :=
  Status.new Code.FAILED_PRECONDITION args

/-- The function `OutOfRange` declared by `DECLARE_ERROR`. -/
def OutOfRange (args : String) : Outcome Status := Status.new Code.OUT_OF_RANGE args

/-- The function `Unimplemented` declared by `DECLARE_ERROR`. -/
def Unimplemented (args : String) : Outcome Status := Status.new Code.UNIMPLEMENTED args

/-- The function `Internal` declared by `DECLARE_ERROR`. -/
def Internal (args : String) : Outcome Status := Status.new Code.INTERNAL args

/-- The function `Aborted` declared by `DECLARE_ERROR`. -/
def Aborted (args : String) : Outcome Status := Status.new Code.ABORTED args

/-- The function `DeadlineExceeded` declared by `DECLARE_ERROR`. -/
def DeadlineExceeded (args : String) : Outcome Status :=
  Status.new Code.DEADLINE_EXCEEDED args

/-- The function `DataLoss` declared by `DECLARE_ERROR`. -/
def DataLoss (args : String) : Outcome Status := Status.new Code.DATA_LOSS args

/-- The function `Unknown` declared by `DECLARE_ERROR`. -/
def Unknown (args : String) : Outcome Status := Status.new Code.UNKNOWN args

/-- The function `PermissionDenied` declared by `DECLARE_ERROR`. -/
def PermissionDenied (args : String) : Outcome Status :=
  Status.new Code.PERMISSION_DENIED args

/-- The function `Unauthenticated` declared by `DECLARE_ERROR`. -/
def Unauthenticated (args : String) : Outcome Status := Status.new Code.UNAUTHENTICATED args

/-- The sixteen named constructors. -/
def namedConstructors : List (String → Outcome Status) :=
  [Cancelled, InvalidArgument, NotFound, AlreadyExists, ResourceExhausted, Unavailable,
   FailedPrecondition, OutOfRange, Unimplemented, Internal, Aborted, DeadlineExceeded, DataLoss,
   Unknown, PermissionDenied, Unauthenticated]

/-- The Status values that the layer can construct: the default OK value,
`Status(code, message)`, a named constructor, `IOError`. -/
inductive Constructible (strerror : Int → String) : Status → Prop where
  | ok : Constructible strerror Status.OK
  | new (code : Code) (msg : String) (s : Status) :
      Status.new code msg = .returned s → Constructible strerror s
  | named (f : String → Outcome Status) (args : String) (s : Status) :
      f ∈ namedConstructors → f args = .returned s → Constructible strerror s
  | ioError (context : String) (err_number : Int) (s : Status) :
      IOError strerror context err_number = .returned s → Constructible strerror s

/-- The call `snprintf(tmp, sizeof(tmp), ...)` with `char tmp[30]`: at most 29
characters of the formatted text are stored. -/
def snprintf30 (formatted : String) : String := String.mk (formatted.data.take 29)

/-- The name that `ToString` gives a code: the `switch` of `status.cpp`, the
`default` branch formatting `static_cast<int>(code())` with `%d`. -/
def Status.typeName (code : Code) : String :=
  if code = Code.CANCELLED then "Cancelled"
  else if code = Code.UNKNOWN then "Unknown"
  else if code = Code.INVALID_ARGUMENT then "Invalid argument"
  else if code = Code.DEADLINE_EXCEEDED then "Deadline exceeded"
  else if code = Code.NOT_FOUND then "Not found"
  else if code = Code.ALREADY_EXISTS then "Already exists"
  else if code = Code.PERMISSION_DENIED then "Permission denied"
  else if code = Code.UNAUTHENTICATED then "Unauthenticated"
  else if code = Code.RESOURCE_EXHAUSTED then "Resource exhausted"
  else if code = Code.FAILED_PRECONDITION then "Failed precondition"
  else if code = Code.ABORTED then "Aborted"
  else if code = Code.OUT_OF_RANGE then "Out of range"
  else if code = Code.UNIMPLEMENTED then "Unimplemented"
  else if code = Code.INTERNAL then "Internal"
  else if code = Code.UNAVAILABLE then "Unavailable"
  else if code = Code.DATA_LOSS then "Data loss"
  else snprintf30 ("Unknown code(" ++ toString (toInt32 code) ++ ")")

/-- The method `Status::ToString` of `status.cpp`. -/
def Status.ToString (s : Status) : String :=
  match s.state_ with
  | none => "OK"
  | some st => Status.typeName st.code ++ ": " ++ st.msg

/-- The kinds that `ToString` names, with their names. -/
def kindNames : List (Code × String) :=
  [(Code.CANCELLED, "Cancelled"), (Code.UNKNOWN, "Unknown"),
   (Code.INVALID_ARGUMENT, "Invalid argument"), (Code.DEADLINE_EXCEEDED, "Deadline exceeded"),
   (Code.NOT_FOUND, "Not found"), (Code.ALREADY_EXISTS, "Already exists"),
   (Code.PERMISSION_DENIED, "Permission denied"), (Code.UNAUTHENTICATED, "Unauthenticated"),
   (Code.RESOURCE_EXHAUSTED, "Resource exhausted"),
   (Code.FAILED_PRECONDITION, "Failed precondition"), (Code.ABORTED, "Aborted"),
   (Code.OUT_OF_RANGE, "Out of range"), (Code.UNIMPLEMENTED, "Unimplemented"),
   (Code.INTERNAL, "Internal"), (Code.UNAVAILABLE, "Unavailable"),
   (Code.DATA_LOSS, "Data loss")]

/-! ### The native client as seen from the filesystem facade -/

/-- The record `hdfsFileInfo` of libhdfs, the fields that the facade reads:
the kind of the object (`'F'` or `'D'`), its name, its modification time in
seconds and its size in bytes. -/
structure hdfsFileInfo where
  mKind : Int
  mName : String
  mLastMod : Int
  mSize : Int
deriving DecidableEq, Repr

/-- The kind `kObjectKindFile` of libhdfs, the character `'F'`. -/
abbrev kObjectKindFile : Int := 70

/-- The kind `kObjectKindDirectory` of libhdfs, the character `'D'`. -/
abbrev kObjectKindDirectory : Int := 68

/-- The open flag `O_RDONLY` (`<fcntl.h>`, Linux value). -/
abbrev O_RDONLY : Int := 0

/-- The open flag `O_WRONLY` (`<fcntl.h>`, Linux value). -/
abbrev O_WRONLY : Int := 1

/-- The open flag `O_APPEND` (`<fcntl.h>`, Linux value). -/
abbrev O_APPEND : Int := 1024

/-- What a call of a pointer-valued native function leaves behind: the pointer
returned, the value of `errno` and the native world. -/
structure PtrReply (σ : Type) where
  ret : Nat
  errno : Int
  world : σ

/-- What a call of a `void` native function leaves behind. -/
structure VoidReply (σ : Type) where
  errno : Int
  world : σ

/-- What a call of `hdfsListDirectory(fs, path, &entries)` leaves behind: the
array returned (`none` is `nullptr`, else the record stored at each index),
the value of `entries` (which the caller sets to 0 before the call), the value
of `errno` and the native world. -/
structure ListReply (σ : Type) where
  ret : Option (Nat → hdfsFileInfo)
  numEntries : Int
  errno : Int
  world : σ

/-- What a call of `hdfsGetPathInfo` leaves behind: the record returned
(`none` is `nullptr`), the value of `errno` and the native world. -/
structure InfoReply (σ : Type) where
  ret : Option hdfsFileInfo
  errno : Int
  world : σ

/-- The class `LibHDFS` as the filesystem facade uses it: the status of the
load (`status()`), the entry points of the file handles, and the entry points
that `HadoopFileSystem` calls, as functions of the native world.  A C string
argument is the `std::string` it is taken from, `none` being `nullptr`. -/
structure LibHDFSFull (σ : Type) extends LibHDFS σ where
  status_ : Status
  hdfsBuilderConnect : σ → Nat → PtrReply σ
  hdfsNewBuilder : σ → PtrReply σ
  hdfsBuilderSetNameNode : σ → Nat → Option String → VoidReply σ
  hdfsBuilderSetKerbTicketCachePath : σ → Nat → String → VoidReply σ
  hdfsOpenFile : σ → Nat → String → Int → Int → Int → Int → PtrReply σ
  hdfsExists : σ → Nat → String → IntReply σ
  hdfsListDirectory : σ → Nat → String → ListReply σ
  hdfsFreeFileInfo : σ → Int → VoidReply σ
  hdfsDelete : σ → Nat → String → Int → IntReply σ
  hdfsCreateDirectory : σ → Nat → String → IntReply σ
  hdfsGetPathInfo : σ → Nat → String → InfoReply σ
  hdfsRename : σ → Nat → String → String → IntReply σ
  hdfsCopy : σ → Nat → String → Nat → String → IntReply σ
  hdfsMove : σ → Nat → String → Nat → String → IntReply σ

/-- A record of one native call of the facade: the entry point, its arguments
and what it returned (for an array or a record, whether it was null). -/
inductive NativeCall where
  | hdfsNewBuilder (ret : Nat)
  | hdfsBuilderSetNameNode (bld : Nat) (nn : Option String)
  | hdfsBuilderSetKerbTicketCachePath (bld : Nat) (kerbTicketCachePath : String)
  | hdfsBuilderConnect (bld : Nat) (ret : Nat)
  | hdfsOpenFile (fs : Nat) (path : String) (flags : Int) (ret : Nat)
  | hdfsExists (fs : Nat) (path : String) (ret : Int)
  | hdfsListDirectory (fs : Nat) (path : String) (isNull : Bool) (numEntries : Int)
  | hdfsFreeFileInfo (numEntries : Int)
  | hdfsDelete (fs : Nat) (path : String) (recursive : Int) (ret : Int)
  | hdfsCreateDirectory (fs : Nat) (path : String) (ret : Int)
  | hdfsGetPathInfo (fs : Nat) (path : String) (isNull : Bool)
  | hdfsRename (fs : Nat) (oldPath : String) (newPath : String) (ret : Int)
  | hdfsCopy (srcFS : Nat) (src : String) (dstFS : Nat) (dst : String) (ret : Int)
  | hdfsMove (srcFS : Nat) (src : String) (dstFS : Nat) (dst : String) (ret : Int)
deriving DecidableEq, Repr

/-- The path strings that a native call was handed. -/
def NativeCall.paths : NativeCall → List String
  | .hdfsOpenFile _ path _ _ => [path]
  | .hdfsExists _ path _ => [path]
  | .hdfsListDirectory _ path _ _ => [path]
  | .hdfsDelete _ path _ _ => [path]
  | .hdfsCreateDirectory _ path _ => [path]
  | .hdfsGetPathInfo _ path _ => [path]
  | .hdfsRename _ oldPath newPath _ => [oldPath, newPath]
  | .hdfsCopy _ src _ dst _ => [src, dst]
  | .hdfsMove _ src _ dst _ => [src, dst]
  | _ => []

/-- The result of a run over the native world: the value handed back, the
native world after the run and the native calls issued, in order. -/
structure Run (σ α : Type) where
  value : α
  world : σ
  calls : List NativeCall

/-- A piece of facade code: from a native world, a run or an abort. -/
def Native (σ α : Type) : Type := σ → Outcome (Run σ α)

/-- The code that hands back `a` and issues no native call. -/
def Native.ret {σ α : Type} (a : α) : Native σ α :=
  fun w => .returned { value := a, world := w, calls := [] }

/-- Sequencing: `m`, then `k` on what `m` handed back; the calls of both, in
order. -/
def Native.andThen {σ α β : Type} (m : Native σ α) (k : α → Native σ β) : Native σ β :=
  fun w =>
    (m w).andThen fun r =>
      (k r.value r.world).andThen fun r1 =>
        .returned { value := r1.value, world := r1.world, calls := r.calls ++ r1.calls }

/-- The code that hands back what an outcome returned, or aborts with it. -/
def Native.lift {σ α : Type} (o : Outcome α) : Native σ α :=
  fun w => o.andThen fun a => .returned { value := a, world := w, calls := [] }

/-- What a native call answers to the facade: its return value and the value
of `errno` after it. -/
structure Answer (α : Type) where
  ret : α
  errno : Int

/-- What `hdfsListDirectory` answers: the array, the value of `entries` and the
value of `errno` after the call. -/
structure ListAnswer where
  info : Option (Nat → hdfsFileInfo)
  entries : Int
  errno : Int

namespace LibHDFSFull

variable {σ : Type} (hdfs : LibHDFSFull σ)

/-- The call `hdfs_->hdfsNewBuilder()`. -/
def callNewBuilder : Native σ (Answer Nat) := fun w =>
  let rep := hdfs.hdfsNewBuilder w
  .returned { value := ⟨rep.ret, rep.errno⟩, world := rep.world,
              calls := [.hdfsNewBuilder rep.ret] }

/-- The call `hdfs_->hdfsBuilderSetNameNode(builder, nn)`. -/
def callBuilderSetNameNode (bld : Nat) (nn : Option String) : Native σ (Answer Unit) := fun w =>
  let rep := hdfs.hdfsBuilderSetNameNode w bld nn
  .returned { value := ⟨(), rep.errno⟩, world := rep.world,
              calls := [.hdfsBuilderSetNameNode bld nn] }

/-- The call `hdfs_->hdfsBuilderSetKerbTicketCachePath(builder, path)`. -/
def callBuilderSetKerbTicketCachePath (bld : Nat) (path : String) : Native σ (Answer Unit) :=
  fun w =>
    let rep := hdfs.hdfsBuilderSetKerbTicketCachePath w bld path
    .returned { value := ⟨(), rep.errno⟩, world := rep.world,
                calls := [.hdfsBuilderSetKerbTicketCachePath bld path] }

/-- The call `hdfs_->hdfsBuilderConnect(builder)`. -/
def callBuilderConnect (bld : Nat) : Native σ (Answer Nat) := fun w =>
  let rep := hdfs.hdfsBuilderConnect w bld
  .returned { value := ⟨rep.ret, rep.errno⟩, world := rep.world,
              calls := [.hdfsBuilderConnect bld rep.ret] }

/-- The call `hdfs_->hdfsOpenFile(fs, path, flags, 0, 0, 0)`. -/
def callOpenFile (fs : Nat) (path : String) (flags : Int) : Native σ (Answer Nat) := fun w =>
  let rep := hdfs.hdfsOpenFile w fs path flags 0 0 0
  .returned { value := ⟨rep.ret, rep.errno⟩, world := rep.world,
              calls := [.hdfsOpenFile fs path flags rep.ret] }

/-- The call `hdfs_->hdfsExists(fs, path)`. -/
def callExists (fs : Nat) (path : String) : Native σ (Answer Int) := fun w =>
  let rep := hdfs.hdfsExists w fs path
  .returned { value := ⟨rep.ret, rep.errno⟩, world := rep.world,
              calls := [.hdfsExists fs path rep.ret] }

/-- The call `hdfs_->hdfsListDirectory(fs, path, &entries)` after
`int entries = 0;`. -/
def callListDirectory (fs : Nat) (path : String) : Native σ ListAnswer := fun w =>
  let rep := hdfs.hdfsListDirectory w fs path
  .returned { value := ⟨rep.ret, rep.numEntries, rep.errno⟩, world := rep.world,
              calls := [.hdfsListDirectory fs path rep.ret.isNone rep.numEntries] }

/-- The call `hdfs_->hdfsFreeFileInfo(info, numEntries)`. -/
def callFreeFileInfo (numEntries : Int) : Native σ (Answer Unit) := fun w =>
  let rep := hdfs.hdfsFreeFileInfo w numEntries
  .returned { value := ⟨(), rep.errno⟩, world := rep.world,
              calls := [.hdfsFreeFileInfo numEntries] }

/-- The call `hdfs_->hdfsDelete(fs, path, recursive)`. -/
def callDelete (fs : Nat) (path : String) (recursive : Int) : Native σ (Answer Int) := fun w =>
  let rep := hdfs.hdfsDelete w fs path recursive
  .returned { value := ⟨rep.ret, rep.errno⟩, world := rep.world,
              calls := [.hdfsDelete fs path recursive rep.ret] }

/-- The call `hdfs_->hdfsCreateDirectory(fs, path)`. -/
def callCreateDirectory (fs : Nat) (path : String) : Native σ (Answer Int) := fun w =>
  let rep := hdfs.hdfsCreateDirectory w fs path
  .returned { value := ⟨rep.ret, rep.errno⟩, world := rep.world,
              calls := [.hdfsCreateDirectory fs path rep.ret] }

/-- The call `hdfs_->hdfsGetPathInfo(fs, path)`. -/
def callGetPathInfo (fs : Nat) (path : String) : Native σ (Answer (Option hdfsFileInfo)) :=
  fun w =>
    let rep := hdfs.hdfsGetPathInfo w fs path
    .returned { value := ⟨rep.ret, rep.errno⟩, world := rep.world,
                calls := [.hdfsGetPathInfo fs path rep.ret.isNone] }

/-- The call `hdfs_->hdfsRename(fs, oldPath, newPath)`. -/
def callRename (fs : Nat) (oldPath newPath : String) : Native σ (Answer Int) := fun w =>
  let rep := hdfs.hdfsRename w fs oldPath newPath
  .returned { value := ⟨rep.ret, rep.errno⟩, world := rep.world,
              calls := [.hdfsRename fs oldPath newPath rep.ret] }

/-- The call `hdfs_->hdfsCopy(srcFS, src, dstFS, dst)`. -/
def callCopy (srcFS : Nat) (src : String) (dstFS : Nat) (dst : String) :
    Native σ (Answer Int) := fun w =>
  let rep := hdfs.hdfsCopy w srcFS src dstFS dst
  .returned { value := ⟨rep.ret, rep.errno⟩, world := rep.world,
              calls := [.hdfsCopy srcFS src dstFS dst rep.ret] }

/-- The call `hdfs_->hdfsMove(srcFS, src, dstFS, dst)`. -/
def callMove (srcFS : Nat) (src : String) (dstFS : Nat) (dst : String) :
    Native σ (Answer Int) := fun w =>
  let rep := hdfs.hdfsMove w srcFS src dstFS dst
  .returned { value := ⟨rep.ret, rep.errno⟩, world := rep.world,
              calls := [.hdfsMove srcFS src dstFS dst rep.ret] }

end LibHDFSFull

/-! ### `HadoopFileSystem` (`hadoop_file_system.cpp`) -/

/-- The process environment and the C library as the facade uses them:
`strerror` and `getenv` (`none` is a null result). -/
structure Env where
  strerror : Int → String
  getenv : String → Option String

/-- The class `HadoopFileSystem`: the pointer `hdfs_` to the loaded table. -/
structure HadoopFileSystem (σ : Type) where
  hdfs_ : LibHDFSFull σ

/-- The view of a `std::string` (the implicit conversion to `StringPiece`);
addresses are counted from the start of its buffer. -/
def StringPiece.ofStd (s : String) : StringPiece := ⟨0, s.toList⟩

/-- Modelled from the spec: the record `FileStatistics` (`file_statistics.h`
is not among the sources): length, modification time in nanoseconds and the
directory flag. -/
structure FileStatistics where
  length : Int
  mtime_nsec : Int
  is_directory : Bool
deriving DecidableEq, Repr

/-- The value of type `double` nearest to an integer (round to nearest, ties
to even, 53 bits of precision), which is again an integer: the conversion of
an `int64` to `double`, and the rounding of a product of two such values. -/
def doubleOfInt (v : Int) : Int :=
  let a := v.natAbs
  if a < 2 ^ 53 then v
  else
    let e := Nat.log2 a - 52
    let q := a / 2 ^ e
    let r := a % 2 ^ e
    let q1 := if 2 ^ (e - 1) < r ∨ (r = 2 ^ (e - 1) ∧ q % 2 = 1) then q + 1 else q
    v.sign * ((q1 * 2 ^ e : Nat) : Int)

/-- The conversion of a `double` of integer value to `int64`.  Outside the
range of `int64` the conversion is undefined in C++; the value here is the one
the x86-64 instruction gives, the least `int64`. -/
def int64OfDouble (d : Int) : Int :=
  if -2 ^ 63 ≤ d ∧ d < 2 ^ 63 then d else -2 ^ 63

/-- What `Connect(fname, &fs)` hands back: the returned status and the value
of `*fs` after the call, the caller having set it to `nullptr`. -/
structure Connected where
  status : Status
  fs : Nat
deriving DecidableEq, Repr

/-- The operation `clear()` of `std::vector`: the contents are dropped. -/
def vectorClear (_contents : List String) : List String := []

namespace HadoopFileSystem

variable {σ : Type} (env : Env) (self : HadoopFileSystem σ)

/-- The method `HadoopFileSystem::TranslateName`. -/
def TranslateName (name : String) : String :=
  (ParseURI (StringPiece.ofStd name)).path.ToString

/-- The end of `Connect`, from the ticket cache on: the optional
`hdfsBuilderSetKerbTicketCachePath`, then `hdfsBuilderConnect` and the test of
its result. -/
def ConnectBuilder (builder : Nat) : Native σ Connected :=
  (match env.getenv "KERB_TICKET_CACHE_PATH" with
    | some ticket_cache_path =>
      self.hdfs_.callBuilderSetKerbTicketCachePath builder ticket_cache_path
    | none => Native.ret ⟨(), 0⟩).andThen fun _ =>
  (self.hdfs_.callBuilderConnect builder).andThen fun c =>
    if c.ret = nullptr then
      (Native.lift (NotFound (env.strerror c.errno))).andThen fun s => Native.ret ⟨s, c.ret⟩
    else Native.ret ⟨Status.OK, c.ret⟩

/-- The method `HadoopFileSystem::Connect`. -/
def Connect (fname : StringPiece) : Native σ Connected :=
  let status := self.hdfs_.status_
  if ¬ status.ok then Native.ret ⟨status, nullptr⟩
  else
    let p := ParseURI fname
    let nn := p.host.ToString
    (self.hdfs_.callNewBuilder).andThen fun builder =>
      if p.scheme.chars = "file".toList then
        (self.hdfs_.callBuilderSetNameNode builder.ret none).andThen fun _ =>
          self.ConnectBuilder env builder.ret
      else if p.scheme.chars = "hdfs".toList then
        (self.hdfs_.callBuilderSetNameNode builder.ret (some nn)).andThen fun _ =>
          self.ConnectBuilder env builder.ret
      else
        (Native.lift (InvalidArgument (p.scheme.ToString ++ "scheme must be file or hdfs"))).andThen
          fun s => Native.ret ⟨s, nullptr⟩

/-- The common body of `NewRandomAccessFile`, `NewWritableFile` and
`NewAppendableFile`: connect, open with the flags, test the handle. -/
def OpenFile (fname : String) (flags : Int) : Native σ (Status × Option (Nat × Nat)) :=
  (self.Connect env (StringPiece.ofStd fname)).andThen fun c =>
    if ¬ c.status.ok then Native.ret (c.status, none)
    else
      (self.hdfs_.callOpenFile c.fs (TranslateName fname) flags).andThen fun file =>
        if file.ret = nullptr then
          (Native.lift (IOError env.strerror fname file.errno)).andThen fun s =>
            Native.ret (s, none)
        else Native.ret (Status.OK, some (c.fs, file.ret))

/-- The method `HadoopFileSystem::NewRandomAccessFile`: the returned status and
the object stored in `*result`, if any. -/
def NewRandomAccessFile (fname : String) : Native σ (Status × Option (RandomAccessFile σ)) :=
  (self.OpenFile env fname O_RDONLY).andThen fun r =>
    Native.ret (r.1, r.2.map fun h =>
      { filename_ := fname, hdfs_ := self.hdfs_.toLibHDFS, fs_ := h.1, file_ := h.2 })

/-- The method `HadoopFileSystem::NewWritableFile`: the returned status and the
object stored in `*result`, if any. -/
def NewWritableFile (fname : String) : Native σ (Status × Option (WritableFile σ)) :=
  (self.OpenFile env fname O_WRONLY).andThen fun r =>
    Native.ret (r.1, r.2.map fun h =>
      { filename_ := fname, hdfs_ := some self.hdfs_.toLibHDFS, fs_ := h.1, file_ := h.2 })

/-- The method `HadoopFileSystem::NewAppendableFile`: the returned status and
the object stored in `*result`, if any.  The flags are `O_WRONLY | O_APPEND`. -/
def NewAppendableFile (fname : String) : Native σ (Status × Option (WritableFile σ)) :=
  (self.OpenFile env fname (O_WRONLY + O_APPEND)).andThen fun r =>
    Native.ret (r.1, r.2.map fun h =>
      { filename_ := fname, hdfs_ := some self.hdfs_.toLibHDFS, fs_ := h.1, file_ := h.2 })

/-- The method `HadoopFileSystem::FileExists`. -/
def FileExists (fname : String) : Native σ Status :=
  (self.Connect env (StringPiece.ofStd fname)).andThen fun c =>
    if ¬ c.status.ok then Native.ret c.status
    else
      (self.hdfs_.callExists c.fs (TranslateName fname)).andThen fun r =>
        if r.ret = 0 then Native.ret Status.OK
        else Native.lift (NotFound fname)

/-- The method `HadoopFileSystem::Stat`: the returned status and the record
stored in `*stats`, if any.  `mtime_nsec` is
`static_cast<int64>(info->mLastMod) * 1e9`, a product in double precision
stored into an `int64`. -/
def Stat (fname : String) : Native σ (Status × Option FileStatistics) :=
  (self.Connect env (StringPiece.ofStd fname)).andThen fun c =>
    if ¬ c.status.ok then Native.ret (c.status, none)
    else
      (self.hdfs_.callGetPathInfo c.fs (TranslateName fname)).andThen fun r =>
        match r.ret with
        | none =>
          (Native.lift (IOError env.strerror fname r.errno)).andThen fun s =>
            Native.ret (s, none)
        | some info =>
          (self.hdfs_.callFreeFileInfo 1).andThen fun _ =>
            Native.ret (Status.OK, some
              { length := toInt64 info.mSize,
                mtime_nsec :=
                  int64OfDouble (doubleOfInt (doubleOfInt (toInt64 info.mLastMod) * 1000000000)),
                is_directory := decide (info.mKind = kObjectKindDirectory) })

/-- The method `HadoopFileSystem::GetChildren`: the returned status and the
contents of `*result` after the call, `result` being its contents before. -/
def GetChildren (dir : String) (result : List String) : Native σ (Status × List String) :=
  let result : List String := vectorClear result
  (self.Connect env (StringPiece.ofStd dir)).andThen fun c =>
    if ¬ c.status.ok then Native.ret (c.status, result)
    else
      -- hdfsListDirectory returns nullptr if the directory is empty. Do a separate
      -- check to verify the directory exists first.
      (self.Stat env dir).andThen fun st =>
        if ¬ st.1.ok then Native.ret (st.1, result)
        else
          (self.hdfs_.callListDirectory c.fs (TranslateName dir)).andThen fun l =>
            match l.info with
            | none =>
              if (st.2.map fun stat => stat.is_directory) = some true then
                -- Assume it's an empty directory.
                Native.ret (Status.OK, result)
              else
                (Native.lift (IOError env.strerror dir l.errno)).andThen fun s =>
                  Native.ret (s, result)
            | some info =>
              let result := result ++
                (List.range l.entries.toNat).map fun i =>
                  (Basename (StringPiece.ofStd (info i).mName)).ToString
              (self.hdfs_.callFreeFileInfo l.entries).andThen fun _ =>
                Native.ret (Status.OK, result)

/-- The method `HadoopFileSystem::DeleteFile`. -/
def DeleteFile (fname : String) : Native σ Status :=
  (self.Connect env (StringPiece.ofStd fname)).andThen fun c =>
    if ¬ c.status.ok then Native.ret c.status
    else
      (self.hdfs_.callDelete c.fs (TranslateName fname) 0).andThen fun r =>
        if r.ret ≠ 0 then Native.lift (IOError env.strerror fname r.errno)
        else Native.ret Status.OK

/-- The method `HadoopFileSystem::CreateDir`. -/
def CreateDir (dir : String) : Native σ Status :=
  (self.Connect env (StringPiece.ofStd dir)).andThen fun c =>
    if ¬ c.status.ok then Native.ret c.status
    else
      (self.hdfs_.callCreateDirectory c.fs (TranslateName dir)).andThen fun r =>
        if r.ret ≠ 0 then Native.lift (IOError env.strerror dir r.errno)
        else Native.ret Status.OK

/-- The end of `DeleteDir`, after the listing and the check by `Stat`: the test
of the entry count and the recursive delete. -/
def DeleteDirTail (dir : String) (fs : Nat) (entries : Int) : Native σ Status :=
  if 0 < entries then
    Native.lift (FailedPrecondition "Cannot delete a non-empty directory.")
  else
    (self.hdfs_.callDelete fs (TranslateName dir) 1).andThen fun r =>
      if r.ret ≠ 0 then Native.lift (IOError env.strerror dir r.errno)
      else Native.ret Status.OK

/-- The method `HadoopFileSystem::DeleteDir`. -/
def DeleteDir (dir : String) : Native σ Status :=
  (self.Connect env (StringPiece.ofStd dir)).andThen fun c =>
    if ¬ c.status.ok then Native.ret c.status
    else
      -- Count the number of entries in the directory, and only delete if it's
      -- non-empty.
      (self.hdfs_.callListDirectory c.fs (TranslateName dir)).andThen fun l =>
        (if l.info.isSome then self.hdfs_.callFreeFileInfo l.entries
          else Native.ret ⟨(), l.errno⟩).andThen fun _ =>
        -- Due to HDFS bug HDFS-8407, we can't distinguish between an error and empty
        -- folder. Check again by Stat.
        if l.info.isNone ∧ l.errno ≠ 0 then
          (self.Stat env dir).andThen fun st =>
            if ¬ st.1.ok then Native.ret st.1
            else self.DeleteDirTail env dir c.fs l.entries
        else self.DeleteDirTail env dir c.fs l.entries

/-- The method `HadoopFileSystem::GetFileSize`: the returned status and the
value stored in `*size`, if any. -/
def GetFileSize (fname : String) : Native σ (Status × Option Nat) :=
  (self.Connect env (StringPiece.ofStd fname)).andThen fun c =>
    if ¬ c.status.ok then Native.ret (c.status, none)
    else
      (self.hdfs_.callGetPathInfo c.fs (TranslateName fname)).andThen fun r =>
        match r.ret with
        | none =>
          (Native.lift (IOError env.strerror fname r.errno)).andThen fun s =>
            Native.ret (s, none)
        | some info =>
          (self.hdfs_.callFreeFileInfo 1).andThen fun _ =>
            Native.ret (Status.OK, some (info.mSize % 2 ^ 64).toNat)

/-- The end of `RenameFile`: the rename and the test of its result. -/
def RenameTail (src target : String) (fs : Nat) : Native σ Status :=
  (self.hdfs_.callRename fs (TranslateName src) (TranslateName target)).andThen fun r =>
    if r.ret ≠ 0 then Native.lift (IOError env.strerror src r.errno)
    else Native.ret Status.OK

/-- The method `HadoopFileSystem::RenameFile`. -/
def RenameFile (src target : String) : Native σ Status :=
  (self.Connect env (StringPiece.ofStd src)).andThen fun c =>
    if ¬ c.status.ok then Native.ret c.status
    else
      (self.hdfs_.callExists c.fs (TranslateName target)).andThen fun e =>
        if e.ret = 0 then
          (self.hdfs_.callDelete c.fs (TranslateName target) 0).andThen fun d =>
            if d.ret ≠ 0 then Native.lift (IOError env.strerror target d.errno)
            else self.RenameTail env src target c.fs
        else self.RenameTail env src target c.fs

/-- The common shape of `CopyToLocal`, `CopyToRemote`, `MoveToLocal` and
`MoveToRemote`: connect `src`, connect `dst`, issue the native call on the
two connections and the two strings, test its result. -/
def Transfer (call : Nat → String → Nat → String → Native σ (Answer Int)) (src dst : String) :
    Native σ Status :=
  (self.Connect env (StringPiece.ofStd src)).andThen fun c1 =>
    if ¬ c1.status.ok then Native.ret c1.status
    else
      (self.Connect env (StringPiece.ofStd dst)).andThen fun c2 =>
        if ¬ c2.status.ok then Native.ret c2.status
        else
          (call c1.fs src c2.fs dst).andThen fun r =>
            if r.ret ≠ 0 then
              Native.lift (IOError env.strerror ("from " ++ src ++ " to " ++ dst) r.errno)
            else Native.ret Status.OK

/-- The method `HadoopFileSystem::CopyToLocal`. -/
def CopyToLocal (src dst : String) : Native σ Status :=
  self.Transfer env self.hdfs_.callCopy src dst

/-- The method `HadoopFileSystem::CopyToRemote`. -/
def CopyToRemote (src dst : String) : Native σ Status :=
  self.Transfer env self.hdfs_.callCopy src dst

/-- The method `HadoopFileSystem::MoveToLocal`. -/
def MoveToLocal (src dst : String) : Native σ Status :=
  self.Transfer env self.hdfs_.callMove src dst

/-- The method `HadoopFileSystem::MoveToRemote`. -/
def MoveToRemote (src dst : String) : Native σ Status :=
  self.Transfer env self.hdfs_.callMove src dst

end HadoopFileSystem

/-! ### Native clients of the facade used in the statements -/

/-- One answer of the scripted client of the facade: a return value (for a
pointer, its address; for an array or a record, null when 0), the value of
`errno`, and the records of a listing. -/
structure ScriptAnswer where
  ret : Int
  errno : Int
  infos : List hdfsFileInfo
deriving DecidableEq, Repr

/-- The record that pads a scripted array past its end. -/
def blankInfo : hdfsFileInfo := { mKind := 0, mName := "", mLastMod := 0, mSize := 0 }

/-- The next answer of a script; a spent script answers 0 with `errno` 0. -/
def scriptNext (w : List ScriptAnswer) : ScriptAnswer × List ScriptAnswer :=
  match w with
  | [] => (⟨0, 0, []⟩, [])
  | a :: rest => (a, rest)

/-- A loaded table that answers from a script: the native world is the list of
the answers still to give and each native call takes the next one.  A listing
answers the records of the script as the array and their number as the entry
count, a path-info the first of them. -/
def scriptFull (status : Status) : LibHDFSFull (List ScriptAnswer) where
  hdfsPread := fun w mem _ _ _ _ _ =>
    ⟨(scriptNext w).1.ret, (scriptNext w).1.errno, mem, (scriptNext w).2⟩
  hdfsWrite := fun w _ _ _ _ => ⟨(scriptNext w).1.ret, (scriptNext w).1.errno, (scriptNext w).2⟩
  hdfsCloseFile := fun w _ _ => ⟨(scriptNext w).1.ret, (scriptNext w).1.errno, (scriptNext w).2⟩
  status_ := status
  hdfsBuilderConnect := fun w _ =>
    ⟨(scriptNext w).1.ret.toNat, (scriptNext w).1.errno, (scriptNext w).2⟩
  hdfsNewBuilder := fun w =>
    ⟨(scriptNext w).1.ret.toNat, (scriptNext w).1.errno, (scriptNext w).2⟩
  hdfsBuilderSetNameNode := fun w _ _ => ⟨(scriptNext w).1.errno, (scriptNext w).2⟩
  hdfsBuilderSetKerbTicketCachePath := fun w _ _ => ⟨(scriptNext w).1.errno, (scriptNext w).2⟩
  hdfsOpenFile := fun w _ _ _ _ _ _ =>
    ⟨(scriptNext w).1.ret.toNat, (scriptNext w).1.errno, (scriptNext w).2⟩
  hdfsExists := fun w _ _ => ⟨(scriptNext w).1.ret, (scriptNext w).1.errno, (scriptNext w).2⟩
  hdfsListDirectory := fun w _ _ =>
    ⟨if (scriptNext w).1.ret = 0 then none
      else some (fun i => (scriptNext w).1.infos.getD i blankInfo),
     (scriptNext w).1.infos.length, (scriptNext w).1.errno, (scriptNext w).2⟩
  hdfsFreeFileInfo := fun w _ => ⟨(scriptNext w).1.errno, (scriptNext w).2⟩
  hdfsDelete := fun w _ _ _ => ⟨(scriptNext w).1.ret, (scriptNext w).1.errno, (scriptNext w).2⟩
  hdfsCreateDirectory := fun w _ _ =>
    ⟨(scriptNext w).1.ret, (scriptNext w).1.errno, (scriptNext w).2⟩
  hdfsGetPathInfo := fun w _ _ =>
    ⟨if (scriptNext w).1.ret = 0 then none else (scriptNext w).1.infos.head?,
     (scriptNext w).1.errno, (scriptNext w).2⟩
  hdfsRename := fun w _ _ _ => ⟨(scriptNext w).1.ret, (scriptNext w).1.errno, (scriptNext w).2⟩
  hdfsCopy := fun w _ _ _ _ => ⟨(scriptNext w).1.ret, (scriptNext w).1.errno, (scriptNext w).2⟩
  hdfsMove := fun w _ _ _ _ => ⟨(scriptNext w).1.ret, (scriptNext w).1.errno, (scriptNext w).2⟩

/-- A facade over the scripted table, loaded without error. -/
def scriptFS : HadoopFileSystem (List ScriptAnswer) := { hdfs_ := scriptFull Status.OK }

/-- A facade over the scripted table whose load failed: the environment
variable of the installation root was not set. -/
def failedFS : HadoopFileSystem (List ScriptAnswer) :=
  { hdfs_ := scriptFull
      ⟨some ⟨Code.FAILED_PRECONDITION, "Environment variable HADOOP_HDFS_HOME not set"⟩⟩ }

/-- An environment without a ticket cache. -/
def plainEnv : Env := { strerror := strerrorStub, getenv := fun _ => none }

/-- The answers of a successful `Connect`: a builder at 7, the name node set,
a connection at 9. -/
def connectOK : List ScriptAnswer := [⟨7, 0, []⟩, ⟨0, 0, []⟩, ⟨9, 0, []⟩]

/-- The native calls of that `Connect` for the name node `nn`. -/
def connectCalls (nn : Option String) : List NativeCall :=
  [.hdfsNewBuilder 7, .hdfsBuilderSetNameNode 7 nn, .hdfsBuilderConnect 7 9]

/-- The answer of a path-info that finds a directory. -/
def dirInfo : ScriptAnswer := ⟨1, 0, [⟨kObjectKindDirectory, "hdfs://nn1/d", 0, 0⟩]⟩

/-- Every native call that a piece of facade code issues, in any run that
returns, satisfies `P`. -/
def Native.CallsSatisfy {σ α : Type} (P : NativeCall → Prop) (m : Native σ α) : Prop :=
  ∀ (w : σ) (r : Run σ α), m w = .returned r → ∀ c ∈ r.calls, P c

/-- Every path string that the native call was handed is one of `allowed`. -/
def NativeCall.PathsIn (allowed : List String) (c : NativeCall) : Prop :=
  ∀ p ∈ c.paths, p ∈ allowed

/-- The native call is no `hdfsDelete`. -/
def NativeCall.NoDelete : NativeCall → Prop
  | .hdfsDelete _ _ _ _ => False
  | _ => True

/-- The native call is no `hdfsBuilderConnect`. -/
def NativeCall.NoConnect : NativeCall → Prop
  | .hdfsBuilderConnect _ _ => False
  | _ => True

/-- The native call is one of the four that `Connect` issues. -/
def NativeCall.IsBuilderCall : NativeCall → Prop
  | .hdfsNewBuilder _ => True
  | .hdfsBuilderSetNameNode _ _ => True
  | .hdfsBuilderSetKerbTicketCachePath _ _ => True
  | .hdfsBuilderConnect _ _ => True
  | _ => False

/-- The contract of a faithful native client over a namespace, `content w p`
being what the path `p` resolves to in the native world `w` (`none` when there
is nothing at `p`): the four calls of `Connect` and `hdfsExists` leave the
namespace as it is; `hdfsExists` returns 0 exactly for a path that resolves; a
non-recursive `hdfsDelete` that returns 0 leaves nothing at its path and every
other path as it was; an `hdfsRename` that returns 0 had something at the old
path and leaves it at the new one. -/
structure FaithfulFS {σ : Type} (hdfs : LibHDFSFull σ) (content : σ → String → Option String) :
    Prop where
  newBuilder : ∀ (w : σ), content (hdfs.hdfsNewBuilder w).world = content w
  setNameNode : ∀ (w : σ) (bld : Nat) (nn : Option String),
    content (hdfs.hdfsBuilderSetNameNode w bld nn).world = content w
  setKerbTicketCachePath : ∀ (w : σ) (bld : Nat) (path : String),
    content (hdfs.hdfsBuilderSetKerbTicketCachePath w bld path).world = content w
  builderConnect : ∀ (w : σ) (bld : Nat), content (hdfs.hdfsBuilderConnect w bld).world = content w
  existsRet : ∀ (w : σ) (fs : Nat) (path : String),
    (hdfs.hdfsExists w fs path).ret = 0 ↔ (content w path).isSome = true
  existsWorld : ∀ (w : σ) (fs : Nat) (path : String),
    content (hdfs.hdfsExists w fs path).world = content w
  delete : ∀ (w : σ) (fs : Nat) (path : String), (hdfs.hdfsDelete w fs path 0).ret = 0 →
    ∀ q : String, content (hdfs.hdfsDelete w fs path 0).world q =
      if q = path then none else content w q
  rename : ∀ (w : σ) (fs : Nat) (oldPath newPath : String),
    (hdfs.hdfsRename w fs oldPath newPath).ret = 0 →
    (content w oldPath).isSome = true ∧
    content (hdfs.hdfsRename w fs oldPath newPath).world newPath = content w oldPath

/-- A faithful native client over a namespace of plain files, the native world
being the table of the paths and what is stored at each.  `hdfsExists`,
`hdfsDelete` and `hdfsRename` work on the table and fail with `ENOENT` on a
path that is not in it; a connection always succeeds (builder 7, connection
9); the other entry points find nothing. -/
def tableLib : LibHDFSFull (List (String × String)) where
  hdfsPread := fun w mem _ _ _ _ _ => ⟨-1, ENOENT, mem, w⟩
  hdfsWrite := fun w _ _ _ _ => ⟨-1, ENOENT, w⟩
  hdfsCloseFile := fun w _ _ => ⟨0, 0, w⟩
  status_ := Status.OK
  hdfsBuilderConnect := fun w _ => ⟨9, 0, w⟩
  hdfsNewBuilder := fun w => ⟨7, 0, w⟩
  hdfsBuilderSetNameNode := fun w _ _ => ⟨0, w⟩
  hdfsBuilderSetKerbTicketCachePath := fun w _ _ => ⟨0, w⟩
  hdfsOpenFile := fun w _ _ _ _ _ _ => ⟨nullptr, ENOENT, w⟩
  hdfsExists := fun w _ path =>
    if (List.lookup path w).isSome then ⟨0, 0, w⟩ else ⟨-1, ENOENT, w⟩
  hdfsListDirectory := fun w _ _ => ⟨none, 0, ENOENT, w⟩
  hdfsFreeFileInfo := fun w _ => ⟨0, w⟩
  hdfsDelete := fun w _ path _ =>
    if (List.lookup path w).isSome then ⟨0, 0, w.filter fun e => e.1 != path⟩
    else ⟨-1, ENOENT, w⟩
  hdfsCreateDirectory := fun w _ _ => ⟨-1, ENOENT, w⟩
  hdfsGetPathInfo := fun w _ _ => ⟨none, ENOENT, w⟩
  hdfsRename := fun w _ oldPath newPath =>
    match List.lookup oldPath w with
    | some stored =>
      ⟨0, 0, (newPath, stored) :: w.filter fun e => e.1 != oldPath && e.1 != newPath⟩
    | none => ⟨-1, ENOENT, w⟩
  hdfsCopy := fun w _ _ _ _ => ⟨-1, ENOENT, w⟩
  hdfsMove := fun w _ _ _ _ => ⟨-1, ENOENT, w⟩

/-- A facade over the table client. -/
def tableFS : HadoopFileSystem (List (String × String)) := { hdfs_ := tableLib }

/-- What a path resolves to in a table. -/
def tableContent (w : List (String × String)) (path : String) : Option String :=
  List.lookup path w

/-! ### The loading of the native client (`hadoop_file_system.cpp`, `hadoop_file_system.h`) -/

/-- The dynamic loader as the loading code uses it: `dlopen(name, flags)` and
`dlsym(handle, name)`, each answering the pointer found or, for a null
result, the text that `dlerror()` gives right after. -/
structure DynamicLoader where
  dlopen : String → Except String Nat
  dlsym : Nat → String → Except String Nat

/-- The function `LibHDFS::LoadLibrary`: the returned status and the value of
`*handle`. -/
def LibHDFS.LoadLibrary (strerror : Int → String) (dl : DynamicLoader)
    (library_filename : String) : Outcome (Status × Nat) :=
  match dl.dlopen library_filename with
  | .error dlerror =>
    (IOError strerror dlerror Code.NOT_FOUND).andThen fun s => .returned (s, nullptr)
  | .ok handle => .returned (Status.OK, handle)

/-- The function `LibHDFS::GetSymbolFromLibrary`: the returned status and the
value of `*symbol`. -/
def LibHDFS.GetSymbolFromLibrary (strerror : Int → String) (dl : DynamicLoader) (handle : Nat)
    (symbo_name : String) : Outcome (Status × Nat) :=
  match dl.dlsym handle symbo_name with
  | .error dlerror =>
    (IOError strerror dlerror Code.NOT_FOUND).andThen fun s => .returned (s, nullptr)
  | .ok symbol => .returned (Status.OK, symbol)

/-- The function template `LibHDFS::BindFunc`: the returned status (the
function object that it fills is not modelled). -/
def LibHDFS.BindFunc (strerror : Int → String) (dl : DynamicLoader) (handle : Nat)
    (name : String) : Outcome Status :=
  (LibHDFS.GetSymbolFromLibrary strerror dl handle name).andThen fun r =>
    if ¬ r.1.ok then .returned r.1 else .returned Status.OK

/-- The entry points that `LoadAndBind` binds with `BIND_HDFS_FUNC`, in the
order of the source. -/
def boundFunctions : List String :=
  ["hdfsBuilderConnect", "hdfsNewBuilder", "hdfsBuilderSetNameNode",
   "hdfsBuilderSetKerbTicketCachePath", "hdfsCloseFile", "hdfsPread", "hdfsWrite", "hdfsFlush",
   "hdfsHSync", "hdfsOpenFile", "hdfsExists", "hdfsListDirectory", "hdfsFreeFileInfo",
   "hdfsDelete", "hdfsCreateDirectory", "hdfsGetPathInfo", "hdfsRename", "hdfsAvailable",
   "hdfsCopy", "hdfsMove"]

/-- A run of `BIND_HDFS_FUNC` lines: each binds one entry point and returns
its status when that is not OK; after the last, `return Status::OK();`. -/
def LibHDFS.BindAll (strerror : Int → String) (dl : DynamicLoader) (handle : Nat) :
    List String → Outcome Status
  | [] => .returned Status.OK
  | function :: rest =>
    (LibHDFS.BindFunc strerror dl handle function).andThen fun status =>
      if ¬ status.ok then .returned status
      else LibHDFS.BindAll strerror dl handle rest

/-- The lambda `TryLoadAndBind` of `LibHDFS::LoadAndBind`. -/
def LibHDFS.TryLoadAndBind (strerror : Int → String) (dl : DynamicLoader) (name : String) :
    Outcome Status :=
  (LibHDFS.LoadLibrary strerror dl name).andThen fun r =>
    if ¬ r.1.ok then .returned r.1
    else LibHDFS.BindAll strerror dl r.2 boundFunctions

/-- The method `LibHDFS::LoadAndBind`: the value it leaves in `status_`. -/
def LibHDFS.LoadAndBind (env : Env) (dl : DynamicLoader) : Outcome Status :=
  match env.getenv "HADOOP_HDFS_HOME" with
  | none => IOError env.strerror "Environment variable HADOOP_HDFS_HOME not set"
      Code.FAILED_PRECONDITION
  | some hdfs_home =>
    LibHDFS.TryLoadAndBind env.strerror dl (hdfs_home ++ "/lib/native/libhdfs.so")

/-- A dynamic loader that finds the library at one path (handle 1) and every
entry point in it except those of `missing`. -/
def sampleLoader (path : String) (missing : List String) : DynamicLoader where
  dlopen := fun name =>
    if name = path then .ok 1
    else .error (name ++ ": cannot open shared object file: No such file or directory")
  dlsym := fun _ name =>
    if name ∈ missing then .error ("undefined symbol: " ++ name) else .ok 2

/-- An environment in which the installation root is "/opt/hadoop". -/
def hadoopEnv : Env :=
  { strerror := strerrorStub,
    getenv := fun name => if name = "HADOOP_HDFS_HOME" then some "/opt/hadoop" else none }

/-- A native client over a namespace of directories and plain files whose
listing fails: the native world is the table of the paths, each with its
directory flag; `hdfsListDirectory` always answers null with no entry counted
and `errno` at `EAGAIN` (the failure of HDFS-8407 that the comment in
`DeleteDir` describes); `hdfsGetPathInfo` finds what is in the table;
`hdfsDelete` with the recursive flag removes a path and everything below it,
and without it a path that has nothing below it; a connection always succeeds
(builder 7, connection 9); the other entry points find nothing. -/
def flakyLib : LibHDFSFull (List (String × Bool)) where
  hdfsPread := fun w mem _ _ _ _ _ => ⟨-1, ENOENT, mem, w⟩
  hdfsWrite := fun w _ _ _ _ => ⟨-1, ENOENT, w⟩
  hdfsCloseFile := fun w _ _ => ⟨0, 0, w⟩
  status_ := Status.OK
  hdfsBuilderConnect := fun w _ => ⟨9, 0, w⟩
  hdfsNewBuilder := fun w => ⟨7, 0, w⟩
  hdfsBuilderSetNameNode := fun w _ _ => ⟨0, w⟩
  hdfsBuilderSetKerbTicketCachePath := fun w _ _ => ⟨0, w⟩
  hdfsOpenFile := fun w _ _ _ _ _ _ => ⟨nullptr, ENOENT, w⟩
  hdfsExists := fun w _ path =>
    if (List.lookup path w).isSome then ⟨0, 0, w⟩ else ⟨-1, ENOENT, w⟩
  hdfsListDirectory := fun w _ _ => ⟨none, 0, EAGAIN, w⟩
  hdfsFreeFileInfo := fun w _ => ⟨0, w⟩
  hdfsDelete := fun w _ path recursive =>
    if (List.lookup path w).isNone then ⟨-1, ENOENT, w⟩
    else if recursive ≠ 0 then
      ⟨0, 0, w.filter fun e =>
        e.1 != path && e.1.toList.take (path.length + 1) != path.toList ++ ['/']⟩
    else if w.any fun e => e.1.toList.take (path.length + 1) == path.toList ++ ['/'] then
      ⟨-1, ENOTEMPTY, w⟩
    else ⟨0, 0, w.filter fun e => e.1 != path⟩
  hdfsCreateDirectory := fun w _ _ => ⟨-1, ENOENT, w⟩
  hdfsGetPathInfo := fun w _ path =>
    match List.lookup path w with
    | some isDirectory =>
      ⟨some ⟨if isDirectory then kObjectKindDirectory else kObjectKindFile, path, 0, 0⟩, 0, w⟩
    | none => ⟨none, ENOENT, w⟩
  hdfsRename := fun w _ _ _ => ⟨-1, ENOENT, w⟩
  hdfsCopy := fun w _ _ _ _ => ⟨-1, ENOENT, w⟩
  hdfsMove := fun w _ _ _ _ => ⟨-1, ENOENT, w⟩

/-- A facade over the client whose listing fails. -/
def flakyFS : HadoopFileSystem (List (String × Bool)) := { hdfs_ := flakyLib }

/-! ## Theorems -/

/-! ### The error taxonomy -/

/-- C10 (amended): `ErrnoToCode` is a function on all integers given by the
full table of the `switch`: `0` gives `OK`, each error number of a row of
`switchTable` gives the kind of its row, and every integer in no row gives
`UNKNOWN`.  No error number is in two rows.  The rows of the reference table
hold, but they are not the whole table: the 37 further error numbers of
`unlistedErrnos` are in no row of the reference table and have a kind other
than `UNKNOWN`.  An integer has a kind other than `UNKNOWN` exactly when it is
one of the classified error numbers, which are those of `switchTable`. -/
theorem ErrnoToCode_reference_table :
    (∀ row ∈ switchTable, ∀ e ∈ row.1, ErrnoToCode e = row.2) ∧
    (∀ n : Int, (∀ row ∈ switchTable, n ∉ row.1) → ErrnoToCode n = Code.UNKNOWN) ∧
    classifiedErrnos.Nodup ∧
    (∀ n : Int, n ∈ classifiedErrnos ↔ ∃ row ∈ switchTable, n ∈ row.1) ∧
    (∀ row ∈ referenceTable, ∀ e ∈ row.1, ErrnoToCode e = row.2) ∧
    unlistedErrnos.length = 37 ∧ unlistedErrnos.Nodup ∧
    (∀ e ∈ unlistedErrnos, (∀ row ∈ referenceTable, e ∉ row.1) ∧
      ErrnoToCode e ≠ Code.UNKNOWN ∧ ∃ row ∈ switchTable, e ∈ row.1) ∧
    (∀ n : Int, ErrnoToCode n ≠ Code.UNKNOWN ↔ n ∈ classifiedErrnos) := by
  have hiff : ∀ n : Int, ErrnoToCode n ≠ Code.UNKNOWN ↔ n ∈ classifiedErrnos := by
    intro n
    constructor
    · intro h
      by_contra hn
      apply h
      simp only [classifiedErrnos, List.mem_cons, List.mem_singleton, not_or, List.not_mem_nil,
        or_false] at hn
      unfold ErrnoToCode
      simp only [List.mem_cons, List.mem_singleton, List.not_mem_nil, or_false]
      simp [hn]
    · intro h
      have hall : ∀ m ∈ classifiedErrnos, ErrnoToCode m ≠ Code.UNKNOWN := by decide
      exact hall n h
  have hrows : ∀ n : Int, n ∈ classifiedErrnos ↔ ∃ row ∈ switchTable, n ∈ row.1 := by
    intro n
    constructor
    · intro h
      have hall : ∀ m ∈ classifiedErrnos, ∃ row ∈ switchTable, m ∈ row.1 := by decide
      exact hall n h
    · rintro ⟨row, hrow, hn⟩
      have hall : ∀ row ∈ switchTable, ∀ m ∈ row.1, m ∈ classifiedErrnos := by decide
      exact hall row hrow n hn
  refine ⟨by decide, ?_, by decide, hrows, by decide, by decide, by decide, by decide, hiff⟩
  intro n hn
  by_contra hne
  obtain ⟨row, hrow, hmem⟩ := (hrows n).mp ((hiff n).mp hne)
  exact hn row hrow hmem

/-- C10, the claim as first stated fails at the error numbers that the switch
classifies and the reference table does not name: `ENOMEM`, `EAGAIN` and
`EBADF` are in no row of the reference table, so the claim sends them to
`UNKNOWN`, and `ErrnoToCode` gives them `RESOURCE_EXHAUSTED`, `UNAVAILABLE` and
`FAILED_PRECONDITION`. -/
theorem ErrnoToCode_unlisted_counterexample :
    (∀ row ∈ referenceTable, ENOMEM ∉ row.1 ∧ EAGAIN ∉ row.1 ∧ EBADF ∉ row.1) ∧
    ErrnoToCode ENOMEM = Code.RESOURCE_EXHAUSTED ∧
    ErrnoToCode EAGAIN = Code.UNAVAILABLE ∧
    ErrnoToCode EBADF = Code.FAILED_PRECONDITION ∧
    ErrnoToCode ENOMEM ≠ Code.UNKNOWN ∧ ErrnoToCode EAGAIN ≠ Code.UNKNOWN ∧
    ErrnoToCode EBADF ≠ Code.UNKNOWN := by
  decide

/-! ### The scanner -/

theorem Scanner.GetResult_of_error (s : Scanner) (h : s.error_ = true) : s.GetResult = none := by
  simp [Scanner.GetResult, h]

theorem Scanner.One_error (s : Scanner) (clz : CharClass) (h : s.error_ = true) :
    (s.One clz).error_ = true := by
  unfold Scanner.One
  split
  · simp [Scanner.Error]
  · split <;> simp [Scanner.Error, h]

theorem Scanner.Any_error (s : Scanner) (clz : CharClass) (h : s.error_ = true) :
    (s.Any clz).error_ = true := by
  simp [Scanner.Any, h]

theorem Scanner.StopCapture_error (s : Scanner) (h : s.error_ = true) :
    s.StopCapture.error_ = true := by
  simp [Scanner.StopCapture, h]

theorem Scanner.OneLiteral_error (s : Scanner) (lit : List Char) (h : s.error_ = true) :
    (s.OneLiteral lit).error_ = true := by
  unfold Scanner.OneLiteral
  split <;> simp [Scanner.Error, h]

/-- The scan for the scheme that `ParseURI` starts with. -/
theorem scanScheme_none_of_error (s : Scanner) (h : s.error_ = true) :
    (((s.Many .LETTER_DIGIT_DOT).StopCapture).OneLiteral "://".toList).GetResult = none := by
  apply Scanner.GetResult_of_error
  apply Scanner.OneLiteral_error
  apply Scanner.StopCapture_error
  unfold Scanner.Many
  apply Scanner.Any_error
  apply Scanner.One_error
  exact h

theorem scanRest_none_of_error (s : Scanner) (h : s.error_ = true) :
    (((s.Any .LETTER_DIGIT_DOT).StopCapture).OneLiteral "://".toList).GetResult = none := by
  apply Scanner.GetResult_of_error
  apply Scanner.OneLiteral_error
  apply Scanner.StopCapture_error
  apply Scanner.Any_error
  exact h

theorem List.drop_length_takeWhile {α : Type} (p : α → Bool) (l : List α) :
    l.drop (l.takeWhile p).length = l.dropWhile p := by
  induction l with
  | nil => simp
  | cons x xs ih =>
    by_cases hx : p x = true
    · simp [List.takeWhile_cons, List.dropWhile_cons, hx, ih]
    · simp [List.takeWhile_cons, List.dropWhile_cons, hx]

theorem List.take_length_takeWhile {α : Type} (p : α → Bool) (l : List α) :
    l.take (l.takeWhile p).length = l.takeWhile p := by
  induction l with
  | nil => simp
  | cons x xs ih =>
    by_cases hx : p x = true
    · simp [List.takeWhile_cons, hx, ih]
    · simp [List.takeWhile_cons, hx]

theorem scanScheme_eq (base : Nat) (l : List Char) :
    (((((Scanner.new ⟨base, l⟩).One .LETTER).Many .LETTER_DIGIT_DOT).StopCapture).OneLiteral
      "://".toList).GetResult =
    match l with
    | c :: d :: t =>
      if IsLetter c = true ∧ Matches .LETTER_DIGIT_DOT d = true ∧
          "://".toList.isPrefixOf (t.dropWhile (Matches .LETTER_DIGIT_DOT)) = true then
        some (⟨base + 2 + (t.takeWhile (Matches .LETTER_DIGIT_DOT)).length + 3,
                (t.dropWhile (Matches .LETTER_DIGIT_DOT)).drop 3⟩,
              ⟨base, c :: d :: t.takeWhile (Matches .LETTER_DIGIT_DOT)⟩)
      else none
    | _ => none := by
  match l with
  | [] =>
    apply scanScheme_none_of_error
    simp [Scanner.new, Scanner.One, Scanner.Error]
  | [c] =>
    by_cases hc : IsLetter c = true
    · unfold Scanner.Many
      apply scanRest_none_of_error
      simp [Scanner.new, Scanner.One, Scanner.Error, Matches, hc, StringPiece.remove_prefix]
    · apply scanScheme_none_of_error
      simp [Scanner.new, Scanner.One, Scanner.Error, Matches, hc]
  | c :: d :: t =>
    by_cases hc : IsLetter c = true
    · by_cases hd : Matches .LETTER_DIGIT_DOT d = true
      · simp only [hc, hd, true_and]
        simp only [Scanner.new, Scanner.One, Scanner.Many, Scanner.Any, Scanner.StopCapture,
          Scanner.OneLiteral, Scanner.GetResult, StringPiece.Consume, StringPiece.remove_prefix,
          StringPiece.sub, Matches, hc, List.drop_one, List.tail_cons, if_true]
        have hd2 : (IsLetter d || IsDigit d || d == '.') = true := by simpa [Matches] using hd
        simp only [hd2, if_true, List.tail_cons]
        rw [List.drop_length_takeWhile]
        by_cases hpre : "://".toList.isPrefixOf (t.dropWhile (Matches .LETTER_DIGIT_DOT)) = true
        · simp only [hpre, if_true]
          simp
          have hlen : base + 1 + 1 + (t.takeWhile (Matches .LETTER_DIGIT_DOT)).length - base
              = (t.takeWhile (Matches .LETTER_DIGIT_DOT)).length + 1 + 1 := by omega
          rw [hlen, List.take_succ_cons, List.take_succ_cons, List.take_length_takeWhile]
        · simp only [hpre]
          simp [Scanner.Error]
      · simp only [hc, hd, true_and, false_and, if_false]
        unfold Scanner.Many
        apply scanRest_none_of_error
        have hd2 : (IsLetter d || IsDigit d || d == '.') = false := by simpa [Matches] using hd
        simp [Scanner.new, Scanner.One, Scanner.Error, Matches, hc, hd2,
          StringPiece.remove_prefix]
    · simp only [hc, false_and, if_false]
      apply scanScheme_none_of_error
      simp [Scanner.new, Scanner.One, Scanner.Error, Matches, hc]
theorem List.takeWhile_append_stop {α : Type} (p : α → Bool) (a b : List α) (y : α)
    (ha : ∀ x ∈ a, p x = true) (hy : p y = false) :
    (a ++ y :: b).takeWhile p = a ∧ (a ++ y :: b).dropWhile p = y :: b := by
  induction a with
  | nil => simp [List.takeWhile_cons, List.dropWhile_cons, hy]
  | cons x xs ih =>
    have hx : p x = true := ha x (List.mem_cons_self x xs)
    have ih2 := ih (fun z hz => ha z (List.mem_cons_of_mem x hz))
    simp [List.takeWhile_cons, List.dropWhile_cons, hx, ih2.1, ih2.2]

theorem List.takeWhile_all {α : Type} (p : α → Bool) (a : List α)
    (ha : ∀ x ∈ a, p x = true) : a.takeWhile p = a ∧ a.dropWhile p = [] := by
  induction a with
  | nil => simp
  | cons x xs ih =>
    have hx : p x = true := ha x (List.mem_cons_self x xs)
    have ih2 := ih (fun z hz => ha z (List.mem_cons_of_mem x hz))
    simp [List.takeWhile_cons, List.dropWhile_cons, hx, ih2.1, ih2.2]

/-- The scan for the host that `ParseURI` continues with. -/
theorem scanHost_eq (base : Nat) (l : List Char) :
    ((Scanner.new ⟨base, l⟩).ScanUntil '/').GetResult =
    if (l.dropWhile (fun ch => ch != '/')).isEmpty = true then none
    else some (⟨base + (l.takeWhile (fun ch => ch != '/')).length,
                l.dropWhile (fun ch => ch != '/')⟩,
               ⟨base, l.takeWhile (fun ch => ch != '/')⟩) := by
  simp only [Scanner.new, Scanner.ScanUntil, StringPiece.remove_prefix,
    List.drop_length_takeWhile]
  by_cases he : (l.dropWhile (fun ch => ch != '/')).isEmpty = true
  · simp [he, Scanner.GetResult]
  · simp [he, Scanner.GetResult, StringPiece.sub, List.take_length_takeWhile]

/-- The result of `ParseURI` on a text made of a well-formed scheme, `://`, a
host without `/` and a path that is empty or starts with `/`. -/
theorem ParseURI_of_parts (base : Nat) (s h p : List Char) (hs : IsScheme s = true)
    (hh : '/' ∉ h) (hp : p = [] ∨ p.head? = some '/') :
    ParseURI ⟨base, s ++ "://".toList ++ h ++ p⟩ =
      { scheme := ⟨base, s⟩, host := ⟨base + s.length + 3, h⟩,
        path := ⟨base + s.length + 3 + h.length, p⟩ } := by
  match s, hs with
  | c :: d :: cs, hs =>
    simp only [IsScheme, Bool.and_eq_true, List.all_cons, List.all_eq_true] at hs
    obtain ⟨hc, hd, hcs⟩ := hs
    have hcolon : Matches .LETTER_DIGIT_DOT ':' = false := by decide
    have htw := List.takeWhile_append_stop (Matches .LETTER_DIGIT_DOT) cs
      ('/' :: '/' :: (h ++ p)) ':' hcs hcolon
    have hl : (c :: d :: cs) ++ "://".toList ++ h ++ p
        = c :: d :: (cs ++ ':' :: '/' :: '/' :: (h ++ p)) := by simp
    unfold ParseURI
    rw [hl, scanScheme_eq]
    simp only [hc, hd, htw.1, htw.2, true_and]
    have hpre : "://".toList.isPrefixOf (':' :: '/' :: '/' :: (h ++ p)) = true := by
      simp [List.isPrefixOf]
    simp only [hpre, if_true]
    have hdrop : (':' :: '/' :: '/' :: (h ++ p)).drop 3 = h ++ p := by simp
    rw [hdrop, scanHost_eq]
    have hhall : ∀ x ∈ h, (fun ch => ch != '/') x = true := by
      intro x hx
      simp only [bne_iff_ne, ne_eq]
      rintro rfl
      exact hh hx
    rcases hp with rfl | hp
    · have hw := List.takeWhile_all (fun ch => ch != '/') h hhall
      simp [hw.1, hw.2, StringPiece.sub, StringPiece.end_]
      omega
    · match p, hp with
      | q :: ps, hp =>
        simp only [List.head?_cons, Option.some.injEq] at hp
        subst hp
        have hw := List.takeWhile_append_stop (fun ch => ch != '/') h ps '/' hhall (by simp)
        simp [hw.1, hw.2]
        omega
/-- A text whose scan for the scheme succeeds begins with a well-formed
scheme followed by `://`. -/
theorem ParseURI_no_scheme (base : Nat) (l : List Char) (hl : ¬ BeginsWithScheme l) :
    ParseURI ⟨base, l⟩ = { scheme := ⟨base, []⟩, host := ⟨base, []⟩, path := ⟨base, l⟩ } := by
  have hscan : (((((Scanner.new ⟨base, l⟩).One .LETTER).Many .LETTER_DIGIT_DOT).StopCapture).OneLiteral
      "://".toList).GetResult = none := by
    rw [scanScheme_eq]
    split
    · rename_i c d t
      split
      · rename_i hcond
        exfalso
        apply hl
        obtain ⟨hc, hd, hpre⟩ := hcond
        refine ⟨c :: d :: t.takeWhile (Matches .LETTER_DIGIT_DOT),
          (t.dropWhile (Matches .LETTER_DIGIT_DOT)).drop 3, ?_, ?_⟩
        · simp only [IsScheme, Bool.and_eq_true, List.all_cons, List.all_eq_true]
          refine ⟨hc, hd, ?_⟩
          intro x hx
          exact List.mem_takeWhile_imp hx
        · rw [List.isPrefixOf_iff_prefix] at hpre
          obtain ⟨r, hr⟩ := hpre
          have hr2 : (t.dropWhile (Matches .LETTER_DIGIT_DOT)).drop 3 = r := by
            rw [← hr]; simp
          rw [hr2]
          have ht : t = t.takeWhile (Matches .LETTER_DIGIT_DOT) ++ ("://".toList ++ r) := by
            rw [hr]; exact (List.takeWhile_append_dropWhile _ t).symm
          simp only [List.cons_append, List.append_assoc]
          rw [← ht]
      · rfl
    · rfl
  unfold ParseURI
  rw [hscan]
  simp [StringPiece.sub, StringPiece.begin]

/-- The two shapes of a result of `ParseURI`: the text does not begin with a
scheme and is returned whole as the path, or it splits into scheme, `://`,
host and path. -/
theorem ParseURI_cases (input : StringPiece) :
    (¬ BeginsWithScheme input.chars ∧
      ParseURI input = ParsedURI.mk ⟨input.data, []⟩ ⟨input.data, []⟩ input) ∨
    (∃ s h p : List Char, IsScheme s = true ∧ '/' ∉ h ∧ (p = [] ∨ p.head? = some '/') ∧
      input.chars = s ++ "://".toList ++ h ++ p ∧
      ParseURI input = ParsedURI.mk ⟨input.data, s⟩ ⟨input.data + s.length + 3, h⟩
        ⟨input.data + s.length + 3 + h.length, p⟩) := by
  obtain ⟨base, l⟩ := input
  by_cases hb : BeginsWithScheme l
  · right
    obtain ⟨s, rest, hs, hl⟩ := hb
    have hh : '/' ∉ rest.takeWhile (fun ch => ch != '/') := by
      intro hmem
      have := List.mem_takeWhile_imp hmem
      simp at this
    have hp : rest.dropWhile (fun ch => ch != '/') = [] ∨
        (rest.dropWhile (fun ch => ch != '/')).head? = some '/' := by
      cases hd : rest.dropWhile (fun ch => ch != '/') with
      | nil => left; rfl
      | cons q qs =>
        right
        have hne : rest.dropWhile (fun ch => ch != '/') ≠ [] := by simp [hd]
        have hq := List.head_dropWhile_not (fun ch => ch != '/') rest hne
        simp only [hd, List.head_cons] at hq
        have hq2 : q = '/' := by simpa using hq
        simp [hq2]
    have hsplit : l = s ++ "://".toList ++ rest.takeWhile (fun ch => ch != '/')
        ++ rest.dropWhile (fun ch => ch != '/') := by
      rw [List.append_assoc _ (rest.takeWhile _), List.takeWhile_append_dropWhile]
      exact hl
    refine ⟨s, _, _, hs, hh, hp, hsplit, ?_⟩
    have := ParseURI_of_parts base s _ _ hs hh hp
    rw [← hsplit] at this
    exact this
  · left
    exact ⟨hb, ParseURI_no_scheme base l hb⟩

/-- C7: on a text made of a well-formed scheme `s` (a letter followed by one
or more letters, digits or dots), `://`, a host `h` without `/` and a path `p`
that is empty or begins with `/`, `ParseURI` returns exactly `s`, `h` and `p`,
each as a view into the text; when no `/` follows the host (`p` empty) the
path is empty. -/
theorem ParseURI_well_formed (base : Nat) (s h p : List Char) (hs : IsScheme s = true)
    (hh : '/' ∉ h) (hp : p = [] ∨ p.head? = some '/') :
    ParseURI ⟨base, s ++ "://".toList ++ h ++ p⟩ =
      ParsedURI.mk ⟨base, s⟩ ⟨base + s.length + 3, h⟩ ⟨base + s.length + 3 + h.length, p⟩ :=
  ParseURI_of_parts base s h p hs hh hp

/-- The example of the specification, `hdfs://nn1:8020/a/b` stored at address
100. -/
theorem ParseURI_well_formed_witness :
    IsScheme "hdfs".toList = true ∧ '/' ∉ "nn1:8020".toList ∧
    "/a/b".toList.head? = some '/' ∧
    ParseURI (StringPiece.ofString 100 "hdfs://nn1:8020/a/b") =
      ParsedURI.mk (StringPiece.ofString 100 "hdfs") (StringPiece.ofString 107 "nn1:8020")
        (StringPiece.ofString 115 "/a/b") :=
  ⟨by decide, by decide, by decide,
    ParseURI_well_formed 100 "hdfs".toList "nn1:8020".toList "/a/b".toList (by decide) (by decide)
      (Or.inr (by decide))⟩

/-- C8: if the scheme that `ParseURI` returns is empty then the host is empty
and the path is the whole input; and every input that does not begin with a
well-formed scheme followed by `://` comes back with an empty scheme, an empty
host and itself as the path. -/
theorem ParseURI_empty_scheme (input : StringPiece) :
    ((ParseURI input).scheme.chars = [] →
      (ParseURI input).host.chars = [] ∧ (ParseURI input).path = input) ∧
    (¬ BeginsWithScheme input.chars →
      (ParseURI input).scheme.chars = [] ∧ (ParseURI input).host.chars = [] ∧
        (ParseURI input).path = input) := by
  rcases ParseURI_cases input with ⟨_, hP⟩ | ⟨s, h, p, hs, _, _, hl, hP⟩
  · rw [hP]; simp
  · rw [hP]
    constructor
    · intro hnil
      simp only at hnil
      subst hnil
      simp [IsScheme] at hs
    · intro hnb
      exact absurd ⟨s, h ++ p, hs, by rw [hl]; simp⟩ hnb

theorem not_BeginsWithScheme_of_not_letter (c : Char) (t : List Char) (hc : IsLetter c = false) :
    ¬ BeginsWithScheme (c :: t) := by
  rintro ⟨s, rest, hs, hl⟩
  match s, hs with
  | a :: b :: cs, hs =>
    simp only [List.cons_append, List.cons.injEq] at hl
    obtain ⟨rfl, _⟩ := hl
    simp [IsScheme, hc] at hs

/-- The example of the specification, the bare path `/a/b`. -/
theorem ParseURI_empty_scheme_witness :
    (ParseURI (StringPiece.ofString 100 "/a/b")).scheme.chars = [] ∧
    (ParseURI (StringPiece.ofString 100 "/a/b")).host.chars = [] ∧
    (ParseURI (StringPiece.ofString 100 "/a/b")).path = StringPiece.ofString 100 "/a/b" :=
  (ParseURI_empty_scheme (StringPiece.ofString 100 "/a/b")).2
    (not_BeginsWithScheme_of_not_letter '/' "a/b".toList (by decide))
/-! ### `Basename` -/

theorem rfindList_spec (c : Char) (l : List Char) :
    match rfindList c l with
    | none => c ∉ l
    | some i => ∃ a b : List Char, l = a ++ c :: b ∧ a.length = i ∧ c ∉ b := by
  induction l with
  | nil => simp [rfindList]
  | cons x xs ih =>
    unfold rfindList
    cases hr : rfindList c xs with
    | some i =>
      rw [hr] at ih
      obtain ⟨a, b, hl, ha, hb⟩ := ih
      exact ⟨x :: a, b, by simp [hl], by simp [ha], hb⟩
    | none =>
      rw [hr] at ih
      by_cases hx : x = c
      · subst hx
        simp only [if_true]
        exact ⟨[], xs, by simp, rfl, ih⟩
      · simp only [hx, if_false]
        simp only [List.mem_cons, not_or]
        exact ⟨fun h => hx h.symm, ih⟩

theorem List.takeWhile_append_of_stop {α : Type} (p : α → Bool) (x y : List α)
    (hx : ∃ z ∈ x, p z = false) : (x ++ y).takeWhile p = x.takeWhile p := by
  induction x with
  | nil => simp at hx
  | cons a as ih =>
    by_cases ha : p a = true
    · obtain ⟨z, hz, hpz⟩ := hx
      simp only [List.mem_cons] at hz
      rcases hz with rfl | hz
      · simp [ha] at hpz
      · simp [List.takeWhile_cons, ha, ih ⟨z, hz, hpz⟩]
    · simp [List.takeWhile_cons, ha]

theorem afterLastSlash_of_not_mem (l : List Char) (h : '/' ∉ l) : afterLastSlash l = l := by
  unfold afterLastSlash
  have hall : ∀ x ∈ l.reverse, (fun ch => ch != '/') x = true := by
    intro x hx
    simp only [bne_iff_ne, ne_eq]
    rintro rfl
    exact h (List.mem_reverse.mp hx)
  rw [(List.takeWhile_all _ _ hall).1, List.reverse_reverse]

theorem afterLastSlash_append_slash (a b : List Char) (h : '/' ∉ b) :
    afterLastSlash (a ++ '/' :: b) = b := by
  unfold afterLastSlash
  have hall : ∀ x ∈ b.reverse, (fun ch => ch != '/') x = true := by
    intro x hx
    simp only [bne_iff_ne, ne_eq]
    rintro rfl
    exact h (List.mem_reverse.mp hx)
  have hrev : (a ++ '/' :: b).reverse = b.reverse ++ '/' :: a.reverse := by simp
  rw [hrev, (List.takeWhile_append_stop _ _ _ '/' hall (by simp)).1, List.reverse_reverse]

theorem afterLastSlash_append_of_mem (a b : List Char) (h : '/' ∈ b) :
    afterLastSlash (a ++ b) = afterLastSlash b := by
  unfold afterLastSlash
  rw [List.reverse_append, List.takeWhile_append_of_stop]
  exact ⟨'/', List.mem_reverse.mpr h, by simp⟩

/-- What `SplitPath` returns second: the part of the path component after its
last `/`. -/
theorem Basename_chars (uri : StringPiece) :
    (Basename uri).chars = afterLastSlash (ParseURI uri).path.chars := by
  unfold Basename SplitPath
  have hspec := rfindList_spec '/' (ParseURI uri).path.chars
  simp only [StringPiece.rfind]
  cases hr : rfindList '/' (ParseURI uri).path.chars with
  | none =>
    rw [hr] at hspec
    simp only
    rw [afterLastSlash_of_not_mem _ hspec]
  | some pos =>
    rw [hr] at hspec
    obtain ⟨a, b, hl, ha, hb⟩ := hspec
    simp only
    rw [hl, afterLastSlash_append_slash a b hb]
    split
    · rename_i h0
      subst h0
      have ha0 : a = [] := List.length_eq_zero.mp ha
      subst ha0
      simp [StringPiece.sub, StringPiece.size, hl]
    · have hd : (ParseURI uri).path.data + pos + 1 - (ParseURI uri).path.data = a.length + 1 := by
        omega
      simp only [StringPiece.sub, StringPiece.size, hl, hd]
      simp only [← ha, List.length_append, List.length_cons]
      have hdrop : (a ++ '/' :: b).drop (a.length + 1) = b := by
        rw [show a ++ '/' :: b = (a ++ ['/']) ++ b by simp]
        exact List.drop_left' (by simp)
      rw [hdrop]
      exact List.take_of_length_le (by omega)
theorem rfindList_eq_none (c : Char) (l : List Char) (h : c ∉ l) : rfindList c l = none := by
  have hspec := rfindList_spec c l
  cases hr : rfindList c l with
  | none => rfl
  | some i =>
    rw [hr] at hspec
    obtain ⟨a, b, hl, _, _⟩ := hspec
    exact absurd (by rw [hl]; simp) h

/-- C9 (amended): `Basename(p)` is `p` itself when `p` has no `/`; it is
always the part after the last `/` of the path component that `ParseURI`
extracts from `p` (the whole component when that has no `/`); so it is the
part of `p` after its last `/` unless `p` is a scheme, `://` and a non-empty
host with no `/` after it, and for a scheme, `://` and a host with no `/`
after it `Basename(p)` is empty. -/
theorem Basename_spec (p : StringPiece) :
    ('/' ∉ p.chars → Basename p = p) ∧
    (Basename p).chars = afterLastSlash (ParseURI p).path.chars ∧
    ((∀ s h : List Char, IsScheme s = true → '/' ∉ h → p.chars = s ++ "://".toList ++ h →
        h = []) →
      (Basename p).chars = afterLastSlash p.chars) ∧
    (∀ s h : List Char, IsScheme s = true → '/' ∉ h → p.chars = s ++ "://".toList ++ h →
      (Basename p).chars = []) := by
  refine ⟨?_, Basename_chars p, ?_, ?_⟩
  · intro hno
    have hnb : ¬ BeginsWithScheme p.chars := by
      rintro ⟨s, rest, _, hl⟩
      apply hno
      rw [hl]
      simp
    rcases ParseURI_cases p with ⟨_, hP⟩ | ⟨s, h, q, hs, _, _, hl, _⟩
    · unfold Basename SplitPath
      simp only [hP, StringPiece.rfind, rfindList_eq_none '/' p.chars hno]
    · exact absurd ⟨s, h ++ q, hs, by rw [hl]; simp⟩ hnb
  · intro hexc
    rw [Basename_chars]
    rcases ParseURI_cases p with ⟨_, hP⟩ | ⟨s, h, q, hs, hh, hq, hl, hP⟩
    · rw [hP]
    · rw [hP]
      simp only
      rcases hq with rfl | hq
      · have hnil : h = [] := hexc s h hs hh (by rw [hl]; simp)
        subst hnil
        rw [hl]
        have : s ++ "://".toList ++ [] ++ [] = (s ++ [':', '/']) ++ '/' :: [] := by simp
        rw [this, afterLastSlash_append_slash _ _ (by simp)]
        rfl
      · match q, hq with
        | c :: qs, hq =>
          simp only [List.head?_cons, Option.some.injEq] at hq
          subst hq
          rw [hl, afterLastSlash_append_of_mem _ _ (by simp)]
  · intro s h hs hh hl
    obtain ⟨base, l⟩ := p
    simp only at hl
    subst hl
    rw [Basename_chars]
    have hP := ParseURI_of_parts base s h [] hs hh (Or.inl rfl)
    simp only [List.append_nil] at hP
    rw [hP]
    rfl

/-- The examples of the specification, and a full address. -/
theorem Basename_spec_witness :
    Basename (StringPiece.ofString 100 "nofile") = StringPiece.ofString 100 "nofile" ∧
    (Basename (StringPiece.ofString 100 "/a/b/c")).chars = "c".toList ∧
    (Basename (StringPiece.ofString 100 "/a")).chars = "a".toList ∧
    (Basename (StringPiece.ofString 100 "hdfs://nn1:8020/a/b")).chars = "b".toList :=
  ⟨(Basename_spec (StringPiece.ofString 100 "nofile")).1 (by decide), by decide, by decide,
    by decide⟩

/-- C9, the claim as first stated fails: `hdfs://host` contains a `/` and the
part after its last `/` is `host`, but its `Basename` is empty. -/
theorem Basename_scheme_host_counterexample :
    '/' ∈ "hdfs://host".toList ∧
    afterLastSlash "hdfs://host".toList = "host".toList ∧
    (Basename (StringPiece.ofString 100 "hdfs://host")).chars = [] ∧
    (Basename (StringPiece.ofString 100 "hdfs://host")).chars
      ≠ afterLastSlash "hdfs://host".toList := by
  decide

/-! ### `RandomAccessFile::Read` -/

theorem Status.new_not_ok (code : Code) (msg : String) (s : Status)
    (h : Status.new code msg = .returned s) : s.ok = false := by
  unfold Status.new at h
  split at h
  · cases h
  · cases h; rfl

theorem IOError_not_ok (strerror : Int → String) (context : String) (e : Int) (s : Status)
    (h : IOError strerror context e = .returned s) : s.ok = false := by
  unfold IOError at h
  simp only at h
  split at h <;> exact Status.new_not_ok _ _ _ h

theorem Status.new_OUT_OF_RANGE (msg : String) :
    Status.new Code.OUT_OF_RANGE msg = .returned ⟨some ⟨Code.OUT_OF_RANGE, msg⟩⟩ := by
  simp [Status.new]

theorem toInt32_le_of_pos (x : Nat) (h : 0 < toInt32 x) : toInt32 x ≤ x := by
  unfold toInt32 at *
  omega

theorem toInt32_eq_self (x : Nat) (h : x < 2 ^ 31) : toInt32 x = x := by
  unfold toInt32
  omega

theorem toInt64_eq_self (x : Nat) (h : x < 2 ^ 63) : toInt64 x = x := by
  unfold toInt64
  omega

theorem Outcome.andThen_eq_returned {α β : Type} (x : Outcome α) (k : α → Outcome β) (b : β) :
    x.andThen k = .returned b ↔ ∃ a, x = .returned a ∧ k a = .returned b := by
  cases x with
  | returned a => simp [Outcome.andThen]
  | aborted e => simp [Outcome.andThen]

section ReadLemmas

variable {σ : Type} (strerror : Int → String) (f : RandomAccessFile σ)

theorem RandomAccessFile.ReadLoop_exit (fuel : Nat) (st : ReadState σ) (h : st.guard = false) :
    f.ReadLoop strerror fuel st = .returned (st, []) := by
  cases fuel <;> simp [RandomAccessFile.ReadLoop, h]

theorem RandomAccessFile.ReadLoop_zero (st : ReadState σ) (h : st.guard = true) :
    f.ReadLoop strerror 0 st = .aborted .outOfFuel := by
  simp [RandomAccessFile.ReadLoop, h]

theorem RandomAccessFile.ReadLoop_succ (k : Nat) (st : ReadState σ) (h : st.guard = true) :
    f.ReadLoop strerror (k + 1) st =
      (f.ReadBody strerror st).andThen fun st1 =>
        (f.ReadLoop strerror k st1).andThen fun r =>
          .returned (r.1, f.preadCall st :: r.2) := by
  rw [RandomAccessFile.ReadLoop]
  simp [h]

theorem ReadState.guard_of_not_ok (st : ReadState σ) (h : st.s.ok = false) :
    st.guard = false := by
  simp [ReadState.guard, h]

theorem RandomAccessFile.ReadBody_pos (st : ReadState σ) (h : 0 < (f.pread st).ret) :
    f.ReadBody strerror st = .returned
      { world := (f.pread st).world, mem := (f.pread st).mem,
        offset := (((st.offset : Int) + (f.pread st).ret) % 2 ^ 64).toNat,
        n := (((st.n : Int) - (f.pread st).ret) % 2 ^ 64).toNat,
        dst := st.dst + (f.pread st).ret.toNat, s := st.s } := by
  simp [RandomAccessFile.ReadBody, h]

theorem RandomAccessFile.ReadBody_zero (st : ReadState σ) (h : (f.pread st).ret = 0) :
    f.ReadBody strerror st = .returned
      { world := (f.pread st).world, mem := (f.pread st).mem, offset := st.offset, n := st.n,
        dst := st.dst,
        s := ⟨some ⟨Code.OUT_OF_RANGE, "Read less bytes than requested"⟩⟩ } := by
  simp [RandomAccessFile.ReadBody, h, Status.new, Outcome.andThen]

theorem RandomAccessFile.ReadBody_retry (st : ReadState σ) (h : (f.pread st).ret < 0)
    (he : (f.pread st).errno = EINTR ∨ (f.pread st).errno = EAGAIN) :
    f.ReadBody strerror st = .returned
      { world := (f.pread st).world, mem := (f.pread st).mem, offset := st.offset, n := st.n,
        dst := st.dst, s := st.s } := by
  have h1 : ¬ 0 < (f.pread st).ret := by omega
  have h2 : ¬ (f.pread st).ret = 0 := by omega
  simp only [RandomAccessFile.ReadBody, h1, h2, if_false]
  rw [if_pos he]

theorem RandomAccessFile.ReadBody_error (st : ReadState σ) (h : (f.pread st).ret < 0)
    (he1 : (f.pread st).errno ≠ EINTR) (he2 : (f.pread st).errno ≠ EAGAIN) :
    f.ReadBody strerror st =
      (IOError strerror f.filename_ (f.pread st).errno).andThen fun s => .returned
        { world := (f.pread st).world, mem := (f.pread st).mem, offset := st.offset, n := st.n,
          dst := st.dst, s := s } := by
  have h1 : ¬ 0 < (f.pread st).ret := by omega
  have h2 : ¬ (f.pread st).ret = 0 := by omega
  have h3 : ¬ ((f.pread st).errno = EINTR ∨ (f.pread st).errno = EAGAIN) := by
    rintro (h | h)
    · exact he1 h
    · exact he2 h
  simp only [RandomAccessFile.ReadBody, h1, h2, if_false]
  rw [if_neg h3]

/-- The loop of `Read`, when it exits with an OK status and every positive
native result was at most the count requested: nothing remains to read, the
destination has advanced by the `n` it started with, and the native reads
delivered that many bytes. -/
theorem RandomAccessFile.ReadLoop_ok (fuel : Nat) :
    ∀ (st st1 : ReadState σ) (calls : List PreadCall),
      f.ReadLoop strerror fuel st = .returned (st1, calls) → st1.s.ok = true →
      (∀ c ∈ calls, 0 < c.ret → c.ret ≤ c.length) → st.n < 2 ^ 64 →
      st1.n = 0 ∧ st1.dst = st.dst + st.n ∧ bytesDelivered calls = st.n := by
  induction fuel with
  | zero =>
    intro st st1 calls hrun hok _ _
    by_cases hg : st.guard = true
    · rw [RandomAccessFile.ReadLoop_zero _ _ _ hg] at hrun
      cases hrun
    · have hg2 : st.guard = false := by simpa using hg
      rw [RandomAccessFile.ReadLoop_exit _ _ _ _ hg2] at hrun
      cases hrun
      simp only [ReadState.guard, hok, Bool.and_true, decide_eq_false_iff_not] at hg2
      have : st.n = 0 := by omega
      simp [this, bytesDelivered]
  | succ k ih =>
    intro st st1 calls hrun hok hle hn
    by_cases hg : st.guard = true
    · rw [RandomAccessFile.ReadLoop_succ _ _ _ _ hg] at hrun
      obtain ⟨st2, hbody, hrest⟩ := (Outcome.andThen_eq_returned _ _ _).mp hrun
      obtain ⟨r, hloop, hr⟩ := (Outcome.andThen_eq_returned _ _ _).mp hrest
      obtain ⟨st3, calls3⟩ := r
      simp only [Outcome.returned.injEq, Prod.mk.injEq] at hr
      obtain ⟨rfl, rfl⟩ := hr
      have hle3 : ∀ c ∈ calls3, 0 < c.ret → c.ret ≤ c.length :=
        fun c hc => hle c (List.mem_cons_of_mem _ hc)
      have hhead := hle (f.preadCall st) (List.mem_cons_self _ _)
      simp only [RandomAccessFile.preadCall] at hhead
      rcases lt_trichotomy (f.pread st).ret 0 with hneg | hzero | hpos
      · by_cases he : (f.pread st).errno = EINTR ∨ (f.pread st).errno = EAGAIN
        · rw [RandomAccessFile.ReadBody_retry _ _ _ hneg he] at hbody
          cases hbody
          have := ih _ _ _ hloop hok hle3 hn
          simp only at this
          obtain ⟨h1, h2, h3⟩ := this
          refine ⟨h1, h2, ?_⟩
          have hnp : ¬ 0 < (f.pread st).ret := by omega
          simp only [bytesDelivered, List.map_cons, List.sum_cons, RandomAccessFile.preadCall,
            hnp, if_false, zero_add]
          exact h3
        · have he1 : (f.pread st).errno ≠ EINTR := fun h => he (Or.inl h)
          have he2 : (f.pread st).errno ≠ EAGAIN := fun h => he (Or.inr h)
          rw [RandomAccessFile.ReadBody_error _ _ _ hneg he1 he2] at hbody
          obtain ⟨s, hs, hst⟩ := (Outcome.andThen_eq_returned _ _ _).mp hbody
          cases hst
          have hnot := IOError_not_ok _ _ _ _ hs
          rw [RandomAccessFile.ReadLoop_exit _ _ _ _ (ReadState.guard_of_not_ok _ hnot)] at hloop
          cases hloop
          simp [hnot] at hok
      · rw [RandomAccessFile.ReadBody_zero _ _ _ hzero] at hbody
        cases hbody
        rw [RandomAccessFile.ReadLoop_exit _ _ _ _ (by simp [ReadState.guard, Status.ok])] at hloop
        cases hloop
        simp [Status.ok] at hok
      · rw [RandomAccessFile.ReadBody_pos _ _ _ hpos] at hbody
        cases hbody
        have hrn : (f.pread st).ret ≤ st.n :=
          le_trans (hhead hpos) (toInt32_le_of_pos st.n (lt_of_lt_of_le hpos (hhead hpos)))
        have hn2 : (((st.n : Int) - (f.pread st).ret) % 2 ^ 64).toNat
            = st.n - (f.pread st).ret.toNat := by omega
        have := ih _ _ _ hloop hok hle3 (by simp only; omega)
        simp only [hn2] at this
        obtain ⟨h1, h2, h3⟩ := this
        refine ⟨h1, by rw [h2]; omega, ?_⟩
        simp only [bytesDelivered, List.map_cons, List.sum_cons, RandomAccessFile.preadCall,
          hpos, if_true]
        simp only [bytesDelivered] at h3
        rw [h3]
        omega
    · have hg2 : st.guard = false := by simpa using hg
      rw [RandomAccessFile.ReadLoop_exit _ _ _ _ hg2] at hrun
      cases hrun
      simp only [ReadState.guard, hok, Bool.and_true, decide_eq_false_iff_not] at hg2
      have : st.n = 0 := by omega
      simp [this, bytesDelivered]

end ReadLemmas
/-- C1: whenever `Read` returns an OK status, in a run where every positive
native result was at most the count requested, the view written to `*result`
starts at the scratch buffer and has length exactly `n`, and the positive
native results sum to `n`: `Read` never returns OK with fewer than `n`
bytes. -/
theorem Read_ok_returns_all {σ : Type} (strerror : Int → String) (f : RandomAccessFile σ)
    (fuel : Nat) (world : σ) (mem : Mem) (offset n scratch : Nat) (res : ReadResult σ)
    (hn : n < 2 ^ 64)
    (hret : f.Read strerror fuel world mem offset n scratch = .returned res)
    (hok : res.status.ok = true)
    (hle : ∀ c ∈ res.calls, 0 < c.ret → c.ret ≤ c.length) :
    res.result.data = scratch ∧ res.result.size = n ∧ bytesDelivered res.calls = n := by
  unfold RandomAccessFile.Read at hret
  obtain ⟨r, hloop, hfin⟩ := (Outcome.andThen_eq_returned _ _ _).mp hret
  obtain ⟨st1, calls⟩ := r
  cases hfin
  simp only [ReadState.finish] at hok hle ⊢
  have h := RandomAccessFile.ReadLoop_ok strerror f fuel _ _ _ hloop hok hle
    (by simpa [ReadState.init] using hn)
  simp only [ReadState.init] at h
  obtain ⟨_, h2, h3⟩ := h
  refine ⟨rfl, ?_, h3⟩
  simp [StringPiece.ofMem, StringPiece.size, h2]

/-- A read of five bytes answered by 2, a retry and 3. -/
theorem Read_ok_returns_all_witness :
    (5 : Nat) < 2 ^ 64 ∧
    scriptRAF.Read strerrorStub 10 [(2, 0), (-1, EINTR), (3, 0)] blankMem 0 5 100
      = .returned scriptReadResult ∧
    scriptReadResult.status.ok = true ∧
    (∀ c ∈ scriptReadResult.calls, 0 < c.ret → c.ret ≤ c.length) ∧
    scriptReadResult.result.data = 100 ∧ scriptReadResult.result.size = 5 ∧
    bytesDelivered scriptReadResult.calls = 5 :=
  ⟨by norm_num, by rfl, by rfl, by decide,
    Read_ok_returns_all strerrorStub scriptRAF 10 [(2, 0), (-1, EINTR), (3, 0)] blankMem 0 5 100
      scriptReadResult (by norm_num) (by rfl) (by rfl) (by decide)⟩

theorem Outcome.andThen_assoc {α β γ : Type} (x : Outcome α) (k : α → Outcome β)
    (j : β → Outcome γ) : (x.andThen k).andThen j = x.andThen fun a => (k a).andThen j := by
  cases x <;> rfl

section ReadIterLemmas

variable {σ : Type} (strerror : Int → String) (f : RandomAccessFile σ)

/-- A run of the loop of `Read` with budget `k + fuel` is its first `k`
iterations followed by a run with budget `fuel` from the state they reach. -/
theorem RandomAccessFile.ReadLoop_after_ReadIter (k : Nat) :
    ∀ (st st1 : ReadState σ) (calls : List PreadCall) (fuel : Nat),
      f.ReadIter strerror k st = .returned (st1, calls) →
      f.ReadLoop strerror (k + fuel) st =
        (f.ReadLoop strerror fuel st1).andThen fun r => .returned (r.1, calls ++ r.2) := by
  induction k with
  | zero =>
    intro st st1 calls fuel h
    simp only [RandomAccessFile.ReadIter, Outcome.returned.injEq, Prod.mk.injEq] at h
    obtain ⟨rfl, rfl⟩ := h
    simp only [Nat.zero_add, List.nil_append]
    cases f.ReadLoop strerror fuel st <;> rfl
  | succ k ih =>
    intro st st1 calls fuel h
    by_cases hg : st.guard = true
    · simp only [RandomAccessFile.ReadIter, hg, if_true] at h
      obtain ⟨st2, hbody, hrest⟩ := (Outcome.andThen_eq_returned _ _ _).mp h
      obtain ⟨r, hiter, hr⟩ := (Outcome.andThen_eq_returned _ _ _).mp hrest
      obtain ⟨st3, calls3⟩ := r
      simp only [Outcome.returned.injEq, Prod.mk.injEq] at hr
      obtain ⟨rfl, rfl⟩ := hr
      have hk : k + 1 + fuel = (k + fuel) + 1 := by omega
      rw [hk, RandomAccessFile.ReadLoop_succ _ _ _ _ hg, hbody]
      simp only [Outcome.andThen]
      rw [ih _ _ _ fuel hiter]
      cases f.ReadLoop strerror fuel st3 <;> rfl
    · have hg2 : st.guard = false := by simpa using hg
      simp only [RandomAccessFile.ReadIter, hg2] at h
      simp only [Bool.false_eq_true, if_false, Outcome.returned.injEq, Prod.mk.injEq] at h
      obtain ⟨rfl, rfl⟩ := h
      rw [RandomAccessFile.ReadLoop_exit _ _ _ _ hg2, RandomAccessFile.ReadLoop_exit _ _ _ _ hg2]
      rfl

/-- The first `k + j` iterations are the first `k` followed by `j` more. -/
theorem RandomAccessFile.ReadIter_add (k : Nat) :
    ∀ (st st1 : ReadState σ) (calls : List PreadCall) (j : Nat),
      f.ReadIter strerror k st = .returned (st1, calls) →
      f.ReadIter strerror (k + j) st =
        (f.ReadIter strerror j st1).andThen fun r => .returned (r.1, calls ++ r.2) := by
  induction k with
  | zero =>
    intro st st1 calls j h
    simp only [RandomAccessFile.ReadIter, Outcome.returned.injEq, Prod.mk.injEq] at h
    obtain ⟨rfl, rfl⟩ := h
    simp only [Nat.zero_add, List.nil_append]
    cases f.ReadIter strerror j st <;> rfl
  | succ k ih =>
    intro st st1 calls j h
    by_cases hg : st.guard = true
    · simp only [RandomAccessFile.ReadIter, hg, if_true] at h
      obtain ⟨st2, hbody, hrest⟩ := (Outcome.andThen_eq_returned _ _ _).mp h
      obtain ⟨r, hiter, hr⟩ := (Outcome.andThen_eq_returned _ _ _).mp hrest
      obtain ⟨st3, calls3⟩ := r
      simp only [Outcome.returned.injEq, Prod.mk.injEq] at hr
      obtain ⟨rfl, rfl⟩ := hr
      have hk : k + 1 + j = (k + j) + 1 := by omega
      rw [hk]
      simp only [RandomAccessFile.ReadIter, hg, if_true, hbody, Outcome.andThen]
      rw [ih _ _ _ j hiter]
      cases f.ReadIter strerror j st3 <;> rfl
    · have hg2 : st.guard = false := by simpa using hg
      simp only [RandomAccessFile.ReadIter, hg2] at h
      simp only [Bool.false_eq_true, if_false, Outcome.returned.injEq, Prod.mk.injEq] at h
      obtain ⟨rfl, rfl⟩ := h
      have hk : k + 1 + j = (k + j) + 1 := by omega
      rw [hk]
      cases j <;> simp [RandomAccessFile.ReadIter, hg2, Outcome.andThen]

/-- One more iteration after the first `k`, from a state in which the loop
condition holds. -/
theorem RandomAccessFile.ReadIter_succ_of_guard (k : Nat) (st st1 : ReadState σ)
    (calls : List PreadCall) (h : f.ReadIter strerror k st = .returned (st1, calls))
    (hg : st1.guard = true) :
    f.ReadIter strerror (k + 1) st =
      (f.ReadBody strerror st1).andThen fun st2 =>
        .returned (st2, calls ++ [f.preadCall st1]) := by
  rw [RandomAccessFile.ReadIter_add _ _ _ _ _ _ 1 h]
  simp only [RandomAccessFile.ReadIter, hg, if_true]
  cases f.ReadBody strerror st1 <;> rfl

end ReadIterLemmas
/-- C2: if, at any point of the loop of `Read` where bytes remain to be read
(after `k` iterations the loop condition holds, so `n > 0` remains), the
native read returns exactly 0, then `Read` returns, for every iteration budget
above `k`, the status of kind `OUT_OF_RANGE` with the message "Read less bytes
than requested", and the native read that returned 0 is the last one
issued. -/
theorem Read_zero_is_out_of_range {σ : Type} (strerror : Int → String)
    (f : RandomAccessFile σ) (world : σ) (mem : Mem) (offset n scratch k : Nat)
    (st : ReadState σ) (calls : List PreadCall)
    (hiter : f.ReadIter strerror k (ReadState.init world mem offset n scratch)
      = .returned (st, calls))
    (hg : st.guard = true) (hzero : (f.pread st).ret = 0) (fuel : Nat) (hfuel : k < fuel) :
    f.Read strerror fuel world mem offset n scratch = .returned
      { status := ⟨some ⟨Code.OUT_OF_RANGE, "Read less bytes than requested"⟩⟩,
        result := StringPiece.ofMem (f.pread st).mem scratch (st.dst - scratch),
        mem := (f.pread st).mem, world := (f.pread st).world,
        calls := calls ++ [f.preadCall st] } := by
  obtain ⟨j, rfl⟩ : ∃ j, fuel = k + (j + 1) := ⟨fuel - k - 1, by omega⟩
  unfold RandomAccessFile.Read
  rw [RandomAccessFile.ReadLoop_after_ReadIter _ _ _ _ _ _ _ hiter,
    RandomAccessFile.ReadLoop_succ _ _ _ _ hg, RandomAccessFile.ReadBody_zero _ _ _ hzero]
  simp only [Outcome.andThen]
  rw [RandomAccessFile.ReadLoop_exit _ _ _ _ (by simp [ReadState.guard, Status.ok])]
  rfl

/-- A read of five bytes answered by 2, a retry and 0. -/
theorem Read_zero_is_out_of_range_witness :
    scriptRAF.ReadIter strerrorStub 2
        (ReadState.init [(2, 0), (-1, EINTR), (0, 0)] blankMem 0 5 100)
      = .returned (scriptMidState (0, 0), scriptMidCalls) ∧
    (scriptMidState (0, 0)).guard = true ∧
    (scriptRAF.pread (scriptMidState (0, 0))).ret = 0 ∧
    scriptRAF.Read strerrorStub 3 [(2, 0), (-1, EINTR), (0, 0)] blankMem 0 5 100 = .returned
      { status := ⟨some ⟨Code.OUT_OF_RANGE, "Read less bytes than requested"⟩⟩,
        result := StringPiece.ofMem (scriptRAF.pread (scriptMidState (0, 0))).mem 100
          ((scriptMidState (0, 0)).dst - 100),
        mem := (scriptRAF.pread (scriptMidState (0, 0))).mem,
        world := (scriptRAF.pread (scriptMidState (0, 0))).world,
        calls := scriptMidCalls ++ [scriptRAF.preadCall (scriptMidState (0, 0))] } :=
  ⟨by rfl, by rfl, by rfl,
    Read_zero_is_out_of_range strerrorStub scriptRAF [(2, 0), (-1, EINTR), (0, 0)] blankMem 0 5
      100 2 (scriptMidState (0, 0)) scriptMidCalls (by rfl) (by rfl) (by rfl) 3 (by norm_num)⟩

/-- C6: when, at any point of the loop of `Read` (after `k` iterations, the
loop condition holding), the native read returns a negative value, then:
with `errno` equal to `EINTR` or `EAGAIN` the iteration changes neither the
offset, nor the remaining count, nor the destination, nor the status, the loop
goes on, and the next iteration issues its native read with the same position,
buffer and length; with any other `errno` value `e`, `Read` hands back, for
every iteration budget above `k`, the status `IOError(filename_, e)` and the
failed native read is the last one issued. -/
theorem Read_negative_return {σ : Type} (strerror : Int → String)
    (f : RandomAccessFile σ) (world : σ) (mem : Mem) (offset n scratch k : Nat)
    (st : ReadState σ) (calls : List PreadCall)
    (hiter : f.ReadIter strerror k (ReadState.init world mem offset n scratch)
      = .returned (st, calls))
    (hg : st.guard = true) (hneg : (f.pread st).ret < 0) :
    ((f.pread st).errno = EINTR ∨ (f.pread st).errno = EAGAIN →
      ∃ st1 : ReadState σ,
        f.ReadIter strerror (k + 1) (ReadState.init world mem offset n scratch)
          = .returned (st1, calls ++ [f.preadCall st]) ∧
        st1.offset = st.offset ∧ st1.n = st.n ∧ st1.dst = st.dst ∧ st1.s = st.s ∧
        st1.guard = true ∧
        f.ReadIter strerror (k + 2) (ReadState.init world mem offset n scratch)
          = (f.ReadBody strerror st1).andThen (fun st2 =>
              .returned (st2, calls ++ [f.preadCall st, f.preadCall st1])) ∧
        (f.preadCall st1).position = (f.preadCall st).position ∧
        (f.preadCall st1).buffer = (f.preadCall st).buffer ∧
        (f.preadCall st1).length = (f.preadCall st).length) ∧
    ((f.pread st).errno ≠ EINTR → (f.pread st).errno ≠ EAGAIN →
      ∀ fuel : Nat, k < fuel →
        f.Read strerror fuel world mem offset n scratch =
          (IOError strerror f.filename_ (f.pread st).errno).andThen fun s => .returned
            { status := s,
              result := StringPiece.ofMem (f.pread st).mem scratch (st.dst - scratch),
              mem := (f.pread st).mem, world := (f.pread st).world,
              calls := calls ++ [f.preadCall st] }) := by
  constructor
  · intro he
    have h1 := RandomAccessFile.ReadIter_succ_of_guard strerror f k _ _ _ hiter hg
    rw [RandomAccessFile.ReadBody_retry _ _ _ hneg he] at h1
    simp only [Outcome.andThen] at h1
    refine ⟨_, h1, rfl, rfl, rfl, rfl, ?_, ?_, rfl, rfl, rfl⟩
    · simpa [ReadState.guard] using hg
    · have hg1 : ReadState.guard
          { world := (f.pread st).world, mem := (f.pread st).mem, offset := st.offset,
            n := st.n, dst := st.dst, s := st.s } = true := by
        simpa [ReadState.guard] using hg
      have h2 := RandomAccessFile.ReadIter_succ_of_guard strerror f (k + 1) _ _ _ h1 hg1
      rw [h2]
      simp
  · intro he1 he2 fuel hfuel
    obtain ⟨j, rfl⟩ : ∃ j, fuel = k + (j + 1) := ⟨fuel - k - 1, by omega⟩
    unfold RandomAccessFile.Read
    rw [RandomAccessFile.ReadLoop_after_ReadIter _ _ _ _ _ _ _ hiter,
      RandomAccessFile.ReadLoop_succ _ _ _ _ hg,
      RandomAccessFile.ReadBody_error _ _ _ hneg he1 he2]
    cases hio : IOError strerror f.filename_ (f.pread st).errno with
    | aborted e => rfl
    | returned s =>
      simp only [Outcome.andThen]
      rw [RandomAccessFile.ReadLoop_exit _ _ _ _
        (ReadState.guard_of_not_ok _ (IOError_not_ok _ _ _ _ hio))]
      rfl
/-- A read of five bytes answered by 2, a retry, and a failure with `EIO`. -/
theorem Read_negative_return_witness :
    scriptRAF.ReadIter strerrorStub 2
        (ReadState.init [(2, 0), (-1, EINTR), (-1, EIO)] blankMem 0 5 100)
      = .returned (scriptMidState (-1, EIO), scriptMidCalls) ∧
    (scriptMidState (-1, EIO)).guard = true ∧
    (scriptRAF.pread (scriptMidState (-1, EIO))).ret < 0 ∧
    (scriptRAF.pread (scriptMidState (-1, EIO))).errno ≠ EINTR ∧
    (scriptRAF.pread (scriptMidState (-1, EIO))).errno ≠ EAGAIN ∧
    scriptRAF.Read strerrorStub 3 [(2, 0), (-1, EINTR), (-1, EIO)] blankMem 0 5 100 =
      (IOError strerrorStub scriptRAF.filename_
          (scriptRAF.pread (scriptMidState (-1, EIO))).errno).andThen fun s => .returned
        { status := s,
          result := StringPiece.ofMem (scriptRAF.pread (scriptMidState (-1, EIO))).mem 100
            ((scriptMidState (-1, EIO)).dst - 100),
          mem := (scriptRAF.pread (scriptMidState (-1, EIO))).mem,
          world := (scriptRAF.pread (scriptMidState (-1, EIO))).world,
          calls := scriptMidCalls ++ [scriptRAF.preadCall (scriptMidState (-1, EIO))] } :=
  ⟨by rfl, by rfl, by decide, by decide, by decide,
    (Read_negative_return strerrorStub scriptRAF [(2, 0), (-1, EINTR), (-1, EIO)] blankMem 0 5
      100 2 (scriptMidState (-1, EIO)) scriptMidCalls (by rfl) (by rfl) (by decide)).2
      (by decide) (by decide) 3 (by norm_num)⟩

/-! ### `WritableFile` -/

/-- C3 (amended): `Append` on a file that has not been closed issues exactly
one native write, with the buffer and its size converted to `tSize` (the whole
buffer when the size is below `2^31`); when that write returns `-1`, `Append`
hands back `IOError(filename_, errno)`, and for every other native return,
a count smaller than the buffer size included, it returns OK. -/
theorem Append_single_write {σ : Type} (strerror : Int → String) (f : WritableFile σ)
    (hdfs : LibHDFS σ) (hopen : f.hdfs_ = some hdfs) (world : σ) (data : StringPiece) :
    ((hdfs.hdfsWrite world f.fs_ f.file_ data (toInt32 data.size)).ret = -1 →
      f.Append strerror world data =
        (IOError strerror f.filename_
            (hdfs.hdfsWrite world f.fs_ f.file_ data (toInt32 data.size)).errno).andThen
          fun s => .returned
            { status := s,
              world := (hdfs.hdfsWrite world f.fs_ f.file_ data (toInt32 data.size)).world,
              calls := [{ fs := f.fs_, file := f.file_, buffer := data,
                          length := toInt32 data.size,
                          ret := (hdfs.hdfsWrite world f.fs_ f.file_ data
                            (toInt32 data.size)).ret,
                          errno := (hdfs.hdfsWrite world f.fs_ f.file_ data
                            (toInt32 data.size)).errno }] }) ∧
    ((hdfs.hdfsWrite world f.fs_ f.file_ data (toInt32 data.size)).ret ≠ -1 →
      f.Append strerror world data = .returned
        { status := Status.OK,
          world := (hdfs.hdfsWrite world f.fs_ f.file_ data (toInt32 data.size)).world,
          calls := [{ fs := f.fs_, file := f.file_, buffer := data,
                      length := toInt32 data.size,
                      ret := (hdfs.hdfsWrite world f.fs_ f.file_ data (toInt32 data.size)).ret,
                      errno := (hdfs.hdfsWrite world f.fs_ f.file_ data
                        (toInt32 data.size)).errno }] }) ∧
    (data.size < 2 ^ 31 → toInt32 data.size = data.size) := by
  refine ⟨?_, ?_, toInt32_eq_self data.size⟩
  · intro h
    simp only [WritableFile.Append, hopen, h, if_true]
  · intro h
    simp only [WritableFile.Append, hopen, h, if_false]

/-- A write of ten bytes that the native client refuses with `ENOSPC`. -/
theorem Append_single_write_witness :
    scriptWF.hdfs_ = some scriptLib ∧
    scriptWF.Append strerrorStub [(-1, ENOSPC)] ⟨50, "0123456789".toList⟩ = .returned
      { status := ⟨some ⟨Code.RESOURCE_EXHAUSTED, "hdfs://nn1/data"⟩⟩, world := [],
        calls := [{ fs := 1, file := 2, buffer := ⟨50, "0123456789".toList⟩, length := 10,
                    ret := -1, errno := ENOSPC }] } :=
  ⟨rfl, ((Append_single_write strerrorStub scriptWF scriptLib rfl [(-1, ENOSPC)]
    ⟨50, "0123456789".toList⟩).1 (by rfl)).trans (by rfl)⟩

/-- C3, the claim as first stated fails: the native write answers 3 for a
buffer of 10 bytes, a count smaller than the buffer size, and `Append` returns
OK. -/
theorem Append_short_write_counterexample :
    scriptWF.Append strerrorStub [(3, 0)] ⟨50, "0123456789".toList⟩ = .returned
      { status := Status.OK, world := [],
        calls := [{ fs := 1, file := 2, buffer := ⟨50, "0123456789".toList⟩, length := 10,
                    ret := 3, errno := 0 }] } := by
  rfl

/-- C4: on the code, a second `Close` does not return: after a `Close` that
returned, `hdfs_` is `nullptr`, so calling `Close` again dereferences the null
pointer; the destructor, which tests `file_ != nullptr` first, issues no
native call on the closed object. -/
theorem Close_twice_null_dereference {σ : Type} (strerror : Int → String)
    (f : WritableFile σ) (world : σ) (r : CloseResult σ)
    (h : f.Close strerror world = .returned r) :
    r.file.hdfs_ = none ∧
    r.file.Close strerror r.world = .aborted .nullDereference ∧
    r.file.destroy strerror r.world = .returned (r.world, []) := by
  unfold WritableFile.Close at h
  cases hh : f.hdfs_ with
  | none => simp [hh] at h
  | some hdfs =>
    simp only [hh] at h
    split at h
    · obtain ⟨s, _, hs⟩ := (Outcome.andThen_eq_returned _ _ _).mp h
      cases hs
      simp [WritableFile.Close, WritableFile.destroy]
    · cases h
      simp [WritableFile.Close, WritableFile.destroy]

/-- A `Close` that succeeds, followed by a second `Close`. -/
theorem Close_twice_null_dereference_witness :
    scriptWF.Close strerrorStub [(0, 0)] = .returned
      { status := Status.OK,
        file := { filename_ := "hdfs://nn1/data", hdfs_ := none, fs_ := nullptr,
                  file_ := nullptr },
        world := [], calls := [{ fs := 1, file := 2, ret := 0, errno := 0 }] } ∧
    WritableFile.Close strerrorStub
      ({ filename_ := "hdfs://nn1/data", hdfs_ := none, fs_ := nullptr, file_ := nullptr } :
        WritableFile (List (Int × Int))) [] = .aborted .nullDereference :=
  ⟨by rfl, (Close_twice_null_dereference strerrorStub scriptWF [(0, 0)] _ (by rfl)).2.1⟩

/-! ### The round trip over a faithful native client -/

/-- The appended records, end to end. -/
theorem Faithful.appendAll {σ : Type} {hdfs : LibHDFS σ} {content : σ → List Char}
    (hf : Faithful hdfs content) (strerror : Int → String) (f : WritableFile σ)
    (hopen : f.hdfs_ = some hdfs) (records : List StringPiece) :
    ∀ world : σ, (∀ d ∈ records, d.size < 2 ^ 31) →
      ∃ world1 : σ,
        AppendAll strerror f world records
          = .returned (records.map (fun _ => Status.OK), world1) ∧
        content world1 = content world ++ (records.map (fun d => d.chars)).flatten := by
  induction records with
  | nil =>
    intro world _
    exact ⟨world, rfl, by simp⟩
  | cons d rest ih =>
    intro world hsize
    have hd : d.size < 2 ^ 31 := hsize d (List.mem_cons_self _ _)
    have hlen : toInt32 d.size = d.size := toInt32_eq_self d.size hd
    have hw := hf.write world f.fs_ f.file_ d (toInt32 d.size) (by rw [hlen]; omega)
      (by rw [hlen])
    have hne : (hdfs.hdfsWrite world f.fs_ f.file_ d (toInt32 d.size)).ret ≠ -1 := by
      rw [hw.1, hlen]; omega
    obtain ⟨world1, hrun, hcontent⟩ :=
      ih (hdfs.hdfsWrite world f.fs_ f.file_ d (toInt32 d.size)).world
        (fun e he => hsize e (List.mem_cons_of_mem _ he))
    refine ⟨world1, ?_, ?_⟩
    · simp only [AppendAll, WritableFile.Append, hopen, hne, if_false, Outcome.andThen, hrun,
        List.map_cons]
    · rw [hcontent, hw.2, hlen]
      simp [StringPiece.size]

/-- The loop of `Read` over a faithful client, started inside the file with
`d` of the `n0` bytes already stored: it exits with status OK, the
destination `n0` past the scratch buffer and the scratch buffer holding the
`n0` characters of the file from offset `off0` on. -/
theorem Faithful.readLoop {σ : Type} {hdfs : LibHDFS σ} {content : σ → List Char}
    (hf : Faithful hdfs content) (strerror : Int → String) (f : RandomAccessFile σ)
    (hlib : f.hdfs_ = hdfs) (off0 n0 scratch : Nat) (file : List Char)
    (hn0 : n0 < 2 ^ 31) (hoff : off0 + n0 < 2 ^ 63) (hfile : off0 + n0 ≤ file.length)
    (fuel : Nat) :
    ∀ (d : Nat) (st : ReadState σ), st.s = Status.OK → st.offset = off0 + d →
      st.n = n0 - d → d ≤ n0 → st.dst = scratch + d → content st.world = file →
      (∀ j, j < d → st.mem (scratch + j) = file.getD (off0 + j) ' ') → n0 - d ≤ fuel →
      ∃ (st1 : ReadState σ) (calls : List PreadCall),
        f.ReadLoop strerror fuel st = .returned (st1, calls) ∧ st1.s = Status.OK ∧
        st1.dst = scratch + n0 ∧ content st1.world = file ∧
        (∀ j, j < n0 → st1.mem (scratch + j) = file.getD (off0 + j) ' ') := by
  induction fuel with
  | zero =>
    intro d st hs _ hn hd hdst hc hmem hfuel
    have hdn : d = n0 := by omega
    subst hdn
    have hg : st.guard = false := by simp [ReadState.guard, hn]
    exact ⟨st, [], RandomAccessFile.ReadLoop_exit _ _ _ _ hg, hs, hdst, hc, hmem⟩
  | succ k ih =>
    intro d st hs hoffset hn hd hdst hc hmem hfuel
    by_cases hdn : d = n0
    · subst hdn
      have hg : st.guard = false := by simp [ReadState.guard, hn]
      exact ⟨st, [], RandomAccessFile.ReadLoop_exit _ _ _ _ hg, hs, hdst, hc, hmem⟩
    · have hlt : d < n0 := by omega
      have hg : st.guard = true := by
        simp only [ReadState.guard, hs, Status.ok, Status.OK, Option.isNone_none, Bool.and_true,
          decide_eq_true_eq]
        omega
      have hpread : f.pread st = hdfs.hdfsPread st.world st.mem f.fs_ f.file_
          ((off0 + d : Nat) : Int) st.dst ((n0 - d : Nat) : Int) := by
        have hpos64 : toInt64 st.offset = ((off0 + d : Nat) : Int) := by
          rw [hoffset]; exact toInt64_eq_self _ (by omega)
        have hlen32 : toInt32 st.n = ((n0 - d : Nat) : Int) := by
          rw [hn]; exact toInt32_eq_self _ (by omega)
        simp only [RandomAccessFile.pread, hlib, hpos64, hlen32]
      have hp := hf.pread st.world st.mem f.fs_ f.file_ ((off0 + d : Nat) : Int) st.dst
        ((n0 - d : Nat) : Int) (by omega) (by rw [hc]; omega) (by omega)
      rw [← hpread] at hp
      obtain ⟨hrpos, hrle, hrfile, hrworld, hrmem⟩ := hp
      rw [hc] at hrfile
      obtain ⟨r, hr⟩ : ∃ r : Nat, (f.pread st).ret = (r : Int) :=
        ⟨(f.pread st).ret.toNat, by omega⟩
      have hr1 : 0 < r := by omega
      have hr2 : d + r ≤ n0 := by omega
      rw [RandomAccessFile.ReadLoop_succ _ _ _ _ hg, RandomAccessFile.ReadBody_pos _ _ _ hrpos]
      simp only [Outcome.andThen]
      obtain ⟨st1, calls, hrun, h1, h2, h3, h4⟩ := ih (d + r)
        { world := (f.pread st).world, mem := (f.pread st).mem,
          offset := (((st.offset : Int) + (f.pread st).ret) % 2 ^ 64).toNat,
          n := (((st.n : Int) - (f.pread st).ret) % 2 ^ 64).toNat,
          dst := st.dst + (f.pread st).ret.toNat, s := st.s }
        hs (by simp only; omega) (by simp only; omega) hr2 (by simp only; omega)
        (by simp only; rw [hrworld, hc])
        (by
          intro j hj
          simp only
          rw [hrmem (scratch + j), hc]
          by_cases hjd : j < d
          · have : ¬ (st.dst ≤ scratch + j ∧ scratch + j < st.dst + (f.pread st).ret.toNat) := by
              omega
            rw [if_neg this]
            exact hmem j hjd
          · have : st.dst ≤ scratch + j ∧ scratch + j < st.dst + (f.pread st).ret.toNat := by
              omega
            rw [if_pos this]
            congr 1
            simp only [Int.toNat_ofNat]
            omega)
        (by omega)
      rw [hrun]
      exact ⟨st1, f.preadCall st :: calls, rfl, h1, h2, h3, h4⟩

theorem List.map_range_getD_append {α : Type} (a b c : List α) (x : α) :
    (List.range b.length).map (fun i => (a ++ b ++ c).getD (a.length + i) x) = b := by
  apply List.ext_getElem
  · simp
  · intro i h1 h2
    simp only [List.length_map, List.length_range] at h1
    simp only [List.getElem_map, List.getElem_range, List.getD_eq_getElem?_getD]
    rw [List.append_assoc, List.getElem?_append_right (by omega)]
    simp only [Nat.add_sub_cancel_left]
    rw [List.getElem?_append_left h1, List.getElem?_eq_getElem h1]
    rfl

/-- The file client `fileLib` meets the contract of a faithful client. -/
theorem fileLib_faithful (chunk : Nat) (hchunk : 0 < chunk) :
    Faithful (fileLib chunk) (fun w => w) := by
  constructor
  · intro w fs file buffer length h0 _
    have : ¬ length < 0 := by omega
    simp [fileLib, this]
  · intro w mem fs file position buffer length hp hlt hl
    have h1 : ¬ (position < 0 ∨ length < 0) := by omega
    simp only [fileLib, h1, if_false, Int.toNat_ofNat]
    refine ⟨?_, ?_, ?_, trivial, fun _ => trivial⟩ <;> omega

/-- C5 (amended): over a faithful native client and a file that starts
empty, appending records whose sizes are below `2^31` (the range of `tSize`)
and whose total size is below `2^63` (the range of `tOffset`) returns OK for
every record, and afterwards `Read` at the offset equal to the total size of
the records before a record, for the size of that record, returns OK and a
view of the scratch buffer holding exactly the bytes of that record, for every
iteration budget of at least the size of the record. -/
theorem Append_Read_round_trip {σ : Type} {hdfs : LibHDFS σ} {content : σ → List Char}
    (hf : Faithful hdfs content) (strerror : Int → String) (wf : WritableFile σ)
    (hopen : wf.hdfs_ = some hdfs) (raf : RandomAccessFile σ) (hlib : raf.hdfs_ = hdfs)
    (world : σ) (hempty : content world = []) (records : List StringPiece)
    (hsize : ∀ d ∈ records, d.size < 2 ^ 31)
    (htotal : (records.map (fun d => d.size)).sum < 2 ^ 63) :
    ∃ world1 : σ,
      AppendAll strerror wf world records
        = .returned (records.map (fun _ => Status.OK), world1) ∧
      ∀ (pre : List StringPiece) (d : StringPiece) (post : List StringPiece),
        records = pre ++ d :: post →
        ∀ (mem : Mem) (scratch fuel : Nat), d.size ≤ fuel →
          ∃ res : ReadResult σ,
            raf.Read strerror fuel world1 mem (pre.map (fun e => e.size)).sum d.size scratch
              = .returned res ∧
            res.status = Status.OK ∧ res.result = ⟨scratch, d.chars⟩ := by
  obtain ⟨world1, hrun, hcontent⟩ := hf.appendAll strerror wf hopen records world hsize
  refine ⟨world1, hrun, ?_⟩
  intro pre d post hrec mem scratch fuel hfuel
  rw [hempty, List.nil_append] at hcontent
  have hpre : (pre.map (fun e => e.size)).sum = ((pre.map (fun e => e.chars)).flatten).length := by
    rw [List.length_flatten, List.map_map]
    rfl
  have hfile : content world1 = (pre.map (fun e => e.chars)).flatten ++ d.chars
      ++ (post.map (fun e => e.chars)).flatten := by
    rw [hcontent, hrec]
    simp
  have hsum : (records.map (fun e => e.size)).sum
      = (pre.map (fun e => e.size)).sum + d.size + (post.map (fun e => e.size)).sum := by
    rw [hrec]
    simp
    omega
  have hd : d.size < 2 ^ 31 := hsize d (by rw [hrec]; simp)
  obtain ⟨st1, calls, hloop, hs, hdst, _, hmem⟩ :=
    hf.readLoop strerror raf hlib (pre.map (fun e => e.size)).sum d.size scratch
      (content world1) hd (by omega)
      (by rw [hfile, hpre]; simp [StringPiece.size])
      fuel 0 (ReadState.init world1 mem (pre.map (fun e => e.size)).sum d.size scratch)
      rfl (by simp [ReadState.init]) (by simp [ReadState.init]) (Nat.zero_le _)
      (by simp [ReadState.init]) rfl (fun j hj => absurd hj (Nat.not_lt_zero j))
      (by omega)
  refine ⟨ReadState.finish scratch (st1, calls), ?_, hs, ?_⟩
  · simp only [RandomAccessFile.Read, hloop, Outcome.andThen]
  · simp only [ReadState.finish, StringPiece.ofMem, hdst, Nat.add_sub_cancel_left,
      StringPiece.mk.injEq, true_and]
    have hmap : (List.range d.size).map (fun i => st1.mem (scratch + i))
        = (List.range d.size).map
            (fun i => (content world1).getD ((pre.map (fun e => e.size)).sum + i) ' ') := by
      apply List.map_congr_left
      intro i hi
      exact hmem i (List.mem_range.mp hi)
    rw [hmap, hfile, hpre]
    exact List.map_range_getD_append _ _ _ _

/-- Three records written to a client that delivers at most three bytes a
read; the third record read back. -/
theorem Append_Read_round_trip_witness :
    Faithful (fileLib 3) (fun w => w) ∧
    (∀ d ∈ sampleRecords, d.size < 2 ^ 31) ∧
    (sampleRecords.map (fun d => d.size)).sum < 2 ^ 63 ∧
    ∃ world1 : List Char,
      AppendAll strerrorStub fileWF [] sampleRecords
        = .returned ([Status.OK, Status.OK, Status.OK], world1) ∧
      ∃ res : ReadResult (List Char),
        fileRAF.Read strerrorStub 4 world1 blankMem 8 4 100 = .returned res ∧
        res.status = Status.OK ∧ res.result = ⟨100, "ld!!".toList⟩ := by
  have hsize : ∀ d ∈ sampleRecords, d.size < 2 ^ 31 := by decide
  have htotal : (sampleRecords.map (fun d => d.size)).sum < 2 ^ 63 := by decide
  refine ⟨fileLib_faithful 3 (by norm_num), hsize, htotal, ?_⟩
  obtain ⟨world1, hrun, hread⟩ :=
    Append_Read_round_trip (fileLib_faithful 3 (by norm_num)) strerrorStub fileWF rfl fileRAF rfl
      [] rfl sampleRecords hsize htotal
  exact ⟨world1, hrun,
    hread [⟨50, "hello".toList⟩, ⟨60, "wor".toList⟩] ⟨70, "ld!!".toList⟩ [] rfl blankMem 100 4
      (by decide)⟩

theorem bigRecord_size : bigRecord.size = 4294967297 := by
  simp only [bigRecord, StringPiece.size, List.length_replicate]
  norm_num

theorem bigRecord_append :
    AppendAll strerrorStub fileWF [] [bigRecord] = .returned ([Status.OK], ['a']) := by
  have hlen : toInt32 bigRecord.size = 1 := by rw [bigRecord_size]; decide
  have htake : bigRecord.chars.take (1 : Int).toNat = ['a'] := by
    simp only [bigRecord, List.take_replicate, Int.toNat_one]
    rfl
  have hneg : ¬ ((1 : Int) < 0) := by decide
  have hw : (fileLib 3).hdfsWrite [] 1 2 bigRecord 1 = ⟨1, 0, ['a']⟩ := by
    simp only [fileLib, hneg, if_false, htake, List.nil_append]
  have happ : fileWF.Append strerrorStub [] bigRecord = .returned
      { status := Status.OK, world := ['a'],
        calls := [{ fs := 1, file := 2, buffer := bigRecord, length := 1, ret := 1,
                    errno := 0 }] } := by
    unfold WritableFile.Append
    simp only [fileWF, hlen, hw]
    rfl
  unfold AppendAll
  rw [happ]
  rfl
theorem bigRecord_read (fuel : Nat) (res : ReadResult (List Char))
    (hret : fileRAF.Read strerrorStub fuel ['a'] blankMem 0 4294967297 100 = .returned res) :
    res.status ≠ Status.OK := by
  have hiter : fileRAF.ReadIter strerrorStub 2 (ReadState.init ['a'] blankMem 0 4294967297 100)
      = .returned
        ({ world := ['a'], mem := (fileRAF.pread
              { world := ['a'], mem := (fileRAF.pread
                  (ReadState.init ['a'] blankMem 0 4294967297 100)).mem,
                offset := 1, n := 4294967296, dst := 101, s := Status.OK }).mem,
           offset := 1, n := 4294967296, dst := 101,
           s := ⟨some ⟨Code.OUT_OF_RANGE, "Read less bytes than requested"⟩⟩ },
         [fileRAF.preadCall (ReadState.init ['a'] blankMem 0 4294967297 100),
          fileRAF.preadCall
            { world := ['a'], mem := (fileRAF.pread
                (ReadState.init ['a'] blankMem 0 4294967297 100)).mem,
              offset := 1, n := 4294967296, dst := 101, s := Status.OK }]) := by
    rfl
  match fuel with
  | 0 =>
    rw [show fileRAF.Read strerrorStub 0 ['a'] blankMem 0 4294967297 100
      = .aborted .outOfFuel from by rfl] at hret
    cases hret
  | 1 =>
    rw [show fileRAF.Read strerrorStub 1 ['a'] blankMem 0 4294967297 100
      = .aborted .outOfFuel from by rfl] at hret
    cases hret
  | j + 2 =>
    unfold RandomAccessFile.Read at hret
    rw [show j + 2 = 2 + j by omega,
      RandomAccessFile.ReadLoop_after_ReadIter _ _ _ _ _ _ _ hiter,
      RandomAccessFile.ReadLoop_exit _ _ _ _ (by simp [ReadState.guard, Status.ok])] at hret
    simp only [Outcome.andThen, Outcome.returned.injEq] at hret
    rw [← hret]
    simp [ReadState.finish, Status.OK]

/-- C5, the claim as first stated fails for a record of `2^32 + 1` bytes: its
size converts to the `tSize` value 1, so `Append` hands one byte to the native
write and returns OK, the file holds one byte, and `Read` of the record at
offset 0 does not return OK for any iteration budget. -/
theorem Append_Read_big_record_counterexample :
    1 ≤ bigRecord.size ∧
    AppendAll strerrorStub fileWF [] [bigRecord] = .returned ([Status.OK], ['a']) ∧
    ¬ ∃ (fuel : Nat) (res : ReadResult (List Char)),
        fileRAF.Read strerrorStub fuel ['a'] blankMem 0 bigRecord.size 100 = .returned res ∧
        res.status = Status.OK := by
  refine ⟨by rw [bigRecord_size]; norm_num, bigRecord_append, ?_⟩
  rw [bigRecord_size]
  rintro ⟨fuel, res, hret, hok⟩
  exact bigRecord_read fuel res hret hok

/-! ### `IOError`, the Status invariant and `Status::ToString` -/

theorem ite_ne_of_ne {α : Type} {c : Prop} [Decidable c] {a b x : α} (ha : a ≠ x)
    (hb : b ≠ x) : (if c then a else b) ≠ x := by
  split <;> assumption

theorem ErrnoToCode_ne_OK (n : Int) (hn : n ≠ 0) : ErrnoToCode n ≠ Code.OK := by
  unfold ErrnoToCode
  rw [if_neg hn]
  repeat' apply ite_ne_of_ne
  all_goals decide

theorem ErrnoToCode_eq_OK_iff (n : Int) : ErrnoToCode n = Code.OK ↔ n = 0 := by
  constructor
  · intro h
    by_contra hn
    exact ErrnoToCode_ne_OK n hn h
  · rintro rfl
    decide

/-- What `IOError` builds for an error number other than 0. -/
theorem IOError_of_ne_zero (strerror : Int → String) (context : String) (n : Int)
    (hn : n ≠ 0) :
    IOError strerror context n = .returned
      ⟨some ⟨ErrnoToCode n,
        if ErrnoToCode n = Code.UNKNOWN then context ++ "; " ++ strerror n else context⟩⟩ := by
  have hne : ¬ ErrnoToCode n = Code.OK := fun h => hn ((ErrnoToCode_eq_OK_iff n).mp h)
  unfold IOError
  by_cases hu : ErrnoToCode n = Code.UNKNOWN
  · simp only [hu, if_true, Status.new]
    simp
  · simp only [hu, if_false, Status.new, hne]

/-- C11: for every context string and every OS error number `n` other than
0, `IOError(context, n)` returns a Status whose kind is `ErrnoToCode(n)` and
whose message is exactly `context` when that kind is not `UNKNOWN`, and
`context` followed by "; " and the OS description of `n` when it is.  The
error number 0 is where the code goes wrong: `IOError` hands the kind `OK` to
the Status constructor and breaks its assertion. -/
theorem IOError_kind_and_message (strerror : Int → String) (context : String) (n : Int)
    (hn : n ≠ 0) :
    ∃ s : Status, IOError strerror context n = .returned s ∧
      s.ok = false ∧ s.code = ErrnoToCode n ∧
      (ErrnoToCode n ≠ Code.UNKNOWN → s.error_message = context) ∧
      (ErrnoToCode n = Code.UNKNOWN → s.error_message = context ++ "; " ++ strerror n) := by
  refine ⟨_, IOError_of_ne_zero strerror context n hn, rfl, rfl, ?_, ?_⟩
  · intro h
    simp [Status.error_message, h]
  · intro h
    simp [Status.error_message, h]

/-- The loader's calls: `ENOENT` is `NOT_FOUND` with the bare context, `EIO`
is `UNKNOWN` with the description appended. -/
theorem IOError_kind_and_message_witness :
    (ENOENT ≠ 0 ∧ ∃ s : Status, IOError strerrorStub "/a/b" ENOENT = .returned s ∧
      s.ok = false ∧ s.code = ErrnoToCode ENOENT ∧
      (ErrnoToCode ENOENT ≠ Code.UNKNOWN → s.error_message = "/a/b") ∧
      (ErrnoToCode ENOENT = Code.UNKNOWN →
        s.error_message = "/a/b" ++ "; " ++ strerrorStub ENOENT)) ∧
    IOError strerrorStub "/a/b" ENOENT = .returned ⟨some ⟨Code.NOT_FOUND, "/a/b"⟩⟩ ∧
    IOError strerrorStub "/a/b" EIO = .returned ⟨some ⟨Code.UNKNOWN, "/a/b; errno 5"⟩⟩ :=
  ⟨⟨by decide, IOError_kind_and_message strerrorStub "/a/b" ENOENT (by decide)⟩, by decide,
    by decide⟩

/-- C11, the defect: at the error number 0 the kind is `OK`, and `IOError`
calls the Status constructor with it, against the assertion `code != OK` of
`status.cpp`; with assertions on, no Status is returned. -/
theorem IOError_zero_counterexample :
    ErrnoToCode 0 = Code.OK ∧ IOError strerrorStub "/a/b" 0 = .aborted .assertion := by
  decide

theorem Status.new_eq_returned (code : Code) (msg : String) (s : Status)
    (h : Status.new code msg = .returned s) : code ≠ Code.OK ∧ s = ⟨some ⟨code, msg⟩⟩ := by
  unfold Status.new at h
  split at h
  · cases h
  · rename_i hc
    cases h
    exact ⟨hc, rfl⟩

theorem namedConstructors_spec (f : String → Outcome Status) (hf : f ∈ namedConstructors) :
    ∃ code : Code, ∀ args : String, f args = Status.new code args := by
  simp only [namedConstructors, List.mem_cons, List.mem_singleton, List.not_mem_nil,
    or_false] at hf
  rcases hf with h | h | h | h | h | h | h | h | h | h | h | h | h | h | h | h <;>
    subst h <;> exact ⟨_, fun _ => rfl⟩

/-- Every constructible Status is the OK value or holds a code other than `OK`
and the message its constructor was given. -/
theorem Constructible.cases {strerror : Int → String} {s : Status}
    (h : Constructible strerror s) :
    s = Status.OK ∨ ∃ (code : Code) (msg : String), code ≠ Code.OK ∧ s = ⟨some ⟨code, msg⟩⟩ := by
  cases h with
  | ok => exact Or.inl rfl
  | new code msg s h =>
    exact Or.inr ⟨code, msg, Status.new_eq_returned code msg s h⟩
  | named f args s hf h =>
    obtain ⟨code, hcode⟩ := namedConstructors_spec f hf
    rw [hcode] at h
    exact Or.inr ⟨code, args, Status.new_eq_returned code args s h⟩
  | ioError context n s h =>
    unfold IOError at h
    simp only at h
    split at h
    · exact Or.inr ⟨_, _, Status.new_eq_returned _ _ s h⟩
    · exact Or.inr ⟨_, _, Status.new_eq_returned _ _ s h⟩

/-- C12 (amended): for every Status value that the layer can construct (the
default OK value, `Status(code, message)`, a named constructor, `IOError`),
the code is `OK` exactly when the value is the OK value, and then the message
is empty; a Status whose code is not `OK` carries the message its constructor
was given, which may be empty. -/
theorem Status_invariant (strerror : Int → String) (s : Status)
    (h : Constructible strerror s) :
    (s.code = Code.OK ↔ s = Status.OK) ∧ (s.code = Code.OK ↔ s.ok = true) ∧
    (s.code = Code.OK → s.error_message = "") := by
  rcases h.cases with rfl | ⟨code, msg, hc, rfl⟩
  · exact ⟨⟨fun _ => rfl, fun _ => rfl⟩, ⟨fun _ => rfl, fun _ => rfl⟩, fun _ => rfl⟩
  · refine ⟨⟨fun h => absurd h hc, fun h => ?_⟩, ⟨fun h => absurd h hc, fun h => ?_⟩,
      fun h => absurd h hc⟩
    · simp [Status.OK] at h
    · simp [Status.ok] at h

/-- The Status that `IOError` builds for `ENOENT`. -/
theorem Status_invariant_witness :
    Constructible strerrorStub ⟨some ⟨Code.NOT_FOUND, "/a/b"⟩⟩ ∧
    ((⟨some ⟨Code.NOT_FOUND, "/a/b"⟩⟩ : Status).code = Code.OK ↔
      (⟨some ⟨Code.NOT_FOUND, "/a/b"⟩⟩ : Status) = Status.OK) :=
  ⟨Constructible.ioError "/a/b" ENOENT _ (by decide),
    (Status_invariant strerrorStub ⟨some ⟨Code.NOT_FOUND, "/a/b"⟩⟩
      (Constructible.ioError "/a/b" ENOENT _ (by decide))).1⟩

/-- C12, the claim as first stated fails: `NotFound("")` is a Status the layer
can construct, its code is not `OK` and its message is empty. -/
theorem Status_empty_message_counterexample :
    NotFound "" = .returned ⟨some ⟨Code.NOT_FOUND, ""⟩⟩ ∧
    Constructible strerrorStub ⟨some ⟨Code.NOT_FOUND, ""⟩⟩ ∧
    (⟨some ⟨Code.NOT_FOUND, ""⟩⟩ : Status).error_message = "" ∧
    (⟨some ⟨Code.NOT_FOUND, ""⟩⟩ : Status).code ≠ Code.OK :=
  ⟨by decide, Constructible.named NotFound "" _ (by simp [namedConstructors]) (by decide),
    by decide, by decide⟩

theorem snprintf30_of_short (s : String) (h : s.length ≤ 29) : snprintf30 s = s := by
  unfold snprintf30
  have h2 : s.data.length ≤ 29 := h
  rw [List.take_of_length_le h2]

theorem toInt32_of_int (c : Int) (h1 : -2 ^ 31 ≤ c) (h2 : c < 2 ^ 31) : toInt32 c = c := by
  unfold toInt32
  omega

theorem Int.toString_length_le (c : Int) (h1 : -2 ^ 31 ≤ c) (h2 : c < 2 ^ 31) :
    (toString c).length ≤ 11 := by
  cases c with
  | ofNat m =>
    have hm : m < 10 ^ 10 := by
      have : (m : Int) < 2 ^ 31 := h2
      omega
    have := Nat.repr_length m 10 (by norm_num) hm
    show (Nat.repr m).length ≤ 11
    omega
  | negSucc m =>
    have hm : m + 1 < 10 ^ 10 := by
      have : -2 ^ 31 ≤ Int.negSucc m := h1
      rw [Int.negSucc_eq] at this
      omega
    have := Nat.repr_length (m + 1) 10 (by norm_num) hm
    show ("-" ++ Nat.repr (m + 1)).length ≤ 11
    rw [String.length_append]
    have h1 : "-".length = 1 := by decide
    omega

/-- The name of a code that is an `int` and not one of the named kinds. -/
theorem Status.typeName_of_unnamed (c : Code) (h1 : -2 ^ 31 ≤ c) (h2 : c < 2 ^ 31)
    (hc : c ∉ kindNames.map Prod.fst) :
    Status.typeName c = "Unknown code(" ++ toString c ++ ")" := by
  simp only [kindNames, List.map_cons, List.map_nil, List.mem_cons, List.mem_singleton,
    List.not_mem_nil, or_false, not_or] at hc
  obtain ⟨c1, c2, c3, c4, c5, c6, c7, c8, c9, c10, c11, c12, c13, c14, c15, c16⟩ := hc
  unfold Status.typeName
  rw [if_neg c1, if_neg c2, if_neg c3, if_neg c4, if_neg c5, if_neg c6, if_neg c7, if_neg c8,
    if_neg c9, if_neg c10, if_neg c11, if_neg c12, if_neg c13, if_neg c14, if_neg c15,
    if_neg c16, toInt32_of_int c h1 h2]
  apply snprintf30_of_short
  rw [String.length_append, String.length_append]
  have := Int.toString_length_le c h1 h2
  have h13 : "Unknown code(".length = 13 := by decide
  have h1 : ")".length = 1 := by decide
  omega

/-- C13: the OK status renders as "OK"; a non-OK status with code `c` and
message `m` renders as the name of `c`, ": " and `m`, where the sixteen named
kinds have the names of the table and every other code `N` (an `int`) has the
name "Unknown code(N)" with `N` in decimal. -/
theorem ToString_rendering :
    Status.OK.ToString = "OK" ∧
    (∀ (c : Code) (m : String),
      (⟨some ⟨c, m⟩⟩ : Status).ToString = Status.typeName c ++ ": " ++ m) ∧
    (∀ p ∈ kindNames, Status.typeName p.1 = p.2) ∧
    (∀ c : Code, -2 ^ 31 ≤ c → c < 2 ^ 31 → c ∉ kindNames.map Prod.fst →
      Status.typeName c = "Unknown code(" ++ toString c ++ ")") :=
  ⟨rfl, fun _ _ => rfl, by decide, Status.typeName_of_unnamed⟩

/-- A named kind, a code outside the named kinds, and the code `OK` stored in
a non-OK status. -/
theorem ToString_rendering_witness :
    (⟨some ⟨Code.NOT_FOUND, "/a/b"⟩⟩ : Status).ToString = "Not found: /a/b" ∧
    (⟨some ⟨17, "x"⟩⟩ : Status).ToString = "Unknown code(17): x" ∧
    (⟨some ⟨-3, "x"⟩⟩ : Status).ToString = "Unknown code(-3): x" ∧
    Status.typeName 17 = "Unknown code(" ++ toString (17 : Int) ++ ")" :=
  ⟨by decide, by decide, by decide,
    ToString_rendering.2.2.2 17 (by norm_num) (by norm_num) (by decide)⟩

/-! ### The facade: runs and native calls -/

theorem Native.ret_run {σ α : Type} (a : α) (w : σ) :
    (Native.ret a : Native σ α) w = .returned ⟨a, w, []⟩ := rfl

theorem Native.andThen_run {σ α β : Type} (m : Native σ α) (k : α → Native σ β) (w : σ)
    (r : Run σ α) (h : m w = .returned r) :
    (m.andThen k) w = (k r.value r.world).andThen fun r1 =>
      .returned ⟨r1.value, r1.world, r.calls ++ r1.calls⟩ := by
  simp only [Native.andThen, h, Outcome.andThen]

theorem Native.andThen_returned_iff {σ α β : Type} (m : Native σ α) (k : α → Native σ β)
    (w : σ) (r : Run σ β) :
    (m.andThen k) w = .returned r ↔
      ∃ (r1 : Run σ α) (r2 : Run σ β), m w = .returned r1 ∧
        k r1.value r1.world = .returned r2 ∧
        r = ⟨r2.value, r2.world, r1.calls ++ r2.calls⟩ := by
  unfold Native.andThen
  constructor
  · intro h
    obtain ⟨r1, h1, h2⟩ := (Outcome.andThen_eq_returned _ _ _).mp h
    obtain ⟨r2, h3, h4⟩ := (Outcome.andThen_eq_returned _ _ _).mp h2
    cases h4
    exact ⟨r1, r2, h1, h3, rfl⟩
  · rintro ⟨r1, r2, h1, h2, rfl⟩
    simp [h1, h2, Outcome.andThen]

theorem Native.lift_eq_returned {σ α : Type} (o : Outcome α) (w : σ) (r : Run σ α) :
    (Native.lift o : Native σ α) w = .returned r ↔
      ∃ a, o = .returned a ∧ r = ⟨a, w, []⟩ := by
  unfold Native.lift
  constructor
  · intro h
    obtain ⟨a, h1, h2⟩ := (Outcome.andThen_eq_returned _ _ _).mp h
    cases h2
    exact ⟨a, h1, rfl⟩
  · rintro ⟨a, rfl, rfl⟩
    rfl

theorem Native.lift_returned {σ α : Type} (a : α) (w : σ) :
    (Native.lift (.returned a) : Native σ α) w = .returned ⟨a, w, []⟩ := rfl

section CallsSatisfy

variable {σ : Type} {P : NativeCall → Prop}

theorem Native.CallsSatisfy.ret {α : Type} (a : α) :
    (Native.ret a : Native σ α).CallsSatisfy P := by
  intro w r h c hc
  cases h
  simp at hc

theorem Native.CallsSatisfy.lift {α : Type} (o : Outcome α) :
    (Native.lift o : Native σ α).CallsSatisfy P := by
  intro w r h c hc
  obtain ⟨a, _, rfl⟩ := (Native.lift_eq_returned o w r).mp h
  simp at hc

theorem Native.CallsSatisfy.andThen {α β : Type} {m : Native σ α} {k : α → Native σ β}
    (hm : m.CallsSatisfy P) (hk : ∀ a, (k a).CallsSatisfy P) :
    (m.andThen k).CallsSatisfy P := by
  intro w r h c hc
  obtain ⟨r1, r2, h1, h2, rfl⟩ := (Native.andThen_returned_iff m k w r).mp h
  simp only [List.mem_append] at hc
  rcases hc with hc | hc
  · exact hm w r1 h1 c hc
  · exact hk _ _ r2 h2 c hc

theorem Native.CallsSatisfy.ite {α : Type} {c : Prop} [Decidable c] {m1 m2 : Native σ α}
    (h1 : m1.CallsSatisfy P) (h2 : m2.CallsSatisfy P) :
    (if c then m1 else m2).CallsSatisfy P := by
  split <;> assumption

theorem Native.CallsSatisfy.single {α : Type} {m : Native σ α}
    (h : ∀ w, ∃ (a : α) (w1 : σ) (c : NativeCall), m w = .returned ⟨a, w1, [c]⟩ ∧ P c) :
    m.CallsSatisfy P := by
  intro w r hr c hc
  obtain ⟨a, w1, c1, h1, h2⟩ := h w
  rw [h1] at hr
  cases hr
  simp only [List.mem_singleton] at hc
  subst hc
  exact h2

end CallsSatisfy
section CallLemmas

variable {σ : Type} {P : NativeCall → Prop} (hdfs : LibHDFSFull σ)

theorem LibHDFSFull.callNewBuilder_sat (h : ∀ ret, P (.hdfsNewBuilder ret)) :
    hdfs.callNewBuilder.CallsSatisfy P :=
  Native.CallsSatisfy.single fun _ => ⟨_, _, _, rfl, h _⟩

theorem LibHDFSFull.callBuilderSetNameNode_sat (bld : Nat) (nn : Option String)
    (h : P (.hdfsBuilderSetNameNode bld nn)) :
    (hdfs.callBuilderSetNameNode bld nn).CallsSatisfy P :=
  Native.CallsSatisfy.single fun _ => ⟨_, _, _, rfl, h⟩

theorem LibHDFSFull.callBuilderSetKerbTicketCachePath_sat (bld : Nat) (path : String)
    (h : P (.hdfsBuilderSetKerbTicketCachePath bld path)) :
    (hdfs.callBuilderSetKerbTicketCachePath bld path).CallsSatisfy P :=
  Native.CallsSatisfy.single fun _ => ⟨_, _, _, rfl, h⟩

theorem LibHDFSFull.callBuilderConnect_sat (bld : Nat)
    (h : ∀ ret, P (.hdfsBuilderConnect bld ret)) :
    (hdfs.callBuilderConnect bld).CallsSatisfy P :=
  Native.CallsSatisfy.single fun _ => ⟨_, _, _, rfl, h _⟩

theorem LibHDFSFull.callOpenFile_sat (fs : Nat) (path : String) (flags : Int)
    (h : ∀ ret, P (.hdfsOpenFile fs path flags ret)) :
    (hdfs.callOpenFile fs path flags).CallsSatisfy P :=
  Native.CallsSatisfy.single fun _ => ⟨_, _, _, rfl, h _⟩

theorem LibHDFSFull.callExists_sat (fs : Nat) (path : String)
    (h : ∀ ret, P (.hdfsExists fs path ret)) :
    (hdfs.callExists fs path).CallsSatisfy P :=
  Native.CallsSatisfy.single fun _ => ⟨_, _, _, rfl, h _⟩

theorem LibHDFSFull.callListDirectory_sat (fs : Nat) (path : String)
    (h : ∀ isNull n, P (.hdfsListDirectory fs path isNull n)) :
    (hdfs.callListDirectory fs path).CallsSatisfy P :=
  Native.CallsSatisfy.single fun _ => ⟨_, _, _, rfl, h _ _⟩

theorem LibHDFSFull.callFreeFileInfo_sat (n : Int) (h : P (.hdfsFreeFileInfo n)) :
    (hdfs.callFreeFileInfo n).CallsSatisfy P :=
  Native.CallsSatisfy.single fun _ => ⟨_, _, _, rfl, h⟩

theorem LibHDFSFull.callDelete_sat (fs : Nat) (path : String) (recursive : Int)
    (h : ∀ ret, P (.hdfsDelete fs path recursive ret)) :
    (hdfs.callDelete fs path recursive).CallsSatisfy P :=
  Native.CallsSatisfy.single fun _ => ⟨_, _, _, rfl, h _⟩

theorem LibHDFSFull.callCreateDirectory_sat (fs : Nat) (path : String)
    (h : ∀ ret, P (.hdfsCreateDirectory fs path ret)) :
    (hdfs.callCreateDirectory fs path).CallsSatisfy P :=
  Native.CallsSatisfy.single fun _ => ⟨_, _, _, rfl, h _⟩

theorem LibHDFSFull.callGetPathInfo_sat (fs : Nat) (path : String)
    (h : ∀ isNull, P (.hdfsGetPathInfo fs path isNull)) :
    (hdfs.callGetPathInfo fs path).CallsSatisfy P :=
  Native.CallsSatisfy.single fun _ => ⟨_, _, _, rfl, h _⟩

theorem LibHDFSFull.callRename_sat (fs : Nat) (oldPath newPath : String)
    (h : ∀ ret, P (.hdfsRename fs oldPath newPath ret)) :
    (hdfs.callRename fs oldPath newPath).CallsSatisfy P :=
  Native.CallsSatisfy.single fun _ => ⟨_, _, _, rfl, h _⟩

end CallLemmas

section ConnectLemmas

variable {σ : Type} {P : NativeCall → Prop} (env : Env) (self : HadoopFileSystem σ)

theorem HadoopFileSystem.ConnectBuilder_sat (hP : ∀ c : NativeCall, c.IsBuilderCall → P c)
    (builder : Nat) : (self.ConnectBuilder env builder).CallsSatisfy P := by
  unfold HadoopFileSystem.ConnectBuilder
  apply Native.CallsSatisfy.andThen
  · split
    · exact self.hdfs_.callBuilderSetKerbTicketCachePath_sat _ _ (hP _ trivial)
    · exact Native.CallsSatisfy.ret _
  · intro _
    apply Native.CallsSatisfy.andThen
    · exact self.hdfs_.callBuilderConnect_sat _ fun _ => hP _ trivial
    · intro c
      apply Native.CallsSatisfy.ite
      · exact Native.CallsSatisfy.andThen (Native.CallsSatisfy.lift _)
          fun _ => Native.CallsSatisfy.ret _
      · exact Native.CallsSatisfy.ret _

/-- Every native call of `Connect` is one of the four builder calls. -/
theorem HadoopFileSystem.Connect_sat (hP : ∀ c : NativeCall, c.IsBuilderCall → P c)
    (fname : StringPiece) : (self.Connect env fname).CallsSatisfy P := by
  unfold HadoopFileSystem.Connect
  simp only
  apply Native.CallsSatisfy.ite
  · exact Native.CallsSatisfy.ret _
  · apply Native.CallsSatisfy.andThen
    · exact self.hdfs_.callNewBuilder_sat fun _ => hP _ trivial
    · intro b
      apply Native.CallsSatisfy.ite
      · exact Native.CallsSatisfy.andThen
          (self.hdfs_.callBuilderSetNameNode_sat _ _ (hP _ trivial))
          fun _ => self.ConnectBuilder_sat env hP _
      · apply Native.CallsSatisfy.ite
        · exact Native.CallsSatisfy.andThen
            (self.hdfs_.callBuilderSetNameNode_sat _ _ (hP _ trivial))
            fun _ => self.ConnectBuilder_sat env hP _
        · exact Native.CallsSatisfy.andThen (Native.CallsSatisfy.lift _)
            fun _ => Native.CallsSatisfy.ret _

/-- After a failed load `Connect` hands back the cached status and issues no
native call. -/
theorem HadoopFileSystem.Connect_of_failed_load (h : self.hdfs_.status_.ok = false)
    (fname : StringPiece) (w : σ) :
    self.Connect env fname w = .returned ⟨⟨self.hdfs_.status_, nullptr⟩, w, []⟩ := by
  simp [HadoopFileSystem.Connect, h, Native.ret]

end ConnectLemmas

/-! ### `Connect` -/

/-- The end of `Connect` always returns: its native calls are the optional
ticket-cache call and `hdfsBuilderConnect`, it hands back the connection that
this call returned, and its status is OK exactly when that is not null. -/
theorem HadoopFileSystem.ConnectBuilder_run {σ : Type} (env : Env) (self : HadoopFileSystem σ)
    (builder : Nat) (w : σ) :
    ∃ r, self.ConnectBuilder env builder w = .returned r ∧
      r.calls = ((env.getenv "KERB_TICKET_CACHE_PATH").toList.map
          (NativeCall.hdfsBuilderSetKerbTicketCachePath builder)) ++
        [.hdfsBuilderConnect builder r.value.fs] ∧
      (r.value.status.ok = true ↔ r.value.fs ≠ nullptr) := by
  unfold HadoopFileSystem.ConnectBuilder
  cases hg : env.getenv "KERB_TICKET_CACHE_PATH" with
  | none =>
    by_cases h0 : (self.hdfs_.hdfsBuilderConnect w builder).ret = nullptr
    · simp [Native.andThen, Native.ret, Outcome.andThen, LibHDFSFull.callBuilderConnect,
        Native.lift, NotFound, Status.new, Code.OK, Code.NOT_FOUND, h0, Status.ok]
    · simp [Native.andThen, Native.ret, Outcome.andThen, LibHDFSFull.callBuilderConnect,
        h0, Status.ok, Status.OK]
  | some t =>
    by_cases h0 : (self.hdfs_.hdfsBuilderConnect
        (self.hdfs_.hdfsBuilderSetKerbTicketCachePath w builder t).world builder).ret = nullptr
    · simp [Native.andThen, Native.ret, Outcome.andThen, LibHDFSFull.callBuilderConnect,
        LibHDFSFull.callBuilderSetKerbTicketCachePath,
        Native.lift, NotFound, Status.new, Code.OK, Code.NOT_FOUND, h0, Status.ok]
    · simp [Native.andThen, Native.ret, Outcome.andThen, LibHDFSFull.callBuilderConnect,
        LibHDFSFull.callBuilderSetKerbTicketCachePath, h0, Status.ok, Status.OK]

/-- C14: `Connect` routes by scheme.  For every address, when the status of
the loaded table is OK, `Connect` returns, and its first native call is
`hdfsNewBuilder`.  If the parsed scheme is "file" the second call sets a null
name node on that builder; if it is "hdfs" the second call sets the parsed
host; in both cases the remaining calls are the optional ticket-cache call and
one `hdfsBuilderConnect`, whose result is the connection handed back.  For
every other scheme (the empty scheme of a bare path included) the status is
INVALID_ARGUMENT with the message of the source, the connection stays null and
`hdfsNewBuilder` is the only native call: no `hdfsBuilderConnect` is issued. -/
theorem Connect_routes_by_scheme {σ : Type} (env : Env) (self : HadoopFileSystem σ)
    (fname : StringPiece) (w : σ) (hok : self.hdfs_.status_.ok = true) :
    ∃ r, self.Connect env fname w = .returned r ∧
      ((ParseURI fname).scheme.chars = "file".toList →
        r.calls = [.hdfsNewBuilder (self.hdfs_.hdfsNewBuilder w).ret,
            .hdfsBuilderSetNameNode (self.hdfs_.hdfsNewBuilder w).ret none] ++
          ((env.getenv "KERB_TICKET_CACHE_PATH").toList.map
            (NativeCall.hdfsBuilderSetKerbTicketCachePath (self.hdfs_.hdfsNewBuilder w).ret)) ++
          [.hdfsBuilderConnect (self.hdfs_.hdfsNewBuilder w).ret r.value.fs]) ∧
      ((ParseURI fname).scheme.chars = "hdfs".toList →
        r.calls = [.hdfsNewBuilder (self.hdfs_.hdfsNewBuilder w).ret,
            .hdfsBuilderSetNameNode (self.hdfs_.hdfsNewBuilder w).ret
              (some (ParseURI fname).host.ToString)] ++
          ((env.getenv "KERB_TICKET_CACHE_PATH").toList.map
            (NativeCall.hdfsBuilderSetKerbTicketCachePath (self.hdfs_.hdfsNewBuilder w).ret)) ++
          [.hdfsBuilderConnect (self.hdfs_.hdfsNewBuilder w).ret r.value.fs]) ∧
      ((ParseURI fname).scheme.chars ≠ "file".toList →
        (ParseURI fname).scheme.chars ≠ "hdfs".toList →
        r.value.status = ⟨some ⟨Code.INVALID_ARGUMENT,
          (ParseURI fname).scheme.ToString ++ "scheme must be file or hdfs"⟩⟩ ∧
        r.value.fs = nullptr ∧
        r.calls = [.hdfsNewBuilder (self.hdfs_.hdfsNewBuilder w).ret] ∧
        ∀ c ∈ r.calls, c.NoConnect) := by
  have hfh : "file".toList ≠ "hdfs".toList := by decide
  unfold HadoopFileSystem.Connect
  simp only [hok, not_true_eq_false, if_false]
  by_cases hf : (ParseURI fname).scheme.chars = "file".toList
  · obtain ⟨r, hr, hcalls, _⟩ := self.ConnectBuilder_run env (self.hdfs_.hdfsNewBuilder w).ret
      (self.hdfs_.hdfsBuilderSetNameNode (self.hdfs_.hdfsNewBuilder w).world
        (self.hdfs_.hdfsNewBuilder w).ret none).world
    refine ⟨⟨r.value, r.world, [.hdfsNewBuilder (self.hdfs_.hdfsNewBuilder w).ret,
      .hdfsBuilderSetNameNode (self.hdfs_.hdfsNewBuilder w).ret none] ++ r.calls⟩, ?_, ?_, ?_, ?_⟩
    · simp [Native.andThen, Outcome.andThen, LibHDFSFull.callNewBuilder,
        LibHDFSFull.callBuilderSetNameNode, hf, hr]
    · intro _
      simp [hcalls]
    · intro h
      exact absurd (hf.symm.trans h) hfh
    · intro h
      exact absurd hf h
  · by_cases hh : (ParseURI fname).scheme.chars = "hdfs".toList
    · obtain ⟨r, hr, hcalls, _⟩ := self.ConnectBuilder_run env (self.hdfs_.hdfsNewBuilder w).ret
        (self.hdfs_.hdfsBuilderSetNameNode (self.hdfs_.hdfsNewBuilder w).world
          (self.hdfs_.hdfsNewBuilder w).ret (some (ParseURI fname).host.ToString)).world
      refine ⟨⟨r.value, r.world, [.hdfsNewBuilder (self.hdfs_.hdfsNewBuilder w).ret,
        .hdfsBuilderSetNameNode (self.hdfs_.hdfsNewBuilder w).ret
          (some (ParseURI fname).host.ToString)] ++ r.calls⟩, ?_, ?_, ?_, ?_⟩
      · simp [Native.andThen, Outcome.andThen, LibHDFSFull.callNewBuilder,
          LibHDFSFull.callBuilderSetNameNode, hf, hh, hr]
      · intro h
        exact absurd h hf
      · intro _
        simp [hcalls]
      · intro _ h
        exact absurd hh h
    · refine ⟨⟨⟨⟨some ⟨Code.INVALID_ARGUMENT,
          (ParseURI fname).scheme.ToString ++ "scheme must be file or hdfs"⟩⟩, nullptr⟩,
        (self.hdfs_.hdfsNewBuilder w).world,
        [.hdfsNewBuilder (self.hdfs_.hdfsNewBuilder w).ret]⟩, ?_, ?_, ?_, ?_⟩
      · have hf1 : ¬ (ParseURI fname).scheme.chars = ['f', 'i', 'l', 'e'] := hf
        have hh1 : ¬ (ParseURI fname).scheme.chars = ['h', 'd', 'f', 's'] := hh
        simp [Native.andThen, Outcome.andThen, LibHDFSFull.callNewBuilder, hf1, hh1, Native.lift,
          InvalidArgument, Status.new, Code.OK, Code.INVALID_ARGUMENT, Native.ret]
      · intro h
        exact absurd h hf
      · intro h
        exact absurd h hh
      · intro _ _
        refine ⟨rfl, rfl, rfl, ?_⟩
        intro c hc
        simp only [List.mem_singleton] at hc
        subst hc
        trivial

/-- C14, at concrete inputs: with the environment without a ticket cache and
the scripted table, the address "hdfs://nn1/a/b" sets the name node "nn1" and
connects, and the bare path "/a/b" is refused after `hdfsNewBuilder`
alone. -/
theorem Connect_routes_by_scheme_witness :
    scriptFS.hdfs_.status_.ok = true ∧
    (∃ r, scriptFS.Connect plainEnv (StringPiece.ofStd "hdfs://nn1/a/b") connectOK = .returned r ∧
      r.calls = [.hdfsNewBuilder 7, .hdfsBuilderSetNameNode 7 (some "nn1"),
        .hdfsBuilderConnect 7 r.value.fs]) ∧
    (∃ r, scriptFS.Connect plainEnv (StringPiece.ofStd "/a/b") connectOK = .returned r ∧
      r.value.status = ⟨some ⟨Code.INVALID_ARGUMENT, "scheme must be file or hdfs"⟩⟩ ∧
      r.value.fs = nullptr ∧ r.calls = [.hdfsNewBuilder 7]) := by
  refine ⟨by rfl, ?_, ?_⟩
  · obtain ⟨r, hr, _, h, _⟩ := Connect_routes_by_scheme plainEnv scriptFS
      (StringPiece.ofStd "hdfs://nn1/a/b") connectOK (by rfl)
    exact ⟨r, hr, h (by rfl)⟩
  · obtain ⟨r, hr, _, _, h⟩ := Connect_routes_by_scheme plainEnv scriptFS
      (StringPiece.ofStd "/a/b") connectOK (by rfl)
    obtain ⟨h1, h2, h3, _⟩ := h (by decide) (by decide)
    exact ⟨r, hr, h1, h2, h3⟩

/-! ### A failed load -/

/-- C15: a failed load is fatal.  If the cached status of the loaded table is
not OK then each of the fifteen operations of the facade, on every argument
and in every native world, returns that status, stores no result (and leaves
the vector of `GetChildren` cleared), leaves the native world as it was and
issues no native call. -/
theorem failed_load_is_cached {σ : Type} (env : Env) (self : HadoopFileSystem σ)
    (hfail : self.hdfs_.status_.ok = false) :
    (∀ fname w, self.NewRandomAccessFile env fname w =
      .returned ⟨(self.hdfs_.status_, none), w, []⟩) ∧
    (∀ fname w, self.NewWritableFile env fname w =
      .returned ⟨(self.hdfs_.status_, none), w, []⟩) ∧
    (∀ fname w, self.NewAppendableFile env fname w =
      .returned ⟨(self.hdfs_.status_, none), w, []⟩) ∧
    (∀ fname w, self.FileExists env fname w = .returned ⟨self.hdfs_.status_, w, []⟩) ∧
    (∀ dir result w, self.GetChildren env dir result w =
      .returned ⟨(self.hdfs_.status_, []), w, []⟩) ∧
    (∀ fname w, self.DeleteFile env fname w = .returned ⟨self.hdfs_.status_, w, []⟩) ∧
    (∀ dir w, self.CreateDir env dir w = .returned ⟨self.hdfs_.status_, w, []⟩) ∧
    (∀ dir w, self.DeleteDir env dir w = .returned ⟨self.hdfs_.status_, w, []⟩) ∧
    (∀ fname w, self.GetFileSize env fname w =
      .returned ⟨(self.hdfs_.status_, none), w, []⟩) ∧
    (∀ src target w, self.RenameFile env src target w =
      .returned ⟨self.hdfs_.status_, w, []⟩) ∧
    (∀ fname w, self.Stat env fname w = .returned ⟨(self.hdfs_.status_, none), w, []⟩) ∧
    (∀ src dst w, self.CopyToLocal env src dst w = .returned ⟨self.hdfs_.status_, w, []⟩) ∧
    (∀ src dst w, self.CopyToRemote env src dst w = .returned ⟨self.hdfs_.status_, w, []⟩) ∧
    (∀ src dst w, self.MoveToLocal env src dst w = .returned ⟨self.hdfs_.status_, w, []⟩) ∧
    (∀ src dst w, self.MoveToRemote env src dst w = .returned ⟨self.hdfs_.status_, w, []⟩) := by
  have hc := self.Connect_of_failed_load env hfail
  have hopen : ∀ fname flags w, self.OpenFile env fname flags w =
      .returned ⟨(self.hdfs_.status_, none), w, []⟩ := by
    intro fname flags w
    simp [HadoopFileSystem.OpenFile, Native.andThen, Outcome.andThen, hc, hfail, Native.ret]
  have htransfer : ∀ call src dst w, self.Transfer env call src dst w =
      .returned ⟨self.hdfs_.status_, w, []⟩ := by
    intro call src dst w
    simp [HadoopFileSystem.Transfer, Native.andThen, Outcome.andThen, hc, hfail, Native.ret]
  refine ⟨?_, ?_, ?_, ?_, ?_, ?_, ?_, ?_, ?_, ?_, ?_, ?_, ?_, ?_, ?_⟩
  · intro fname w
    simp [HadoopFileSystem.NewRandomAccessFile, Native.andThen, Outcome.andThen, hopen,
      Native.ret]
  · intro fname w
    simp [HadoopFileSystem.NewWritableFile, Native.andThen, Outcome.andThen, hopen, Native.ret]
  · intro fname w
    simp [HadoopFileSystem.NewAppendableFile, Native.andThen, Outcome.andThen, hopen, Native.ret]
  · intro fname w
    simp [HadoopFileSystem.FileExists, Native.andThen, Outcome.andThen, hc, hfail, Native.ret]
  · intro dir result w
    simp [HadoopFileSystem.GetChildren, Native.andThen, Outcome.andThen, hc, hfail, Native.ret,
      vectorClear]
  · intro fname w
    simp [HadoopFileSystem.DeleteFile, Native.andThen, Outcome.andThen, hc, hfail, Native.ret]
  · intro dir w
    simp [HadoopFileSystem.CreateDir, Native.andThen, Outcome.andThen, hc, hfail, Native.ret]
  · intro dir w
    simp [HadoopFileSystem.DeleteDir, Native.andThen, Outcome.andThen, hc, hfail, Native.ret]
  · intro fname w
    simp [HadoopFileSystem.GetFileSize, Native.andThen, Outcome.andThen, hc, hfail, Native.ret]
  · intro src target w
    simp [HadoopFileSystem.RenameFile, Native.andThen, Outcome.andThen, hc, hfail, Native.ret]
  · intro fname w
    simp [HadoopFileSystem.Stat, Native.andThen, Outcome.andThen, hc, hfail, Native.ret]
  · intro src dst w
    exact htransfer _ src dst w
  · intro src dst w
    exact htransfer _ src dst w
  · intro src dst w
    exact htransfer _ src dst w
  · intro src dst w
    exact htransfer _ src dst w

/-- C15, at a concrete input: over the table whose load failed for want of the
installation root, `DeleteDir` of "hdfs://nn1/d" hands back the cached
FAILED_PRECONDITION status and consumes no answer of the script. -/
theorem failed_load_is_cached_witness :
    failedFS.hdfs_.status_.ok = false ∧
    failedFS.DeleteDir plainEnv "hdfs://nn1/d" connectOK =
      .returned ⟨⟨some ⟨Code.FAILED_PRECONDITION,
        "Environment variable HADOOP_HDFS_HOME not set"⟩⟩, connectOK, []⟩ :=
  ⟨by rfl, (failed_load_is_cached plainEnv failedFS (by rfl)).2.2.2.2.2.2.2.1
    "hdfs://nn1/d" connectOK⟩

/-! ### `GetChildren` -/

/-- C17: `GetChildren` and a null listing.  For every path on which `Connect`
succeeds and `Stat` succeeds, if the native listing is null then: when `Stat`
reported a directory, `GetChildren` returns OK with an empty result (whatever
the vector held before); when `Stat` reported something else, the outcome of
`GetChildren` is that of `IOError(dir, errno)` with the `errno` of the listing,
again with an empty result, and for a nonzero `errno` that is a status of the
kind `ErrnoToCode` gives.  In both cases the native calls are those of
`Connect`, those of `Stat` and the listing. -/
theorem GetChildren_null_listing {σ : Type} (env : Env) (self : HadoopFileSystem σ)
    (dir : String) (result : List String) (w : σ) (c : Run σ Connected)
    (st : Run σ (Status × Option FileStatistics))
    (hc : self.Connect env (StringPiece.ofStd dir) w = .returned c)
    (hok : c.value.status.ok = true)
    (hst : self.Stat env dir c.world = .returned st)
    (hstok : st.value.1.ok = true)
    (hnull : (self.hdfs_.hdfsListDirectory st.world c.value.fs
      (HadoopFileSystem.TranslateName dir)).ret = none) :
    ((st.value.2.map fun stat => stat.is_directory) = some true →
      self.GetChildren env dir result w = .returned ⟨(Status.OK, []),
        (self.hdfs_.hdfsListDirectory st.world c.value.fs
          (HadoopFileSystem.TranslateName dir)).world,
        c.calls ++ (st.calls ++ [.hdfsListDirectory c.value.fs
          (HadoopFileSystem.TranslateName dir) true
          (self.hdfs_.hdfsListDirectory st.world c.value.fs
            (HadoopFileSystem.TranslateName dir)).numEntries])⟩) ∧
    ((st.value.2.map fun stat => stat.is_directory) = some false →
      self.GetChildren env dir result w =
        (IOError env.strerror dir (self.hdfs_.hdfsListDirectory st.world c.value.fs
          (HadoopFileSystem.TranslateName dir)).errno).andThen fun s =>
          .returned ⟨(s, []),
            (self.hdfs_.hdfsListDirectory st.world c.value.fs
              (HadoopFileSystem.TranslateName dir)).world,
            c.calls ++ (st.calls ++ [.hdfsListDirectory c.value.fs
              (HadoopFileSystem.TranslateName dir) true
              (self.hdfs_.hdfsListDirectory st.world c.value.fs
                (HadoopFileSystem.TranslateName dir)).numEntries])⟩) ∧
    ((st.value.2.map fun stat => stat.is_directory) = some false →
      (self.hdfs_.hdfsListDirectory st.world c.value.fs
        (HadoopFileSystem.TranslateName dir)).errno ≠ 0 →
      ∃ r, self.GetChildren env dir result w = .returned r ∧ r.value.2 = [] ∧
        r.value.1.ok = false ∧
        r.value.1.code = ErrnoToCode (self.hdfs_.hdfsListDirectory st.world c.value.fs
          (HadoopFileSystem.TranslateName dir)).errno) := by
  have hfalse : (st.value.2.map fun stat => stat.is_directory) = some false →
      self.GetChildren env dir result w =
        (IOError env.strerror dir (self.hdfs_.hdfsListDirectory st.world c.value.fs
          (HadoopFileSystem.TranslateName dir)).errno).andThen fun s =>
          .returned ⟨(s, []),
            (self.hdfs_.hdfsListDirectory st.world c.value.fs
              (HadoopFileSystem.TranslateName dir)).world,
            c.calls ++ (st.calls ++ [.hdfsListDirectory c.value.fs
              (HadoopFileSystem.TranslateName dir) true
              (self.hdfs_.hdfsListDirectory st.world c.value.fs
                (HadoopFileSystem.TranslateName dir)).numEntries])⟩ := by
    intro hdir
    have hdir1 : ¬ (st.value.2.map fun stat => stat.is_directory) = some true := by
      rw [hdir]; decide
    simp only [HadoopFileSystem.GetChildren, Native.andThen, Outcome.andThen, hc, hok, hst, hstok,
      LibHDFSFull.callListDirectory, hnull, hdir1, Native.ret, Native.lift, vectorClear,
      not_true_eq_false, if_false, Option.isNone_none]
    cases IOError env.strerror dir (self.hdfs_.hdfsListDirectory st.world c.value.fs
        (HadoopFileSystem.TranslateName dir)).errno with
    | returned s => simp
    | aborted f => simp
  refine ⟨?_, hfalse, ?_⟩
  · intro hdir
    simp only [HadoopFileSystem.GetChildren, Native.andThen, Outcome.andThen, hc, hok, hst, hstok,
      LibHDFSFull.callListDirectory, hnull, hdir, Native.ret, vectorClear,
      not_true_eq_false, if_false, if_true, Option.isNone_none]
    simp
  · intro hdir herr
    rw [hfalse hdir, IOError_of_ne_zero _ _ _ herr]
    exact ⟨_, rfl, rfl, rfl, rfl⟩

/-- C17, at a concrete input: the scripted table connects twice (for
`GetChildren` and for its `Stat`), finds a directory at "hdfs://nn1/d" and
lists null; `GetChildren` empties the vector and returns OK. -/
theorem GetChildren_null_listing_witness :
    scriptFS.GetChildren plainEnv "hdfs://nn1/d" ["stale"]
        (connectOK ++ (connectOK ++ [dirInfo, ⟨0, 0, []⟩, ⟨0, 0, []⟩])) =
      .returned ⟨(Status.OK, []), [],
        connectCalls (some "nn1") ++ ((connectCalls (some "nn1") ++
          [.hdfsGetPathInfo 9 "/d" false, .hdfsFreeFileInfo 1]) ++
          [.hdfsListDirectory 9 "/d" true 0])⟩ := by
  have h := (GetChildren_null_listing plainEnv scriptFS "hdfs://nn1/d" ["stale"]
    (connectOK ++ (connectOK ++ [dirInfo, ⟨0, 0, []⟩, ⟨0, 0, []⟩]))
    ⟨⟨Status.OK, 9⟩, connectOK ++ [dirInfo, ⟨0, 0, []⟩, ⟨0, 0, []⟩], connectCalls (some "nn1")⟩
    ⟨(Status.OK, some ⟨0, 0, true⟩), [⟨0, 0, []⟩],
      connectCalls (some "nn1") ++
        [NativeCall.hdfsGetPathInfo 9 "/d" false, NativeCall.hdfsFreeFileInfo 1]⟩
    (by rfl) (by rfl) (by rfl) (by rfl) (by rfl)).1 (by rfl)
  exact h

/-- C20: `GetChildren` collects basenames.  For every path on which `Connect`
and `Stat` succeed and whose native listing is an array with entry count `k`,
`GetChildren` returns OK and a result of exactly `k` strings in the order of
the listing, the `i`-th being `Basename` of the name of the `i`-th entry
(none for a count below 1); nothing of what the vector held before the call
is in it.  The array is released after the loop. -/
theorem GetChildren_collects_basenames {σ : Type} (env : Env) (self : HadoopFileSystem σ)
    (dir : String) (result : List String) (w : σ) (c : Run σ Connected)
    (st : Run σ (Status × Option FileStatistics)) (info : Nat → hdfsFileInfo)
    (hc : self.Connect env (StringPiece.ofStd dir) w = .returned c)
    (hok : c.value.status.ok = true)
    (hst : self.Stat env dir c.world = .returned st)
    (hstok : st.value.1.ok = true)
    (hlist : (self.hdfs_.hdfsListDirectory st.world c.value.fs
      (HadoopFileSystem.TranslateName dir)).ret = some info) :
    ∃ r, self.GetChildren env dir result w = .returned r ∧
      r.value.1 = Status.OK ∧
      r.value.2 = (List.range (self.hdfs_.hdfsListDirectory st.world c.value.fs
          (HadoopFileSystem.TranslateName dir)).numEntries.toNat).map
        (fun i => (Basename (StringPiece.ofStd (info i).mName)).ToString) ∧
      r.value.2.length = (self.hdfs_.hdfsListDirectory st.world c.value.fs
          (HadoopFileSystem.TranslateName dir)).numEntries.toNat ∧
      (∀ i, i < (self.hdfs_.hdfsListDirectory st.world c.value.fs
          (HadoopFileSystem.TranslateName dir)).numEntries.toNat →
        r.value.2[i]? = some (Basename (StringPiece.ofStd (info i).mName)).ToString) ∧
      r.calls = c.calls ++ (st.calls ++
        [.hdfsListDirectory c.value.fs (HadoopFileSystem.TranslateName dir) false
            (self.hdfs_.hdfsListDirectory st.world c.value.fs
              (HadoopFileSystem.TranslateName dir)).numEntries,
          .hdfsFreeFileInfo (self.hdfs_.hdfsListDirectory st.world c.value.fs
              (HadoopFileSystem.TranslateName dir)).numEntries]) := by
  refine ⟨⟨(Status.OK, (List.range (self.hdfs_.hdfsListDirectory st.world c.value.fs
          (HadoopFileSystem.TranslateName dir)).numEntries.toNat).map
        (fun i => (Basename (StringPiece.ofStd (info i).mName)).ToString)),
      (self.hdfs_.hdfsFreeFileInfo (self.hdfs_.hdfsListDirectory st.world c.value.fs
        (HadoopFileSystem.TranslateName dir)).world (self.hdfs_.hdfsListDirectory st.world
        c.value.fs (HadoopFileSystem.TranslateName dir)).numEntries).world,
      c.calls ++ (st.calls ++
        [.hdfsListDirectory c.value.fs (HadoopFileSystem.TranslateName dir) false
            (self.hdfs_.hdfsListDirectory st.world c.value.fs
              (HadoopFileSystem.TranslateName dir)).numEntries,
          .hdfsFreeFileInfo (self.hdfs_.hdfsListDirectory st.world c.value.fs
              (HadoopFileSystem.TranslateName dir)).numEntries])⟩, ?_, rfl, rfl, ?_, ?_, rfl⟩
  · simp only [HadoopFileSystem.GetChildren, Native.andThen, Outcome.andThen, hc, hok, hst, hstok,
      LibHDFSFull.callListDirectory, hlist, Native.ret, vectorClear,
      LibHDFSFull.callFreeFileInfo, not_true_eq_false, if_false, Option.isNone_some,
      List.nil_append]
    simp
  · simp
  · intro i hi
    simp [hi]

/-- C20, at a concrete input: the scripted table lists two entries for
"hdfs://nn1/d"; the result is their basenames in order and the stale string is
gone. -/
theorem GetChildren_collects_basenames_witness :
    ∃ r, scriptFS.GetChildren plainEnv "hdfs://nn1/d" ["stale"]
        (connectOK ++ (connectOK ++ [dirInfo, ⟨0, 0, []⟩,
          ⟨1, 0, [⟨kObjectKindFile, "hdfs://nn1/d/x.txt", 0, 3⟩,
            ⟨kObjectKindDirectory, "hdfs://nn1/d/sub", 0, 0⟩]⟩, ⟨0, 0, []⟩])) = .returned r ∧
      r.value = (Status.OK, ["x.txt", "sub"]) := by
  obtain ⟨r, hr, h1, h2, _⟩ := GetChildren_collects_basenames plainEnv scriptFS "hdfs://nn1/d"
    ["stale"]
    (connectOK ++ (connectOK ++ [dirInfo, ⟨0, 0, []⟩,
      ⟨1, 0, [⟨kObjectKindFile, "hdfs://nn1/d/x.txt", 0, 3⟩,
        ⟨kObjectKindDirectory, "hdfs://nn1/d/sub", 0, 0⟩]⟩, ⟨0, 0, []⟩]))
    ⟨⟨Status.OK, 9⟩, connectOK ++ [dirInfo, ⟨0, 0, []⟩,
      ⟨1, 0, [⟨kObjectKindFile, "hdfs://nn1/d/x.txt", 0, 3⟩,
        ⟨kObjectKindDirectory, "hdfs://nn1/d/sub", 0, 0⟩]⟩, ⟨0, 0, []⟩],
      connectCalls (some "nn1")⟩
    ⟨(Status.OK, some ⟨0, 0, true⟩),
      [⟨1, 0, [⟨kObjectKindFile, "hdfs://nn1/d/x.txt", 0, 3⟩,
        ⟨kObjectKindDirectory, "hdfs://nn1/d/sub", 0, 0⟩]⟩, ⟨0, 0, []⟩],
      connectCalls (some "nn1") ++
        [NativeCall.hdfsGetPathInfo 9 "/d" false, NativeCall.hdfsFreeFileInfo 1]⟩
    (fun i => [(⟨kObjectKindFile, "hdfs://nn1/d/x.txt", 0, 3⟩ : hdfsFileInfo),
        ⟨kObjectKindDirectory, "hdfs://nn1/d/sub", 0, 0⟩].getD i blankInfo)
    (by rfl) (by rfl) (by rfl) (by rfl) (by rfl)
  refine ⟨r, hr, ?_⟩
  have h3 : r.value.2 = ["x.txt", "sub"] := h2.trans (by rfl)
  exact Prod.ext h1 h3

/-! ### `RenameFile` -/

theorem lookup_filter_ne (path q : String) (w : List (String × String)) :
    List.lookup q (w.filter fun e => e.1 != path) =
      if q = path then none else List.lookup q w := by
  induction w with
  | nil => simp
  | cons e rest ih =>
    obtain ⟨k, v⟩ := e
    by_cases hk : k = path
    · subst hk
      have hkk : (k != k) = false := by simp
      rw [List.filter_cons]
      simp only [hkk, Bool.false_eq_true, if_false]
      rw [ih]
      by_cases hq : q = k
      · simp only [hq, if_true]
      · have : (q == k) = false := by simpa using hq
        simp only [hq, if_false, List.lookup_cons, this]
    · have hk1 : (k != path) = true := by simpa using hk
      by_cases hq : q = path
      · subst hq
        have : (q == k) = false := by simpa using fun h : q = k => hk h.symm
        simp [List.filter_cons, hk1, List.lookup_cons, this, ih]
      · simp only [List.filter_cons, hk1, if_true, List.lookup_cons, ih, hq, if_false]

/-- The table client keeps the contract of a faithful namespace. -/
theorem tableLib_faithful : FaithfulFS tableLib tableContent where
  newBuilder := fun _ => rfl
  setNameNode := fun _ _ _ => rfl
  setKerbTicketCachePath := fun _ _ _ => rfl
  builderConnect := fun _ _ => rfl
  existsRet := by
    intro w fs path
    simp only [tableLib, tableContent]
    split <;> simp_all
  existsWorld := by
    intro w fs path
    simp only [tableLib]
    split <;> rfl
  delete := by
    intro w fs path h q
    simp only [tableLib, tableContent] at h ⊢
    split at h
    · rename_i hs
      simp only [hs, if_true]
      exact lookup_filter_ne path q w
    · simp at h
  rename := by
    intro w fs oldPath newPath h
    simp only [tableLib, tableContent] at h ⊢
    cases hl : List.lookup oldPath w with
    | none => rw [hl] at h; simp at h
    | some stored => simp [List.lookup_cons]

theorem IOError_returned_not_ok (strerror : Int → String) (context : String) (n : Int)
    (s : Status) (h : IOError strerror context n = .returned s) : s.ok = false := by
  unfold IOError at h
  simp only at h
  split at h
  · rw [(Status.new_eq_returned _ _ _ h).2]; rfl
  · rw [(Status.new_eq_returned _ _ _ h).2]; rfl

section Keeps

variable {σ γ : Type} (f : σ → γ)

theorem Native.andThen_keeps {α β : Type} {m : Native σ α} {k : α → Native σ β}
    (hm : ∀ w r, m w = .returned r → f r.world = f w)
    (hk : ∀ a w r, k a w = .returned r → f r.world = f w) :
    ∀ w r, (m.andThen k) w = .returned r → f r.world = f w := by
  intro w r h
  obtain ⟨r1, r2, h1, h2, rfl⟩ := (Native.andThen_returned_iff m k w r).mp h
  exact (hk _ _ _ h2).trans (hm _ _ h1)

theorem Native.ret_keeps {α : Type} (a : α) :
    ∀ w r, (Native.ret a : Native σ α) w = .returned r → f r.world = f w := by
  intro w r h
  cases h
  rfl

theorem Native.lift_keeps {α : Type} (o : Outcome α) :
    ∀ w r, (Native.lift o : Native σ α) w = .returned r → f r.world = f w := by
  intro w r h
  obtain ⟨a, _, rfl⟩ := (Native.lift_eq_returned o w r).mp h
  rfl

end Keeps

/-- Over a faithful namespace `Connect` leaves every path as it was. -/
theorem HadoopFileSystem.Connect_keeps {σ : Type} (env : Env) (self : HadoopFileSystem σ)
    (content : σ → String → Option String) (hf : FaithfulFS self.hdfs_ content)
    (fname : StringPiece) :
    ∀ w r, self.Connect env fname w = .returned r → content r.world = content w := by
  have hcb : ∀ builder w r, self.ConnectBuilder env builder w = .returned r →
      content r.world = content w := by
    intro builder
    unfold HadoopFileSystem.ConnectBuilder
    apply Native.andThen_keeps
    · cases env.getenv "KERB_TICKET_CACHE_PATH" with
      | some t =>
        intro w r h
        cases h
        exact hf.setKerbTicketCachePath _ _ _
      | none => exact Native.ret_keeps _ _
    · intro _
      apply Native.andThen_keeps
      · intro w r h
        cases h
        exact hf.builderConnect _ _
      · intro c
        split
        · exact Native.andThen_keeps _ (Native.lift_keeps _ _) fun _ => Native.ret_keeps _ _
        · exact Native.ret_keeps _ _
  unfold HadoopFileSystem.Connect
  simp only
  split
  · exact Native.ret_keeps _ _
  · apply Native.andThen_keeps
    · intro w r h
      cases h
      exact hf.newBuilder _
    · intro b
      split
      · apply Native.andThen_keeps
        · intro w r h
          cases h
          exact hf.setNameNode _ _ _
        · exact fun _ => hcb _
      · split
        · apply Native.andThen_keeps
          · intro w r h
            cases h
            exact hf.setNameNode _ _ _
          · exact fun _ => hcb _
        · exact Native.andThen_keeps _ (Native.lift_keeps _ _) fun _ => Native.ret_keeps _ _

/-- C18: `RenameFile` overwrites by delete, then rename.  For every `src` and
`target` with a successful `Connect` of `src`, let `e` be the reply of the
native exists-check of the translated target, `d` that of the non-recursive
delete of it and `rn` that of the rename (issued after the delete when the
target exists, else right after the check).  If `e` returns 0 the native calls
after `Connect` are the check, the delete and, when the delete returns 0, the
rename; a failing delete gives the outcome of `IOError(target, errno)` and no
rename.  If `e` does not return 0 the calls are the check and the rename, and
no delete.  A failing rename gives the outcome of `IOError(src, errno)`, and
otherwise the result is OK.  Over a faithful namespace, whenever `RenameFile`
returns OK the translated target resolves to what the translated source
resolved to before the call. -/
theorem RenameFile_delete_then_rename {σ : Type} (env : Env) (self : HadoopFileSystem σ)
    (src target : String) (w : σ) (c : Run σ Connected) (e d rn : IntReply σ)
    (hc : self.Connect env (StringPiece.ofStd src) w = .returned c)
    (hok : c.value.status.ok = true)
    (he : self.hdfs_.hdfsExists c.world c.value.fs (HadoopFileSystem.TranslateName target) = e)
    (hd : self.hdfs_.hdfsDelete e.world c.value.fs (HadoopFileSystem.TranslateName target) 0 = d)
    (hrn : self.hdfs_.hdfsRename (if e.ret = 0 then d.world else e.world) c.value.fs
      (HadoopFileSystem.TranslateName src) (HadoopFileSystem.TranslateName target) = rn) :
    (e.ret = 0 → d.ret ≠ 0 →
      self.RenameFile env src target w =
        (IOError env.strerror target d.errno).andThen fun s =>
          .returned ⟨s, d.world, c.calls ++
            [.hdfsExists c.value.fs (HadoopFileSystem.TranslateName target) e.ret,
              .hdfsDelete c.value.fs (HadoopFileSystem.TranslateName target) 0 d.ret]⟩) ∧
    (e.ret = 0 → d.ret = 0 → rn.ret ≠ 0 →
      self.RenameFile env src target w =
        (IOError env.strerror src rn.errno).andThen fun s =>
          .returned ⟨s, rn.world, c.calls ++
            [.hdfsExists c.value.fs (HadoopFileSystem.TranslateName target) e.ret,
              .hdfsDelete c.value.fs (HadoopFileSystem.TranslateName target) 0 d.ret,
              .hdfsRename c.value.fs (HadoopFileSystem.TranslateName src)
                (HadoopFileSystem.TranslateName target) rn.ret]⟩) ∧
    (e.ret = 0 → d.ret = 0 → rn.ret = 0 →
      self.RenameFile env src target w =
        .returned ⟨Status.OK, rn.world, c.calls ++
          [.hdfsExists c.value.fs (HadoopFileSystem.TranslateName target) e.ret,
            .hdfsDelete c.value.fs (HadoopFileSystem.TranslateName target) 0 d.ret,
            .hdfsRename c.value.fs (HadoopFileSystem.TranslateName src)
              (HadoopFileSystem.TranslateName target) rn.ret]⟩) ∧
    (e.ret ≠ 0 → rn.ret ≠ 0 →
      self.RenameFile env src target w =
        (IOError env.strerror src rn.errno).andThen fun s =>
          .returned ⟨s, rn.world, c.calls ++
            [.hdfsExists c.value.fs (HadoopFileSystem.TranslateName target) e.ret,
              .hdfsRename c.value.fs (HadoopFileSystem.TranslateName src)
                (HadoopFileSystem.TranslateName target) rn.ret]⟩) ∧
    (e.ret ≠ 0 → rn.ret = 0 →
      self.RenameFile env src target w =
        .returned ⟨Status.OK, rn.world, c.calls ++
          [.hdfsExists c.value.fs (HadoopFileSystem.TranslateName target) e.ret,
            .hdfsRename c.value.fs (HadoopFileSystem.TranslateName src)
              (HadoopFileSystem.TranslateName target) rn.ret]⟩) ∧
    (∀ content : σ → String → Option String, FaithfulFS self.hdfs_ content →
      ∀ r, self.RenameFile env src target w = .returned r → r.value.ok = true →
        content r.world (HadoopFileSystem.TranslateName target) =
          content w (HadoopFileSystem.TranslateName src)) := by
  have h1 : e.ret = 0 → d.ret ≠ 0 →
      self.RenameFile env src target w =
        (IOError env.strerror target d.errno).andThen fun s =>
          .returned ⟨s, d.world, c.calls ++
            [.hdfsExists c.value.fs (HadoopFileSystem.TranslateName target) e.ret,
              .hdfsDelete c.value.fs (HadoopFileSystem.TranslateName target) 0 d.ret]⟩ := by
    intro he0 hd0
    subst he hd
    simp only [HadoopFileSystem.RenameFile, Native.andThen, Outcome.andThen, hc, hok,
      LibHDFSFull.callExists, LibHDFSFull.callDelete, he0, hd0, Native.lift,
      not_true_eq_false, if_false, if_true, ne_eq, not_false_eq_true]
    cases IOError env.strerror target _ with
    | returned s => simp
    | aborted f => simp
  have h2 : e.ret = 0 → d.ret = 0 → rn.ret ≠ 0 →
      self.RenameFile env src target w =
        (IOError env.strerror src rn.errno).andThen fun s =>
          .returned ⟨s, rn.world, c.calls ++
            [.hdfsExists c.value.fs (HadoopFileSystem.TranslateName target) e.ret,
              .hdfsDelete c.value.fs (HadoopFileSystem.TranslateName target) 0 d.ret,
              .hdfsRename c.value.fs (HadoopFileSystem.TranslateName src)
                (HadoopFileSystem.TranslateName target) rn.ret]⟩ := by
    intro he0 hd0 hrn0
    rw [if_pos he0] at hrn
    subst he hd hrn
    simp only [HadoopFileSystem.RenameFile, HadoopFileSystem.RenameTail, Native.andThen,
      Outcome.andThen, hc, hok, LibHDFSFull.callExists, LibHDFSFull.callDelete,
      LibHDFSFull.callRename, he0, hd0, hrn0, Native.lift,
      not_true_eq_false, if_false, if_true, ne_eq, not_false_eq_true]
    cases IOError env.strerror src _ with
    | returned s => simp
    | aborted f => simp
  have h3 : e.ret = 0 → d.ret = 0 → rn.ret = 0 →
      self.RenameFile env src target w =
        .returned ⟨Status.OK, rn.world, c.calls ++
          [.hdfsExists c.value.fs (HadoopFileSystem.TranslateName target) e.ret,
            .hdfsDelete c.value.fs (HadoopFileSystem.TranslateName target) 0 d.ret,
            .hdfsRename c.value.fs (HadoopFileSystem.TranslateName src)
              (HadoopFileSystem.TranslateName target) rn.ret]⟩ := by
    intro he0 hd0 hrn0
    rw [if_pos he0] at hrn
    subst he hd hrn
    simp only [HadoopFileSystem.RenameFile, HadoopFileSystem.RenameTail, Native.andThen,
      Outcome.andThen, hc, hok, LibHDFSFull.callExists, LibHDFSFull.callDelete,
      LibHDFSFull.callRename, he0, hd0, hrn0, Native.ret,
      not_true_eq_false, if_false, if_true, ne_eq, not_false_eq_true]
    simp
  have h4 : e.ret ≠ 0 → rn.ret ≠ 0 →
      self.RenameFile env src target w =
        (IOError env.strerror src rn.errno).andThen fun s =>
          .returned ⟨s, rn.world, c.calls ++
            [.hdfsExists c.value.fs (HadoopFileSystem.TranslateName target) e.ret,
              .hdfsRename c.value.fs (HadoopFileSystem.TranslateName src)
                (HadoopFileSystem.TranslateName target) rn.ret]⟩ := by
    intro he0 hrn0
    rw [if_neg he0] at hrn
    subst he hrn
    simp only [HadoopFileSystem.RenameFile, HadoopFileSystem.RenameTail, Native.andThen,
      Outcome.andThen, hc, hok, LibHDFSFull.callExists,
      LibHDFSFull.callRename, he0, hrn0, Native.lift,
      not_true_eq_false, if_false, if_true, ne_eq, not_false_eq_true]
    cases IOError env.strerror src _ with
    | returned s => simp
    | aborted f => simp
  have h5 : e.ret ≠ 0 → rn.ret = 0 →
      self.RenameFile env src target w =
        .returned ⟨Status.OK, rn.world, c.calls ++
          [.hdfsExists c.value.fs (HadoopFileSystem.TranslateName target) e.ret,
            .hdfsRename c.value.fs (HadoopFileSystem.TranslateName src)
              (HadoopFileSystem.TranslateName target) rn.ret]⟩ := by
    intro he0 hrn0
    rw [if_neg he0] at hrn
    subst he hrn
    simp only [HadoopFileSystem.RenameFile, HadoopFileSystem.RenameTail, Native.andThen,
      Outcome.andThen, hc, hok, LibHDFSFull.callExists,
      LibHDFSFull.callRename, he0, hrn0, Native.ret,
      not_true_eq_false, if_false, if_true, ne_eq, not_false_eq_true]
    simp
  refine ⟨h1, h2, h3, h4, h5, ?_⟩
  intro content hf r hr hrok
  have hcw : content c.world = content w := self.Connect_keeps env content hf _ w c hc
  have hew : content e.world = content c.world := by
    rw [← he]; exact hf.existsWorld _ _ _
  have hbad : ∀ (ctx : String) (n : Int) (w1 : σ) (calls : List NativeCall),
      ((IOError env.strerror ctx n).andThen fun s =>
        (.returned ⟨s, w1, calls⟩ : Outcome (Run σ Status))) = .returned r → False := by
    intro ctx n w1 calls h
    obtain ⟨s, hs, hrs⟩ := (Outcome.andThen_eq_returned _ _ _).mp h
    cases hrs
    have := IOError_returned_not_ok _ _ _ _ hs
    simp [this] at hrok
  by_cases he0 : e.ret = 0
  · by_cases hd0 : d.ret = 0
    · by_cases hrn0 : rn.ret = 0
      · rw [h3 he0 hd0 hrn0] at hr
        cases hr
        rw [if_pos he0] at hrn
        have hdel := hf.delete e.world c.value.fs (HadoopFileSystem.TranslateName target)
          (by rw [hd]; exact hd0)
        rw [hd] at hdel
        have hren := hf.rename d.world c.value.fs (HadoopFileSystem.TranslateName src)
          (HadoopFileSystem.TranslateName target) (by rw [hrn]; exact hrn0)
        rw [hrn] at hren
        obtain ⟨hsome, hmove⟩ := hren
        show content rn.world _ = _
        rw [hmove, hdel]
        by_cases hst : HadoopFileSystem.TranslateName src = HadoopFileSystem.TranslateName target
        · rw [hdel, if_pos hst] at hsome
          cases hsome
        · rw [if_neg hst, hew, hcw]
      · rw [h2 he0 hd0 hrn0] at hr
        exact (hbad _ _ _ _ hr).elim
    · rw [h1 he0 hd0] at hr
      exact (hbad _ _ _ _ hr).elim
  · by_cases hrn0 : rn.ret = 0
    · rw [h5 he0 hrn0] at hr
      cases hr
      rw [if_neg he0] at hrn
      have hren := hf.rename e.world c.value.fs (HadoopFileSystem.TranslateName src)
        (HadoopFileSystem.TranslateName target) (by rw [hrn]; exact hrn0)
      rw [hrn] at hren
      show content rn.world _ = _
      rw [hren.2, hew, hcw]
    · rw [h4 he0 hrn0] at hr
      exact (hbad _ _ _ _ hr).elim

/-- C18, at a concrete input: over the table client with "new" at "/a" and
"old" at "/b", renaming "hdfs://nn1/a" to "hdfs://nn1/b" checks "/b", deletes
it, renames, returns OK, and "/b" then holds "new". -/
theorem RenameFile_delete_then_rename_witness :
    tableFS.RenameFile plainEnv "hdfs://nn1/a" "hdfs://nn1/b" [("/a", "new"), ("/b", "old")] =
      .returned ⟨Status.OK, [("/b", "new")], connectCalls (some "nn1") ++
        [.hdfsExists 9 "/b" 0, .hdfsDelete 9 "/b" 0 0, .hdfsRename 9 "/a" "/b" 0]⟩ ∧
    tableContent [("/b", "new")] "/b" = tableContent [("/a", "new"), ("/b", "old")] "/a" := by
  have h := RenameFile_delete_then_rename plainEnv tableFS "hdfs://nn1/a" "hdfs://nn1/b"
    [("/a", "new"), ("/b", "old")]
    ⟨⟨Status.OK, 9⟩, [("/a", "new"), ("/b", "old")], connectCalls (some "nn1")⟩
    ⟨0, 0, [("/a", "new"), ("/b", "old")]⟩ ⟨0, 0, [("/a", "new")]⟩ ⟨0, 0, [("/b", "new")]⟩
    (by rfl) (by rfl) (by rfl) (by rfl) (by rfl)
  have hrun := h.2.2.1 rfl rfl rfl
  exact ⟨hrun, h.2.2.2.2.2 tableContent tableLib_faithful _ hrun rfl⟩

/-! ### The path strings handed to the native client -/

theorem LibHDFSFull.callCopy_sat {σ : Type} {P : NativeCall → Prop} (hdfs : LibHDFSFull σ)
    (srcFS : Nat) (src : String) (dstFS : Nat) (dst : String)
    (h : ∀ ret, P (.hdfsCopy srcFS src dstFS dst ret)) :
    (hdfs.callCopy srcFS src dstFS dst).CallsSatisfy P :=
  Native.CallsSatisfy.single fun _ => ⟨_, _, _, rfl, h _⟩

theorem LibHDFSFull.callMove_sat {σ : Type} {P : NativeCall → Prop} (hdfs : LibHDFSFull σ)
    (srcFS : Nat) (src : String) (dstFS : Nat) (dst : String)
    (h : ∀ ret, P (.hdfsMove srcFS src dstFS dst ret)) :
    (hdfs.callMove srcFS src dstFS dst).CallsSatisfy P :=
  Native.CallsSatisfy.single fun _ => ⟨_, _, _, rfl, h _⟩

theorem NativeCall.PathsIn.of_subset {allowed : List String} {c : NativeCall}
    (h : ∀ p ∈ c.paths, p ∈ allowed) : c.PathsIn allowed := h

theorem NativeCall.PathsIn.of_builder (allowed : List String) (c : NativeCall)
    (h : c.IsBuilderCall) : c.PathsIn allowed := by
  intro p hp
  cases c <;> first | exact h.elim | cases hp

section PathLemmas

variable {σ : Type} (env : Env) (self : HadoopFileSystem σ) (allowed : List String)

theorem HadoopFileSystem.OpenFile_paths (fname : String) (flags : Int)
    (hT : HadoopFileSystem.TranslateName fname ∈ allowed) :
    (self.OpenFile env fname flags).CallsSatisfy (NativeCall.PathsIn allowed) := by
  unfold HadoopFileSystem.OpenFile
  refine Native.CallsSatisfy.andThen (self.Connect_sat env (NativeCall.PathsIn.of_builder _) _)
    fun c => Native.CallsSatisfy.ite (Native.CallsSatisfy.ret _) ?_
  refine Native.CallsSatisfy.andThen (self.hdfs_.callOpenFile_sat _ _ _ fun _ p hp => ?_)
    fun file => Native.CallsSatisfy.ite
      (Native.CallsSatisfy.andThen (Native.CallsSatisfy.lift _) fun _ => Native.CallsSatisfy.ret _)
      (Native.CallsSatisfy.ret _)
  simp only [NativeCall.paths, List.mem_singleton] at hp
  exact hp ▸ hT

theorem HadoopFileSystem.Stat_paths (fname : String)
    (hT : HadoopFileSystem.TranslateName fname ∈ allowed) :
    (self.Stat env fname).CallsSatisfy (NativeCall.PathsIn allowed) := by
  unfold HadoopFileSystem.Stat
  refine Native.CallsSatisfy.andThen (self.Connect_sat env (NativeCall.PathsIn.of_builder _) _)
    fun c => Native.CallsSatisfy.ite (Native.CallsSatisfy.ret _) ?_
  refine Native.CallsSatisfy.andThen (self.hdfs_.callGetPathInfo_sat _ _ fun _ p hp => ?_)
    fun r => ?_
  · simp only [NativeCall.paths, List.mem_singleton] at hp
    exact hp ▸ hT
  · split
    · exact Native.CallsSatisfy.andThen (Native.CallsSatisfy.lift _)
        fun _ => Native.CallsSatisfy.ret _
    · exact Native.CallsSatisfy.andThen
        (self.hdfs_.callFreeFileInfo_sat _ fun p hp => by cases hp)
        fun _ => Native.CallsSatisfy.ret _

theorem HadoopFileSystem.DeleteDirTail_paths (dir : String) (fs : Nat) (entries : Int)
    (hT : HadoopFileSystem.TranslateName dir ∈ allowed) :
    (self.DeleteDirTail env dir fs entries).CallsSatisfy (NativeCall.PathsIn allowed) := by
  unfold HadoopFileSystem.DeleteDirTail
  refine Native.CallsSatisfy.ite (Native.CallsSatisfy.lift _) ?_
  refine Native.CallsSatisfy.andThen (self.hdfs_.callDelete_sat _ _ _ fun _ p hp => ?_)
    fun r => Native.CallsSatisfy.ite (Native.CallsSatisfy.lift _) (Native.CallsSatisfy.ret _)
  simp only [NativeCall.paths, List.mem_singleton] at hp
  exact hp ▸ hT

theorem HadoopFileSystem.RenameTail_paths (src target : String) (fs : Nat)
    (hS : HadoopFileSystem.TranslateName src ∈ allowed)
    (hT : HadoopFileSystem.TranslateName target ∈ allowed) :
    (self.RenameTail env src target fs).CallsSatisfy (NativeCall.PathsIn allowed) := by
  unfold HadoopFileSystem.RenameTail
  refine Native.CallsSatisfy.andThen (self.hdfs_.callRename_sat _ _ _ fun _ p hp => ?_)
    fun r => Native.CallsSatisfy.ite (Native.CallsSatisfy.lift _) (Native.CallsSatisfy.ret _)
  simp only [NativeCall.paths, List.mem_cons, List.mem_singleton, List.not_mem_nil,
    or_false] at hp
  rcases hp with hp | hp
  · exact hp ▸ hS
  · exact hp ▸ hT

theorem HadoopFileSystem.Transfer_paths
    (call : Nat → String → Nat → String → Native σ (Answer Int)) (src dst : String)
    (hcall : ∀ a b, (call a src b dst).CallsSatisfy (NativeCall.PathsIn allowed)) :
    (self.Transfer env call src dst).CallsSatisfy (NativeCall.PathsIn allowed) := by
  unfold HadoopFileSystem.Transfer
  refine Native.CallsSatisfy.andThen (self.Connect_sat env (NativeCall.PathsIn.of_builder _) _)
    fun c1 => Native.CallsSatisfy.ite (Native.CallsSatisfy.ret _) ?_
  refine Native.CallsSatisfy.andThen (self.Connect_sat env (NativeCall.PathsIn.of_builder _) _)
    fun c2 => Native.CallsSatisfy.ite (Native.CallsSatisfy.ret _) ?_
  exact Native.CallsSatisfy.andThen (hcall _ _)
    fun r => Native.CallsSatisfy.ite (Native.CallsSatisfy.lift _) (Native.CallsSatisfy.ret _)

end PathLemmas

/-- What `Transfer` does once both connections are made: one native call on
the first connection with `src` and the second with `dst`, the strings as
they were given, then the test of its result. -/
theorem HadoopFileSystem.Transfer_run {σ : Type} (env : Env) (self : HadoopFileSystem σ)
    (call : Nat → String → Nat → String → Native σ (Answer Int)) (src dst : String) (w : σ)
    (c1 c2 : Run σ Connected) (r : IntReply σ) (log : NativeCall)
    (hc1 : self.Connect env (StringPiece.ofStd src) w = .returned c1)
    (hok1 : c1.value.status.ok = true)
    (hc2 : self.Connect env (StringPiece.ofStd dst) c1.world = .returned c2)
    (hok2 : c2.value.status.ok = true)
    (hcall : call c1.value.fs src c2.value.fs dst c2.world =
      .returned ⟨⟨r.ret, r.errno⟩, r.world, [log]⟩) :
    self.Transfer env call src dst w =
      if r.ret ≠ 0 then
        (IOError env.strerror ("from " ++ src ++ " to " ++ dst) r.errno).andThen fun s =>
          .returned ⟨s, r.world, c1.calls ++ (c2.calls ++ [log])⟩
      else .returned ⟨Status.OK, r.world, c1.calls ++ (c2.calls ++ [log])⟩ := by
  by_cases hr : r.ret = 0
  · simp [HadoopFileSystem.Transfer, Native.andThen, Outcome.andThen, hc1, hok1, hc2, hok2,
      hcall, hr, Native.ret]
  · simp only [HadoopFileSystem.Transfer, Native.andThen, Outcome.andThen, hc1, hok1, hc2, hok2,
      hcall, hr, Native.lift, not_true_eq_false, if_false, ne_eq, not_false_eq_true, if_true]
    cases IOError env.strerror ("from " ++ src ++ " to " ++ dst) r.errno with
    | returned s => simp
    | aborted f => simp

/-- An address with a scheme is not its own translation. -/
theorem HadoopFileSystem.TranslateName_ne_of_scheme (u : String)
    (hs : (ParseURI (StringPiece.ofStd u)).scheme.chars ≠ []) :
    HadoopFileSystem.TranslateName u ≠ u := by
  intro h
  have hlist : (ParseURI (StringPiece.ofStd u)).path.chars = u.toList :=
    congrArg String.toList h
  rcases ParseURI_cases (StringPiece.ofStd u) with ⟨_, hP⟩ | ⟨s, hh, p, _, _, _, hl, hP⟩
  · rw [hP] at hs
    exact hs rfl
  · rw [hP] at hlist
    have hlen := congrArg List.length hl
    have hu : (StringPiece.ofStd u).chars = u.toList := rfl
    rw [hu, ← hlist] at hlen
    simp only [List.length_append] at hlen
    have h3 : "://".toList.length = 3 := by decide
    omega

/-- C19: the path strings handed to the native client.  In every run that
returns, each path string handed to a native call by `NewRandomAccessFile`,
`NewWritableFile`, `NewAppendableFile`, `FileExists`, `Stat`, `GetChildren`,
`DeleteFile`, `CreateDir`, `DeleteDir` and `GetFileSize` is `TranslateName` of
the address, and each one handed by `RenameFile` is `TranslateName` of `src` or
of `target`.  The copy and move operations do not translate, which is where
the code goes wrong: once both connections are made, `CopyToLocal` and
`CopyToRemote` issue exactly `hdfsCopy(fs1, src, fs2, dst)` and `MoveToLocal`
and `MoveToRemote` exactly `hdfsMove(fs1, src, fs2, dst)`, with `src` and `dst`
as they were given, scheme and host included, and their outcome is that of this
call; they hand the native client no other path string in any run that
returns; and an address with a scheme is never its own translation. -/
theorem native_paths_translated {σ : Type} (env : Env) (self : HadoopFileSystem σ) :
    (∀ fname, (self.NewRandomAccessFile env fname).CallsSatisfy
      (NativeCall.PathsIn [HadoopFileSystem.TranslateName fname])) ∧
    (∀ fname, (self.NewWritableFile env fname).CallsSatisfy
      (NativeCall.PathsIn [HadoopFileSystem.TranslateName fname])) ∧
    (∀ fname, (self.NewAppendableFile env fname).CallsSatisfy
      (NativeCall.PathsIn [HadoopFileSystem.TranslateName fname])) ∧
    (∀ fname, (self.FileExists env fname).CallsSatisfy
      (NativeCall.PathsIn [HadoopFileSystem.TranslateName fname])) ∧
    (∀ fname, (self.Stat env fname).CallsSatisfy
      (NativeCall.PathsIn [HadoopFileSystem.TranslateName fname])) ∧
    (∀ dir result, (self.GetChildren env dir result).CallsSatisfy
      (NativeCall.PathsIn [HadoopFileSystem.TranslateName dir])) ∧
    (∀ fname, (self.DeleteFile env fname).CallsSatisfy
      (NativeCall.PathsIn [HadoopFileSystem.TranslateName fname])) ∧
    (∀ dir, (self.CreateDir env dir).CallsSatisfy
      (NativeCall.PathsIn [HadoopFileSystem.TranslateName dir])) ∧
    (∀ dir, (self.DeleteDir env dir).CallsSatisfy
      (NativeCall.PathsIn [HadoopFileSystem.TranslateName dir])) ∧
    (∀ fname, (self.GetFileSize env fname).CallsSatisfy
      (NativeCall.PathsIn [HadoopFileSystem.TranslateName fname])) ∧
    (∀ src target, (self.RenameFile env src target).CallsSatisfy
      (NativeCall.PathsIn
        [HadoopFileSystem.TranslateName src, HadoopFileSystem.TranslateName target])) ∧
    (∀ src dst, (self.CopyToLocal env src dst).CallsSatisfy (NativeCall.PathsIn [src, dst])) ∧
    (∀ src dst, (self.CopyToRemote env src dst).CallsSatisfy (NativeCall.PathsIn [src, dst])) ∧
    (∀ src dst, (self.MoveToLocal env src dst).CallsSatisfy (NativeCall.PathsIn [src, dst])) ∧
    (∀ src dst, (self.MoveToRemote env src dst).CallsSatisfy (NativeCall.PathsIn [src, dst])) ∧
    (∀ (src dst : String) (w : σ) (c1 c2 : Run σ Connected) (r : IntReply σ),
      self.Connect env (StringPiece.ofStd src) w = .returned c1 → c1.value.status.ok = true →
      self.Connect env (StringPiece.ofStd dst) c1.world = .returned c2 →
      c2.value.status.ok = true →
      self.hdfs_.hdfsCopy c2.world c1.value.fs src c2.value.fs dst = r →
      self.CopyToLocal env src dst w =
        if r.ret ≠ 0 then
          (IOError env.strerror ("from " ++ src ++ " to " ++ dst) r.errno).andThen fun s =>
            .returned ⟨s, r.world, c1.calls ++
              (c2.calls ++ [.hdfsCopy c1.value.fs src c2.value.fs dst r.ret])⟩
        else
          .returned ⟨Status.OK, r.world, c1.calls ++
            (c2.calls ++ [.hdfsCopy c1.value.fs src c2.value.fs dst r.ret])⟩) ∧
    (∀ (src dst : String) (w : σ) (c1 c2 : Run σ Connected) (r : IntReply σ),
      self.Connect env (StringPiece.ofStd src) w = .returned c1 → c1.value.status.ok = true →
      self.Connect env (StringPiece.ofStd dst) c1.world = .returned c2 →
      c2.value.status.ok = true →
      self.hdfs_.hdfsCopy c2.world c1.value.fs src c2.value.fs dst = r →
      self.CopyToRemote env src dst w =
        if r.ret ≠ 0 then
          (IOError env.strerror ("from " ++ src ++ " to " ++ dst) r.errno).andThen fun s =>
            .returned ⟨s, r.world, c1.calls ++
              (c2.calls ++ [.hdfsCopy c1.value.fs src c2.value.fs dst r.ret])⟩
        else
          .returned ⟨Status.OK, r.world, c1.calls ++
            (c2.calls ++ [.hdfsCopy c1.value.fs src c2.value.fs dst r.ret])⟩) ∧
    (∀ (src dst : String) (w : σ) (c1 c2 : Run σ Connected) (r : IntReply σ),
      self.Connect env (StringPiece.ofStd src) w = .returned c1 → c1.value.status.ok = true →
      self.Connect env (StringPiece.ofStd dst) c1.world = .returned c2 →
      c2.value.status.ok = true →
      self.hdfs_.hdfsMove c2.world c1.value.fs src c2.value.fs dst = r →
      self.MoveToLocal env src dst w =
        if r.ret ≠ 0 then
          (IOError env.strerror ("from " ++ src ++ " to " ++ dst) r.errno).andThen fun s =>
            .returned ⟨s, r.world, c1.calls ++
              (c2.calls ++ [.hdfsMove c1.value.fs src c2.value.fs dst r.ret])⟩
        else
          .returned ⟨Status.OK, r.world, c1.calls ++
            (c2.calls ++ [.hdfsMove c1.value.fs src c2.value.fs dst r.ret])⟩) ∧
    (∀ (src dst : String) (w : σ) (c1 c2 : Run σ Connected) (r : IntReply σ),
      self.Connect env (StringPiece.ofStd src) w = .returned c1 → c1.value.status.ok = true →
      self.Connect env (StringPiece.ofStd dst) c1.world = .returned c2 →
      c2.value.status.ok = true →
      self.hdfs_.hdfsMove c2.world c1.value.fs src c2.value.fs dst = r →
      self.MoveToRemote env src dst w =
        if r.ret ≠ 0 then
          (IOError env.strerror ("from " ++ src ++ " to " ++ dst) r.errno).andThen fun s =>
            .returned ⟨s, r.world, c1.calls ++
              (c2.calls ++ [.hdfsMove c1.value.fs src c2.value.fs dst r.ret])⟩
        else
          .returned ⟨Status.OK, r.world, c1.calls ++
            (c2.calls ++ [.hdfsMove c1.value.fs src c2.value.fs dst r.ret])⟩) ∧
    (∀ u : String, (ParseURI (StringPiece.ofStd u)).scheme.chars ≠ [] →
      HadoopFileSystem.TranslateName u ≠ u) := by
  have hone : ∀ (T : String) (c : NativeCall), c.paths = [T] → c.PathsIn [T] := by
    intro T c hc p hp
    rw [hc] at hp
    exact hp
  have hconn : ∀ (allowed : List String) (fname : String),
      (self.Connect env (StringPiece.ofStd fname)).CallsSatisfy (NativeCall.PathsIn allowed) :=
    fun allowed _ => self.Connect_sat env (NativeCall.PathsIn.of_builder allowed) _
  have hcopy : ∀ src dst a b,
      (self.hdfs_.callCopy a src b dst).CallsSatisfy (NativeCall.PathsIn [src, dst]) :=
    fun src dst a b => self.hdfs_.callCopy_sat _ _ _ _ fun _ p hp => hp
  have hmove : ∀ src dst a b,
      (self.hdfs_.callMove a src b dst).CallsSatisfy (NativeCall.PathsIn [src, dst]) :=
    fun src dst a b => self.hdfs_.callMove_sat _ _ _ _ fun _ p hp => hp
  refine ⟨?_, ?_, ?_, ?_, ?_, ?_, ?_, ?_, ?_, ?_, ?_, ?_, ?_, ?_, ?_, ?_, ?_, ?_, ?_, ?_⟩
  · intro fname
    exact Native.CallsSatisfy.andThen
      (self.OpenFile_paths env _ fname _ (List.mem_singleton.mpr rfl))
      fun _ => Native.CallsSatisfy.ret _
  · intro fname
    exact Native.CallsSatisfy.andThen
      (self.OpenFile_paths env _ fname _ (List.mem_singleton.mpr rfl))
      fun _ => Native.CallsSatisfy.ret _
  · intro fname
    exact Native.CallsSatisfy.andThen
      (self.OpenFile_paths env _ fname _ (List.mem_singleton.mpr rfl))
      fun _ => Native.CallsSatisfy.ret _
  · intro fname
    unfold HadoopFileSystem.FileExists
    exact Native.CallsSatisfy.andThen (hconn _ _) fun c =>
      Native.CallsSatisfy.ite (Native.CallsSatisfy.ret _)
        (Native.CallsSatisfy.andThen
          (self.hdfs_.callExists_sat _ _ fun _ => hone _ _ rfl)
          fun r => Native.CallsSatisfy.ite (Native.CallsSatisfy.ret _)
            (Native.CallsSatisfy.lift _))
  · intro fname
    exact self.Stat_paths env _ fname (List.mem_singleton.mpr rfl)
  · intro dir result
    unfold HadoopFileSystem.GetChildren
    refine Native.CallsSatisfy.andThen (hconn _ _) fun c =>
      Native.CallsSatisfy.ite (Native.CallsSatisfy.ret _)
        (Native.CallsSatisfy.andThen (self.Stat_paths env _ dir (List.mem_singleton.mpr rfl))
          fun st => Native.CallsSatisfy.ite (Native.CallsSatisfy.ret _)
            (Native.CallsSatisfy.andThen
              (self.hdfs_.callListDirectory_sat _ _ fun _ _ => hone _ _ rfl) fun l => ?_))
    split
    · exact Native.CallsSatisfy.ite (Native.CallsSatisfy.ret _)
        (Native.CallsSatisfy.andThen (Native.CallsSatisfy.lift _)
          fun _ => Native.CallsSatisfy.ret _)
    · exact Native.CallsSatisfy.andThen
        (self.hdfs_.callFreeFileInfo_sat _ fun p hp => by cases hp)
        fun _ => Native.CallsSatisfy.ret _
  · intro fname
    unfold HadoopFileSystem.DeleteFile
    exact Native.CallsSatisfy.andThen (hconn _ _) fun c =>
      Native.CallsSatisfy.ite (Native.CallsSatisfy.ret _)
        (Native.CallsSatisfy.andThen
          (self.hdfs_.callDelete_sat _ _ _ fun _ => hone _ _ rfl)
          fun r => Native.CallsSatisfy.ite (Native.CallsSatisfy.lift _)
            (Native.CallsSatisfy.ret _))
  · intro dir
    unfold HadoopFileSystem.CreateDir
    exact Native.CallsSatisfy.andThen (hconn _ _) fun c =>
      Native.CallsSatisfy.ite (Native.CallsSatisfy.ret _)
        (Native.CallsSatisfy.andThen
          (self.hdfs_.callCreateDirectory_sat _ _ fun _ => hone _ _ rfl)
          fun r => Native.CallsSatisfy.ite (Native.CallsSatisfy.lift _)
            (Native.CallsSatisfy.ret _))
  · intro dir
    unfold HadoopFileSystem.DeleteDir
    have htail := fun fs entries =>
      self.DeleteDirTail_paths env [HadoopFileSystem.TranslateName dir] dir fs entries
        (List.mem_singleton.mpr rfl)
    exact Native.CallsSatisfy.andThen (hconn _ _) fun c =>
      Native.CallsSatisfy.ite (Native.CallsSatisfy.ret _)
        (Native.CallsSatisfy.andThen
          (self.hdfs_.callListDirectory_sat _ _ fun _ _ => hone _ _ rfl) fun l =>
          Native.CallsSatisfy.andThen
            (Native.CallsSatisfy.ite
              (self.hdfs_.callFreeFileInfo_sat _ fun p hp => by cases hp)
              (Native.CallsSatisfy.ret _))
            fun _ => Native.CallsSatisfy.ite
              (Native.CallsSatisfy.andThen
                (self.Stat_paths env _ dir (List.mem_singleton.mpr rfl))
                fun st => Native.CallsSatisfy.ite (Native.CallsSatisfy.ret _) (htail _ _))
              (htail _ _))
  · intro fname
    unfold HadoopFileSystem.GetFileSize
    refine Native.CallsSatisfy.andThen (hconn _ _) fun c =>
      Native.CallsSatisfy.ite (Native.CallsSatisfy.ret _)
        (Native.CallsSatisfy.andThen
          (self.hdfs_.callGetPathInfo_sat _ _ fun _ => hone _ _ rfl) fun r => ?_)
    split
    · exact Native.CallsSatisfy.andThen (Native.CallsSatisfy.lift _)
        fun _ => Native.CallsSatisfy.ret _
    · exact Native.CallsSatisfy.andThen
        (self.hdfs_.callFreeFileInfo_sat _ fun p hp => by cases hp)
        fun _ => Native.CallsSatisfy.ret _
  · intro src target
    unfold HadoopFileSystem.RenameFile
    have hS : HadoopFileSystem.TranslateName src ∈
        [HadoopFileSystem.TranslateName src, HadoopFileSystem.TranslateName target] :=
      List.mem_cons_self _ _
    have hT : HadoopFileSystem.TranslateName target ∈
        [HadoopFileSystem.TranslateName src, HadoopFileSystem.TranslateName target] :=
      List.mem_cons_of_mem _ (List.mem_singleton.mpr rfl)
    have htail := fun fs => self.RenameTail_paths env _ src target fs hS hT
    exact Native.CallsSatisfy.andThen (hconn _ _) fun c =>
      Native.CallsSatisfy.ite (Native.CallsSatisfy.ret _)
        (Native.CallsSatisfy.andThen
          (self.hdfs_.callExists_sat _ _ fun _ p hp => by
            simp only [NativeCall.paths, List.mem_singleton] at hp
            exact hp ▸ hT) fun e =>
          Native.CallsSatisfy.ite
            (Native.CallsSatisfy.andThen
              (self.hdfs_.callDelete_sat _ _ _ fun _ p hp => by
                simp only [NativeCall.paths, List.mem_singleton] at hp
                exact hp ▸ hT) fun d =>
              Native.CallsSatisfy.ite (Native.CallsSatisfy.lift _) (htail _))
            (htail _))
  · exact fun src dst => self.Transfer_paths env _ _ src dst (hcopy src dst)
  · exact fun src dst => self.Transfer_paths env _ _ src dst (hcopy src dst)
  · exact fun src dst => self.Transfer_paths env _ _ src dst (hmove src dst)
  · exact fun src dst => self.Transfer_paths env _ _ src dst (hmove src dst)
  · intro src dst w c1 c2 r hc1 hok1 hc2 hok2 hr
    exact self.Transfer_run env _ src dst w c1 c2 r _ hc1 hok1 hc2 hok2
      (by rw [← hr]; rfl)
  · intro src dst w c1 c2 r hc1 hok1 hc2 hok2 hr
    exact self.Transfer_run env _ src dst w c1 c2 r _ hc1 hok1 hc2 hok2
      (by rw [← hr]; rfl)
  · intro src dst w c1 c2 r hc1 hok1 hc2 hok2 hr
    exact self.Transfer_run env _ src dst w c1 c2 r _ hc1 hok1 hc2 hok2
      (by rw [← hr]; rfl)
  · intro src dst w c1 c2 r hc1 hok1 hc2 hok2 hr
    exact self.Transfer_run env _ src dst w c1 c2 r _ hc1 hok1 hc2 hok2
      (by rw [← hr]; rfl)
  · exact HadoopFileSystem.TranslateName_ne_of_scheme

/-- C19, at a concrete input: over the scripted table,
`CopyToLocal("hdfs://nn1/a/b", "file:///tmp/b")` connects twice and issues
`hdfsCopy(9, "hdfs://nn1/a/b", 9, "file:///tmp/b")`. -/
theorem native_paths_translated_witness :
    scriptFS.CopyToLocal plainEnv "hdfs://nn1/a/b" "file:///tmp/b"
        (connectOK ++ (connectOK ++ [⟨0, 0, []⟩])) =
      .returned ⟨Status.OK, [], connectCalls (some "nn1") ++ (connectCalls none ++
        [.hdfsCopy 9 "hdfs://nn1/a/b" 9 "file:///tmp/b" 0])⟩ := by
  have h := (native_paths_translated plainEnv scriptFS).2.2.2.2.2.2.2.2.2.2.2.2.2.2.2.1
    "hdfs://nn1/a/b" "file:///tmp/b" (connectOK ++ (connectOK ++ [⟨0, 0, []⟩]))
    ⟨⟨Status.OK, 9⟩, connectOK ++ [⟨0, 0, []⟩], connectCalls (some "nn1")⟩
    ⟨⟨Status.OK, 9⟩, [⟨0, 0, []⟩], connectCalls none⟩ ⟨0, 0, []⟩
    (by rfl) (by rfl) (by rfl) (by rfl) (by rfl)
  exact h

/-- C19, the defect at a concrete input:
`CopyToLocal("hdfs://nn1/a/b", "file:///tmp/b")` over the scripted table
connects twice and hands `hdfsCopy` the two addresses as they are, although
`TranslateName` gives "/a/b" and "/tmp/b"; so not every path string of that
run is a translated one. -/
theorem CopyToLocal_raw_address_counterexample :
    scriptFS.CopyToLocal plainEnv "hdfs://nn1/a/b" "file:///tmp/b"
        (connectOK ++ (connectOK ++ [⟨0, 0, []⟩])) =
      .returned ⟨Status.OK, [], connectCalls (some "nn1") ++ (connectCalls none ++
        [.hdfsCopy 9 "hdfs://nn1/a/b" 9 "file:///tmp/b" 0])⟩ ∧
    HadoopFileSystem.TranslateName "hdfs://nn1/a/b" = "/a/b" ∧
    HadoopFileSystem.TranslateName "file:///tmp/b" = "/tmp/b" ∧
    ¬ (scriptFS.CopyToLocal plainEnv "hdfs://nn1/a/b" "file:///tmp/b").CallsSatisfy
      (NativeCall.PathsIn [HadoopFileSystem.TranslateName "hdfs://nn1/a/b",
        HadoopFileSystem.TranslateName "file:///tmp/b"]) := by
  have hrun : scriptFS.CopyToLocal plainEnv "hdfs://nn1/a/b" "file:///tmp/b"
        (connectOK ++ (connectOK ++ [⟨0, 0, []⟩])) =
      .returned ⟨Status.OK, [], connectCalls (some "nn1") ++ (connectCalls none ++
        [.hdfsCopy 9 "hdfs://nn1/a/b" 9 "file:///tmp/b" 0])⟩ := by rfl
  have h1 : HadoopFileSystem.TranslateName "hdfs://nn1/a/b" = "/a/b" := by decide
  have h2 : HadoopFileSystem.TranslateName "file:///tmp/b" = "/tmp/b" := by decide
  refine ⟨hrun, h1, h2, ?_⟩
  intro hsat
  have hp := hsat _ _ hrun (.hdfsCopy 9 "hdfs://nn1/a/b" 9 "file:///tmp/b" 0)
    (by simp [connectCalls]) "hdfs://nn1/a/b" (by simp [NativeCall.paths])
  rw [h1, h2] at hp
  revert hp
  decide

/-! ### `ParseURI` and `TranslateName`: what is kept -/

/-- C21: `ParseURI` loses nothing.  For every input on which `ParseURI` returns
a scheme that is not empty, the input is the scheme, "://", the host and the
path, in this order and with nothing else; the host contains no '/'; and the
path is empty or begins with '/'.  The three views lie in the input at the
places this gives them. -/
theorem ParseURI_loses_nothing (input : StringPiece)
    (hscheme : (ParseURI input).scheme.chars ≠ []) :
    input.chars = (ParseURI input).scheme.chars ++ "://".toList ++
      (ParseURI input).host.chars ++ (ParseURI input).path.chars ∧
    '/' ∉ (ParseURI input).host.chars ∧
    ((ParseURI input).path.chars = [] ∨ (ParseURI input).path.chars.head? = some '/') ∧
    (ParseURI input).scheme.data = input.data ∧
    (ParseURI input).host.data = input.data + (ParseURI input).scheme.chars.length + 3 ∧
    (ParseURI input).path.data = input.data + (ParseURI input).scheme.chars.length + 3 +
      (ParseURI input).host.chars.length := by
  rcases ParseURI_cases input with ⟨_, hP⟩ | ⟨s, h, p, _, hh, hp, hl, hP⟩
  · rw [hP] at hscheme
    exact absurd rfl hscheme
  · rw [hP]
    exact ⟨hl, hh, hp, rfl, rfl, rfl⟩

/-- C21, at a concrete input: "hdfs://nn1:8020/a/b" stored at address 100. -/
theorem ParseURI_loses_nothing_witness :
    (ParseURI (StringPiece.ofString 100 "hdfs://nn1:8020/a/b")).scheme.chars ≠ [] ∧
    "hdfs://nn1:8020/a/b".toList =
      (ParseURI (StringPiece.ofString 100 "hdfs://nn1:8020/a/b")).scheme.chars ++ "://".toList ++
        (ParseURI (StringPiece.ofString 100 "hdfs://nn1:8020/a/b")).host.chars ++
        (ParseURI (StringPiece.ofString 100 "hdfs://nn1:8020/a/b")).path.chars ∧
    (ParseURI (StringPiece.ofString 100 "hdfs://nn1:8020/a/b")).host.chars = "nn1:8020".toList ∧
    (ParseURI (StringPiece.ofString 100 "hdfs://nn1:8020/a/b")).path.chars = "/a/b".toList :=
  ⟨by decide,
    (ParseURI_loses_nothing (StringPiece.ofString 100 "hdfs://nn1:8020/a/b") (by decide)).1,
    by decide, by decide⟩

/-- A text that is empty or begins with '/' does not begin with a scheme. -/
theorem not_BeginsWithScheme_of_path (p : List Char) (hp : p = [] ∨ p.head? = some '/') :
    ¬ BeginsWithScheme p := by
  match p, hp with
  | [], _ =>
    rintro ⟨s, rest, hs, hl⟩
    match s, hs with
    | a :: b :: cs, _ => simp at hl
  | c :: t, hp =>
    have hc : c = '/' := by simpa using hp
    subst hc
    exact not_BeginsWithScheme_of_not_letter '/' t (by decide)

/-- The characters of what `TranslateName` returns are those of the path that
`ParseURI` finds. -/
theorem HadoopFileSystem.TranslateName_toList (u : String) :
    (HadoopFileSystem.TranslateName u).toList = (ParseURI (StringPiece.ofStd u)).path.chars :=
  rfl

/-- C26: `TranslateName` is idempotent.  For every string `u`, what
`TranslateName` returns is empty or begins with '/', or is `u` itself when `u`
does not begin with a scheme; in each case `ParseURI` finds no scheme in it,
so `TranslateName` returns it unchanged. -/
theorem TranslateName_idempotent (u : String) :
    HadoopFileSystem.TranslateName (HadoopFileSystem.TranslateName u) =
      HadoopFileSystem.TranslateName u ∧
    (ParseURI (StringPiece.ofStd (HadoopFileSystem.TranslateName u))).scheme.chars = [] ∧
    ((ParseURI (StringPiece.ofStd u)).scheme.chars ≠ [] →
      (HadoopFileSystem.TranslateName u).toList = [] ∨
        (HadoopFileSystem.TranslateName u).toList.head? = some '/') := by
  have hno : ¬ BeginsWithScheme (HadoopFileSystem.TranslateName u).toList := by
    rw [HadoopFileSystem.TranslateName_toList]
    rcases ParseURI_cases (StringPiece.ofStd u) with ⟨hb, hP⟩ | ⟨s, h, p, _, _, hp, _, hP⟩
    · rw [hP]
      exact hb
    · rw [hP]
      exact not_BeginsWithScheme_of_path p hp
  have hparse := ParseURI_no_scheme 0 (HadoopFileSystem.TranslateName u).toList hno
  have hview : StringPiece.ofStd (HadoopFileSystem.TranslateName u) =
      ⟨0, (HadoopFileSystem.TranslateName u).toList⟩ := rfl
  refine ⟨?_, ?_, ?_⟩
  · show (ParseURI (StringPiece.ofStd (HadoopFileSystem.TranslateName u))).path.ToString = _
    rw [hview, hparse]
    rfl
  · rw [hview, hparse]
  · intro hs
    rw [HadoopFileSystem.TranslateName_toList]
    rcases ParseURI_cases (StringPiece.ofStd u) with ⟨_, hP⟩ | ⟨s, h, p, _, _, hp, _, hP⟩
    · rw [hP] at hs
      exact absurd rfl hs
    · rw [hP]
      exact hp

/-! ### `Read`: the number and the arguments of the native reads -/

theorem Status.new_aborted (code : Code) (msg : String) (e : Fault)
    (h : Status.new code msg = .aborted e) : e = .assertion := by
  unfold Status.new at h
  split at h
  · cases h; rfl
  · cases h

theorem IOError_aborted (strerror : Int → String) (context : String) (n : Int) (e : Fault)
    (h : IOError strerror context n = .aborted e) : e = .assertion := by
  unfold IOError at h
  simp only at h
  split at h <;> exact Status.new_aborted _ _ _ h

theorem toInt64_add_emod (x d : Int) : toInt64 (x % 2 ^ 64 + d) = toInt64 (x + d) := by
  unfold toInt64
  omega

theorem bytesDelivered_nil : bytesDelivered [] = 0 := rfl

theorem bytesDelivered_cons (c : PreadCall) (rest : List PreadCall) :
    bytesDelivered (c :: rest) = (if 0 < c.ret then c.ret else 0) + bytesDelivered rest := by
  simp [bytesDelivered]

section ReadBounded

variable {σ : Type} (strerror : Int → String) (f : RandomAccessFile σ)

/-- With a budget of at least the count that remains, and native reads that
return 0, a positive value of at most the count requested, or a negative
value with an `errno` that is no retry, the loop of `Read` does not depend on
the budget. -/
theorem RandomAccessFile.ReadLoop_budget
    (hb : ∀ (w : σ) (mem : Mem) (position : Int) (buffer : Nat) (length : Int),
      (0 < (f.hdfs_.hdfsPread w mem f.fs_ f.file_ position buffer length).ret →
        (f.hdfs_.hdfsPread w mem f.fs_ f.file_ position buffer length).ret ≤ length) ∧
      ((f.hdfs_.hdfsPread w mem f.fs_ f.file_ position buffer length).ret < 0 →
        (f.hdfs_.hdfsPread w mem f.fs_ f.file_ position buffer length).errno ≠ EINTR ∧
        (f.hdfs_.hdfsPread w mem f.fs_ f.file_ position buffer length).errno ≠ EAGAIN))
    (fuel : Nat) :
    ∀ (fuel1 : Nat) (st : ReadState σ), st.n ≤ fuel → st.n ≤ fuel1 → st.n < 2 ^ 64 →
      f.ReadLoop strerror fuel st = f.ReadLoop strerror fuel1 st := by
  induction fuel with
  | zero =>
    intro fuel1 st h0 _ _
    have hg : st.guard = false := by
      have : st.n = 0 := by omega
      simp [ReadState.guard, this]
    rw [RandomAccessFile.ReadLoop_exit _ _ _ _ hg, RandomAccessFile.ReadLoop_exit _ _ _ _ hg]
  | succ k ih =>
    intro fuel1 st h0 h1 hn
    by_cases hg : st.guard = true
    · have hpos : 0 < st.n := by
        simp only [ReadState.guard, Bool.and_eq_true, decide_eq_true_eq] at hg
        exact hg.1
      obtain ⟨k1, rfl⟩ : ∃ k1, fuel1 = k1 + 1 := ⟨fuel1 - 1, by omega⟩
      rw [RandomAccessFile.ReadLoop_succ _ _ _ _ hg, RandomAccessFile.ReadLoop_succ _ _ _ _ hg]
      have hbst := hb st.world st.mem (toInt64 st.offset) st.dst (toInt32 st.n)
      rcases lt_trichotomy (f.pread st).ret 0 with hneg | hzero | hp
      · have he := hbst.2 hneg
        rw [RandomAccessFile.ReadBody_error _ _ _ hneg he.1 he.2]
        cases hio : IOError strerror f.filename_ (f.pread st).errno with
        | aborted e => rfl
        | returned s =>
          have hnot := IOError_not_ok _ _ _ _ hio
          simp only [Outcome.andThen]
          rw [RandomAccessFile.ReadLoop_exit _ _ _ _ (ReadState.guard_of_not_ok _ hnot),
            RandomAccessFile.ReadLoop_exit _ _ _ _ (ReadState.guard_of_not_ok _ hnot)]
      · rw [RandomAccessFile.ReadBody_zero _ _ _ hzero]
        simp only [Outcome.andThen]
        rw [RandomAccessFile.ReadLoop_exit _ _ _ _ (by simp [ReadState.guard, Status.ok]),
          RandomAccessFile.ReadLoop_exit _ _ _ _ (by simp [ReadState.guard, Status.ok])]
      · rw [RandomAccessFile.ReadBody_pos _ _ _ hp]
        have hle : (f.pread st).ret ≤ toInt32 st.n := hbst.1 hp
        have hrn : (f.pread st).ret ≤ st.n :=
          le_trans hle (toInt32_le_of_pos st.n (lt_of_lt_of_le hp hle))
        clear hle hbst
        have hn2 : (((st.n : Int) - (f.pread st).ret) % 2 ^ 64).toNat
            = st.n - (f.pread st).ret.toNat := by omega
        simp only [Outcome.andThen]
        rw [ih k1 _ (by simp only [hn2]; omega) (by simp only [hn2]; omega)
          (by simp only [hn2]; omega)]
    · have hg2 : st.guard = false := by simpa using hg
      rw [RandomAccessFile.ReadLoop_exit _ _ _ _ hg2, RandomAccessFile.ReadLoop_exit _ _ _ _ hg2]

end ReadBounded
section ReadTrace

variable {σ : Type} (strerror : Int → String) (f : RandomAccessFile σ)

theorem RandomAccessFile.trace_single (st : ReadState σ) :
    ∀ (i : Nat) (c : PreadCall), [f.preadCall st][i]? = some c →
      0 ≤ bytesDelivered ([f.preadCall st].take i) ∧
      bytesDelivered ([f.preadCall st].take i) ≤ st.n ∧
      c.position = toInt64 (st.offset + bytesDelivered ([f.preadCall st].take i)) ∧
      c.length = toInt32 (st.n - bytesDelivered ([f.preadCall st].take i)) ∧
      c.buffer = st.dst + (bytesDelivered ([f.preadCall st].take i)).toNat := by
  intro i c hc
  cases i with
  | zero =>
    simp only [List.getElem?_cons_zero, Option.some.injEq] at hc
    subst hc
    simp [bytesDelivered, RandomAccessFile.preadCall]
  | succ j => simp at hc

/-- The loop of `Read` under native reads that return 0, a positive value of
at most the count requested, or a negative value with an `errno` that is no
retry, run with a budget of at least the count that remains: it returns
(unless `IOError` trips the assertion on an `errno` of 0) after at most that
many native reads, and the read issued after `d` bytes were delivered has the
position, the count and the buffer advanced by `d`. -/
theorem RandomAccessFile.ReadLoop_trace (Z : Prop)
    (hb : ∀ (w : σ) (mem : Mem) (position : Int) (buffer : Nat) (length : Int),
      (0 < (f.hdfs_.hdfsPread w mem f.fs_ f.file_ position buffer length).ret →
        (f.hdfs_.hdfsPread w mem f.fs_ f.file_ position buffer length).ret ≤ length) ∧
      ((f.hdfs_.hdfsPread w mem f.fs_ f.file_ position buffer length).ret < 0 →
        (f.hdfs_.hdfsPread w mem f.fs_ f.file_ position buffer length).errno ≠ EINTR ∧
        (f.hdfs_.hdfsPread w mem f.fs_ f.file_ position buffer length).errno ≠ EAGAIN))
    (hz : Z → ∀ (w : σ) (mem : Mem) (position : Int) (buffer : Nat) (length : Int),
      (f.hdfs_.hdfsPread w mem f.fs_ f.file_ position buffer length).ret < 0 →
        (f.hdfs_.hdfsPread w mem f.fs_ f.file_ position buffer length).errno ≠ 0)
    (fuel : Nat) :
    ∀ st : ReadState σ, st.n ≤ fuel → st.n < 2 ^ 64 →
      (¬ Z ∧ f.ReadLoop strerror fuel st = .aborted .assertion) ∨
      ∃ (st1 : ReadState σ) (calls : List PreadCall),
        f.ReadLoop strerror fuel st = .returned (st1, calls) ∧
        calls.length ≤ st.n ∧
        ∀ (i : Nat) (c : PreadCall), calls[i]? = some c →
          0 ≤ bytesDelivered (calls.take i) ∧ bytesDelivered (calls.take i) ≤ st.n ∧
          c.position = toInt64 (st.offset + bytesDelivered (calls.take i)) ∧
          c.length = toInt32 (st.n - bytesDelivered (calls.take i)) ∧
          c.buffer = st.dst + (bytesDelivered (calls.take i)).toNat := by
  induction fuel with
  | zero =>
    intro st h0 _
    have hg : st.guard = false := by
      have : st.n = 0 := by omega
      simp [ReadState.guard, this]
    right
    refine ⟨st, [], RandomAccessFile.ReadLoop_exit _ _ _ _ hg, by simp, ?_⟩
    intro i c hc
    simp at hc
  | succ k ih =>
    intro st h0 hn
    by_cases hg : st.guard = true
    · have hpos : 0 < st.n := by
        simp only [ReadState.guard, Bool.and_eq_true, decide_eq_true_eq] at hg
        exact hg.1
      rw [RandomAccessFile.ReadLoop_succ _ _ _ _ hg]
      have hbst := hb st.world st.mem (toInt64 st.offset) st.dst (toInt32 st.n)
      rcases lt_trichotomy (f.pread st).ret 0 with hneg | hzero | hp
      · have he := hbst.2 hneg
        rw [RandomAccessFile.ReadBody_error _ _ _ hneg he.1 he.2]
        cases hio : IOError strerror f.filename_ (f.pread st).errno with
        | aborted e =>
          left
          have hasrt := IOError_aborted _ _ _ _ hio
          subst hasrt
          refine ⟨?_, rfl⟩
          intro hZ
          have hne := hz hZ st.world st.mem (toInt64 st.offset) st.dst (toInt32 st.n) hneg
          rw [show IOError strerror f.filename_ (f.pread st).errno = _ from
            IOError_of_ne_zero strerror f.filename_ _ hne] at hio
          cases hio
        | returned s =>
          right
          have hnot := IOError_not_ok _ _ _ _ hio
          simp only [Outcome.andThen]
          rw [RandomAccessFile.ReadLoop_exit _ _ _ _ (ReadState.guard_of_not_ok _ hnot)]
          exact ⟨_, _, rfl, by simpa using hpos, f.trace_single st⟩
      · right
        rw [RandomAccessFile.ReadBody_zero _ _ _ hzero]
        simp only [Outcome.andThen]
        rw [RandomAccessFile.ReadLoop_exit _ _ _ _ (by simp [ReadState.guard, Status.ok])]
        exact ⟨_, _, rfl, by simpa using hpos, f.trace_single st⟩
      · rw [RandomAccessFile.ReadBody_pos _ _ _ hp]
        have hle : (f.pread st).ret ≤ toInt32 st.n := hbst.1 hp
        have hrn : (f.pread st).ret ≤ st.n :=
          le_trans hle (toInt32_le_of_pos st.n (lt_of_lt_of_le hp hle))
        clear hle hbst
        have hn2 : (((st.n : Int) - (f.pread st).ret) % 2 ^ 64).toNat
            = st.n - (f.pread st).ret.toNat := by omega
        have hoff : ((((st.offset : Int) + (f.pread st).ret) % 2 ^ 64).toNat : Int)
            = ((st.offset : Int) + (f.pread st).ret) % 2 ^ 64 := by omega
        simp only [Outcome.andThen]
        rcases ih (ReadState.mk (f.pread st).world (f.pread st).mem
            (((st.offset : Int) + (f.pread st).ret) % 2 ^ 64).toNat
            (((st.n : Int) - (f.pread st).ret) % 2 ^ 64).toNat
            (st.dst + (f.pread st).ret.toNat) st.s)
          (by simp only [hn2]; omega) (by simp only [hn2]; omega) with
          ⟨hZ, hab⟩ | ⟨st1, rest, hrun, hlen, htr⟩
        · left
          rw [hab]
          exact ⟨hZ, rfl⟩
        · right
          rw [hrun]
          simp only [hn2] at hlen htr
          refine ⟨st1, f.preadCall st :: rest, rfl, ?_, ?_⟩
          · simp only [List.length_cons]
            omega
          · intro i c hc
            cases i with
            | zero =>
              simp only [List.getElem?_cons_zero, Option.some.injEq] at hc
              subst hc
              simp [bytesDelivered, RandomAccessFile.preadCall]
            | succ j =>
              simp only [List.getElem?_cons_succ] at hc
              obtain ⟨h1, h2, h3, h4, h5⟩ := htr j c hc
              have hhead : (f.preadCall st).ret = (f.pread st).ret := rfl
              simp only [List.take_succ_cons, bytesDelivered_cons, hhead, hp, if_true]
              generalize bytesDelivered (rest.take j) = d at h1 h2 h3 h4 h5
              generalize (f.pread st).ret = r at hp hrn h2 h3 h4 h5 hoff
              refine ⟨by omega, by omega, ?_, ?_, ?_⟩
              · rw [h3, hoff, toInt64_add_emod, add_assoc]
              · rw [h4]
                congr 1
                omega
              · rw [h5]
                omega
    · have hg2 : st.guard = false := by simpa using hg
      right
      refine ⟨st, [], RandomAccessFile.ReadLoop_exit _ _ _ _ hg2, by simp, ?_⟩
      intro i c hc
      simp at hc

end ReadTrace

/-- The file client returns 0, a positive value of at most the count
requested, or -1 with `EINVAL`. -/
theorem fileLib_benign (chunk : Nat) (w : List Char) (mem : Mem) (fs file : Nat)
    (position : Int) (buffer : Nat) (length : Int) :
    (0 < ((fileLib chunk).hdfsPread w mem fs file position buffer length).ret →
      ((fileLib chunk).hdfsPread w mem fs file position buffer length).ret ≤ length) ∧
    (((fileLib chunk).hdfsPread w mem fs file position buffer length).ret < 0 →
      ((fileLib chunk).hdfsPread w mem fs file position buffer length).errno ≠ EINTR ∧
      ((fileLib chunk).hdfsPread w mem fs file position buffer length).errno ≠ EAGAIN ∧
      ((fileLib chunk).hdfsPread w mem fs file position buffer length).errno ≠ 0) := by
  by_cases h : position < 0 ∨ length < 0
  · simp only [fileLib, h, if_true]
    refine ⟨fun hpos => absurd hpos (by decide), fun _ => ⟨by decide, by decide, by decide⟩⟩
  · simp only [fileLib, h, if_false]
    constructor
    · intro _
      omega
    · intro hneg
      omega

/-- C22 (amended): `Read` ends after a bounded number of native reads.  For
every offset and every `n` (a `size_t`), if every native read returns 0, a
positive value of at most the count requested, or a negative value with an
`errno` that is neither `EINTR` nor `EAGAIN`, then `Read` run with the
iteration budget `n` does not exhaust it: it returns after at most `n` native
reads, or stops on the assertion of the Status constructor (only possible when
a failed read leaves `errno` at 0); a larger budget changes nothing; and for
`n = 0` it issues no native read and returns OK with an empty view.  The
native read issued after `d` bytes were delivered is at the position
`static_cast<tOffset>(offset + d)` with the count `static_cast<tSize>(n - d)`
and the buffer `scratch + d`; these are `offset + d` and `n - d` when
`offset + d < 2^63` and `n - d < 2^31`. -/
theorem Read_bounded_native_reads {σ : Type} (strerror : Int → String)
    (f : RandomAccessFile σ) (world : σ) (mem : Mem) (offset n scratch : Nat)
    (hn : n < 2 ^ 64)
    (hb : ∀ (w : σ) (mem : Mem) (position : Int) (buffer : Nat) (length : Int),
      (0 < (f.hdfs_.hdfsPread w mem f.fs_ f.file_ position buffer length).ret →
        (f.hdfs_.hdfsPread w mem f.fs_ f.file_ position buffer length).ret ≤ length) ∧
      ((f.hdfs_.hdfsPread w mem f.fs_ f.file_ position buffer length).ret < 0 →
        (f.hdfs_.hdfsPread w mem f.fs_ f.file_ position buffer length).errno ≠ EINTR ∧
        (f.hdfs_.hdfsPread w mem f.fs_ f.file_ position buffer length).errno ≠ EAGAIN)) :
    (f.Read strerror n world mem offset n scratch = .aborted .assertion ∨
      ∃ res, f.Read strerror n world mem offset n scratch = .returned res ∧
        res.calls.length ≤ n ∧
        ∀ (i : Nat) (c : PreadCall), res.calls[i]? = some c →
          0 ≤ bytesDelivered (res.calls.take i) ∧ bytesDelivered (res.calls.take i) ≤ n ∧
          c.position = toInt64 (offset + bytesDelivered (res.calls.take i)) ∧
          c.length = toInt32 (n - bytesDelivered (res.calls.take i)) ∧
          c.buffer = scratch + (bytesDelivered (res.calls.take i)).toNat ∧
          ((offset : Int) + bytesDelivered (res.calls.take i) < 2 ^ 63 →
            c.position = offset + bytesDelivered (res.calls.take i)) ∧
          ((n : Int) - bytesDelivered (res.calls.take i) < 2 ^ 31 →
            c.length = n - bytesDelivered (res.calls.take i))) ∧
    (∀ fuel : Nat, n ≤ fuel →
      f.Read strerror fuel world mem offset n scratch =
        f.Read strerror n world mem offset n scratch) ∧
    ((∀ (w : σ) (mem : Mem) (position : Int) (buffer : Nat) (length : Int),
        (f.hdfs_.hdfsPread w mem f.fs_ f.file_ position buffer length).ret < 0 →
          (f.hdfs_.hdfsPread w mem f.fs_ f.file_ position buffer length).errno ≠ 0) →
      ∃ res, f.Read strerror n world mem offset n scratch = .returned res) ∧
    (n = 0 → ∀ fuel : Nat, f.Read strerror fuel world mem offset n scratch =
      .returned ⟨Status.OK, ⟨scratch, []⟩, mem, world, []⟩) := by
  refine ⟨?_, ?_, ?_, ?_⟩
  · rcases RandomAccessFile.ReadLoop_trace strerror f False hb (fun h => h.elim) n
        (ReadState.init world mem offset n scratch) (le_refl _) hn with
      ⟨_, hab⟩ | ⟨st1, calls, hrun, hlen, htr⟩
    · left
      unfold RandomAccessFile.Read
      rw [hab]
      rfl
    · right
      refine ⟨ReadState.finish scratch (st1, calls), ?_, hlen, ?_⟩
      · unfold RandomAccessFile.Read
        rw [hrun]
        rfl
      · intro i c hc
        obtain ⟨h1, h2, h3, h4, h5⟩ := htr i c hc
        simp only [ReadState.init] at h2 h3 h4 h5
        simp only [ReadState.finish]
        generalize bytesDelivered (calls.take i) = d at h1 h2 h3 h4 h5
        refine ⟨h1, h2, h3, h4, h5, ?_, ?_⟩
        · intro hlt
          rw [h3]
          have h0 : (0 : Int) ≤ offset + d := by omega
          clear h3 h4 h5
          unfold toInt64
          omega
        · intro hlt
          rw [h4]
          exact toInt32_of_int _ (by omega) hlt
  · intro fuel hfuel
    unfold RandomAccessFile.Read
    rw [RandomAccessFile.ReadLoop_budget strerror f hb fuel n
      (ReadState.init world mem offset n scratch) hfuel (le_refl _) hn]
  · intro hz
    rcases RandomAccessFile.ReadLoop_trace strerror f True hb (fun _ => hz) n
        (ReadState.init world mem offset n scratch) (le_refl _) hn with
      ⟨hnot, _⟩ | ⟨st1, calls, hrun, _, _⟩
    · exact absurd trivial hnot
    · refine ⟨ReadState.finish scratch (st1, calls), ?_⟩
      unfold RandomAccessFile.Read
      rw [hrun]
      rfl
  · intro h0 fuel
    subst h0
    unfold RandomAccessFile.Read
    rw [RandomAccessFile.ReadLoop_exit _ _ _ _ (by simp [ReadState.guard, ReadState.init])]
    simp [Outcome.andThen, ReadState.finish, ReadState.init, StringPiece.ofMem]

/-- C22, at a concrete input: the file client over "hello", which delivers at
most 3 bytes a call, is read for 5 bytes from offset 0: two native reads, at
positions 0 and 3 with counts 5 and 2. -/
theorem Read_bounded_native_reads_witness :
    (5 : Nat) < 2 ^ 64 ∧
    ((fileRAF.Read strerrorStub 5 "hello".toList blankMem 0 5 100).andThen
        fun res => .returned (res.status, res.result, res.calls)) =
      .returned (Status.OK, ⟨100, "hello".toList⟩,
        [{ fs := 1, file := 3, position := 0, buffer := 100, length := 5, ret := 3, errno := 0 },
         { fs := 1, file := 3, position := 3, buffer := 103, length := 2, ret := 2,
           errno := 0 }]) ∧
    (∀ fuel : Nat, 5 ≤ fuel →
      fileRAF.Read strerrorStub fuel "hello".toList blankMem 0 5 100 =
        fileRAF.Read strerrorStub 5 "hello".toList blankMem 0 5 100) :=
  ⟨by norm_num, by rfl,
    (Read_bounded_native_reads strerrorStub fileRAF "hello".toList blankMem 0 5 100
      (by norm_num)
      (fun w mem position buffer length =>
        ⟨(fileLib_benign 3 w mem 1 3 position buffer length).1,
          fun h => ⟨((fileLib_benign 3 w mem 1 3 position buffer length).2 h).1,
            ((fileLib_benign 3 w mem 1 3 position buffer length).2 h).2.1⟩⟩)).2.1⟩

/-- C22, the claim as first stated fails for a count of `2^31` or more: a
`Read` of `2^31` bytes whose one native read returns 0 issued it with the
count `-2^31`, the value of `static_cast<tSize>(n)`, not with `n`. -/
theorem Read_count_truncated_counterexample :
    scriptRAF.Read strerrorStub 1 [] blankMem 0 (2 ^ 31) 100 =
      .returned ⟨⟨some ⟨Code.OUT_OF_RANGE, "Read less bytes than requested"⟩⟩, ⟨100, []⟩,
        blankMem, [],
        [{ fs := 1, file := 2, position := 0, buffer := 100, length := -2147483648, ret := 0,
           errno := 0 }]⟩ ∧
    (-2147483648 : Int) ≠ ((2 ^ 31 : Nat) : Int) - bytesDelivered [] := by
  refine ⟨by rfl, by decide⟩

/-! ### `DeleteDir`: when the recursive delete is issued -/

section DeleteDirLemmas

variable {σ : Type} (env : Env) (self : HadoopFileSystem σ)

/-- No native call of `Stat` is an `hdfsDelete`. -/
theorem HadoopFileSystem.Stat_noDelete (fname : String) :
    (self.Stat env fname).CallsSatisfy NativeCall.NoDelete := by
  unfold HadoopFileSystem.Stat
  refine Native.CallsSatisfy.andThen
    (self.Connect_sat env (fun call hb => by cases call <;> trivial) _)
    fun c => Native.CallsSatisfy.ite (Native.CallsSatisfy.ret _) ?_
  refine Native.CallsSatisfy.andThen (self.hdfs_.callGetPathInfo_sat _ _ fun _ => trivial)
    fun r => ?_
  split
  · exact Native.CallsSatisfy.andThen (Native.CallsSatisfy.lift _)
      fun _ => Native.CallsSatisfy.ret _
  · exact Native.CallsSatisfy.andThen (self.hdfs_.callFreeFileInfo_sat _ trivial)
      fun _ => Native.CallsSatisfy.ret _

/-- The end of `DeleteDir`: a refusal without a native call for a positive
entry count, else the recursive delete and the test of its result. -/
theorem HadoopFileSystem.DeleteDirTail_run (dir : String) (fs : Nat) (entries : Int) (w : σ) :
    self.DeleteDirTail env dir fs entries w =
      if 0 < entries then
        .returned ⟨⟨some ⟨Code.FAILED_PRECONDITION, "Cannot delete a non-empty directory."⟩⟩,
          w, []⟩
      else if (self.hdfs_.hdfsDelete w fs (HadoopFileSystem.TranslateName dir) 1).ret ≠ 0 then
        (IOError env.strerror dir
          (self.hdfs_.hdfsDelete w fs (HadoopFileSystem.TranslateName dir) 1).errno).andThen
          fun s => .returned ⟨s,
            (self.hdfs_.hdfsDelete w fs (HadoopFileSystem.TranslateName dir) 1).world,
            [.hdfsDelete fs (HadoopFileSystem.TranslateName dir) 1
              (self.hdfs_.hdfsDelete w fs (HadoopFileSystem.TranslateName dir) 1).ret]⟩
      else
        .returned ⟨Status.OK,
          (self.hdfs_.hdfsDelete w fs (HadoopFileSystem.TranslateName dir) 1).world,
          [.hdfsDelete fs (HadoopFileSystem.TranslateName dir) 1
            (self.hdfs_.hdfsDelete w fs (HadoopFileSystem.TranslateName dir) 1).ret]⟩ := by
  unfold HadoopFileSystem.DeleteDirTail
  by_cases he : 0 < entries
  · simp [he, Native.lift, FailedPrecondition, Status.new, Code.OK, Code.FAILED_PRECONDITION,
      Outcome.andThen]
  · by_cases hd : (self.hdfs_.hdfsDelete w fs (HadoopFileSystem.TranslateName dir) 1).ret = 0
    · simp [he, hd, Native.andThen, Outcome.andThen, LibHDFSFull.callDelete, Native.ret]
    · simp only [he, hd, if_false, Native.andThen, Outcome.andThen, LibHDFSFull.callDelete,
        Native.lift, ne_eq, not_false_eq_true, if_true]
      cases IOError env.strerror dir _ with
      | returned s => simp
      | aborted f => simp

/-- The native calls of the end of `DeleteDir` in a run that returns: none for
a positive entry count, else the recursive delete alone. -/
theorem HadoopFileSystem.DeleteDirTail_calls (dir : String) (fs : Nat) (entries : Int) (w : σ)
    (r : Run σ Status) (h : self.DeleteDirTail env dir fs entries w = .returned r) :
    (0 < entries → r.calls = []) ∧
    (¬ 0 < entries → r.calls = [.hdfsDelete fs (HadoopFileSystem.TranslateName dir) 1
      (self.hdfs_.hdfsDelete w fs (HadoopFileSystem.TranslateName dir) 1).ret]) := by
  rw [HadoopFileSystem.DeleteDirTail_run] at h
  constructor
  · intro he
    rw [if_pos he] at h
    cases h
    rfl
  · intro he
    rw [if_neg he] at h
    split at h
    · obtain ⟨s, _, hs⟩ := (Outcome.andThen_eq_returned _ _ _).mp h
      cases hs
      rfl
    · cases h
      rfl

/-- The shape of `DeleteDir` after a `Connect` that succeeded: the listing, the
release of the array when there is one, the check by `Stat` when the listing
is null with a nonzero `errno`, then the end. -/
theorem HadoopFileSystem.DeleteDir_run (dir : String) (w : σ) (c : Run σ Connected)
    (hc : self.Connect env (StringPiece.ofStd dir) w = .returned c)
    (hok : c.value.status.ok = true) (l : ListReply σ)
    (hl : self.hdfs_.hdfsListDirectory c.world c.value.fs
      (HadoopFileSystem.TranslateName dir) = l) :
    (l.ret.isSome = true →
      self.DeleteDir env dir w =
        (self.DeleteDirTail env dir c.value.fs l.numEntries
          (self.hdfs_.hdfsFreeFileInfo l.world l.numEntries).world).andThen fun r1 =>
          .returned ⟨r1.value, r1.world, c.calls ++
            ([.hdfsListDirectory c.value.fs (HadoopFileSystem.TranslateName dir) false
                l.numEntries, .hdfsFreeFileInfo l.numEntries] ++ r1.calls)⟩) ∧
    (l.ret.isSome = false → l.errno = 0 →
      self.DeleteDir env dir w =
        (self.DeleteDirTail env dir c.value.fs l.numEntries l.world).andThen fun r1 =>
          .returned ⟨r1.value, r1.world, c.calls ++
            ([.hdfsListDirectory c.value.fs (HadoopFileSystem.TranslateName dir) true
                l.numEntries] ++ r1.calls)⟩) ∧
    (l.ret.isSome = false → l.errno ≠ 0 →
      self.DeleteDir env dir w =
        (self.Stat env dir l.world).andThen fun st =>
          if st.value.1.ok = true then
            (self.DeleteDirTail env dir c.value.fs l.numEntries st.world).andThen fun r1 =>
              .returned ⟨r1.value, r1.world, c.calls ++
                ([.hdfsListDirectory c.value.fs (HadoopFileSystem.TranslateName dir) true
                    l.numEntries] ++ (st.calls ++ r1.calls))⟩
          else
            .returned ⟨st.value.1, st.world, c.calls ++
              ([.hdfsListDirectory c.value.fs (HadoopFileSystem.TranslateName dir) true
                  l.numEntries] ++ st.calls)⟩) := by
  subst hl
  refine ⟨?_, ?_, ?_⟩
  · intro hsome
    have hnone : (self.hdfs_.hdfsListDirectory c.world c.value.fs
        (HadoopFileSystem.TranslateName dir)).ret.isNone = false := by
      cases h : (self.hdfs_.hdfsListDirectory c.world c.value.fs
        (HadoopFileSystem.TranslateName dir)).ret with
      | none => rw [h] at hsome; cases hsome
      | some _ => rfl
    simp only [HadoopFileSystem.DeleteDir, Native.andThen, Outcome.andThen, hc, hok,
      LibHDFSFull.callListDirectory, hsome, hnone, LibHDFSFull.callFreeFileInfo,
      not_true_eq_false, if_false, if_true, Bool.false_eq_true, false_and]
    cases self.DeleteDirTail env dir c.value.fs _ _ with
    | returned r1 => simp
    | aborted f => simp
  · intro hsome herr
    have hnone : (self.hdfs_.hdfsListDirectory c.world c.value.fs
        (HadoopFileSystem.TranslateName dir)).ret.isNone = true := by
      cases h : (self.hdfs_.hdfsListDirectory c.world c.value.fs
        (HadoopFileSystem.TranslateName dir)).ret with
      | none => rfl
      | some _ => rw [h] at hsome; cases hsome
    simp only [HadoopFileSystem.DeleteDir, Native.andThen, Outcome.andThen, hc, hok,
      LibHDFSFull.callListDirectory, hsome, hnone, herr, Native.ret,
      not_true_eq_false, if_false, if_true, Bool.false_eq_true, ne_eq, and_false]
    cases self.DeleteDirTail env dir c.value.fs _ _ with
    | returned r1 => simp
    | aborted f => simp
  · intro hsome herr
    have hnone : (self.hdfs_.hdfsListDirectory c.world c.value.fs
        (HadoopFileSystem.TranslateName dir)).ret.isNone = true := by
      cases h : (self.hdfs_.hdfsListDirectory c.world c.value.fs
        (HadoopFileSystem.TranslateName dir)).ret with
      | none => rfl
      | some _ => rw [h] at hsome; cases hsome
    simp only [HadoopFileSystem.DeleteDir, Native.andThen, Outcome.andThen, hc, hok,
      LibHDFSFull.callListDirectory, hsome, hnone, herr, Native.ret,
      not_true_eq_false, if_false, if_true, Bool.false_eq_true, ne_eq, not_false_eq_true,
      and_self]
    cases hst : self.Stat env dir _ with
    | aborted f => simp
    | returned st =>
      by_cases hstok : st.value.1.ok = true
      · simp only [hstok, not_true_eq_false, if_false, if_true]
        cases self.DeleteDirTail env dir c.value.fs _ _ with
        | returned r1 => simp
        | aborted f => simp
      · simp [hstok, Native.ret]

end DeleteDirLemmas

/-- C23: when `DeleteDir` issues the recursive native delete.  Let `c` be what
`Connect` handed back and `l` the reply of the native listing.  In every run
of `DeleteDir` that returns, an `hdfsDelete` of the translated path with the
recursive flag is among the native calls exactly when `Connect` succeeded, the
entry count of the listing is not positive, and the listing was not null, or
`errno` was 0 after it, or the `Stat` that follows succeeded; and every
`hdfsDelete` of the run is that one.  In particular, after a listing that
failed (null with a nonzero `errno`) with an entry count that is not positive,
on a path for which `Stat` succeeds, `DeleteDir` goes on to the recursive
delete whatever `Stat` reported: its outcome is that of the delete, and
neither the directory flag nor the emptiness is looked at. -/
theorem DeleteDir_recursive_delete_iff {σ : Type} (env : Env) (self : HadoopFileSystem σ)
    (dir : String) (w : σ) (c : Run σ Connected) (l : ListReply σ)
    (hc : self.Connect env (StringPiece.ofStd dir) w = .returned c)
    (hl : self.hdfs_.hdfsListDirectory c.world c.value.fs
      (HadoopFileSystem.TranslateName dir) = l) :
    (∀ r, self.DeleteDir env dir w = .returned r →
      ((∃ ret, NativeCall.hdfsDelete c.value.fs (HadoopFileSystem.TranslateName dir) 1 ret
          ∈ r.calls) ↔
        (c.value.status.ok = true ∧ ¬ 0 < l.numEntries ∧
          (l.ret.isSome = true ∨ l.errno = 0 ∨
            ∃ st, self.Stat env dir l.world = .returned st ∧ st.value.1.ok = true))) ∧
      (∀ call ∈ r.calls, ¬ call.NoDelete →
        ∃ ret, call = .hdfsDelete c.value.fs (HadoopFileSystem.TranslateName dir) 1 ret)) ∧
    (c.value.status.ok = true → l.ret.isSome = false → l.errno ≠ 0 → ¬ 0 < l.numEntries →
      ∀ (st : Run σ (Status × Option FileStatistics)) (d : IntReply σ),
        self.Stat env dir l.world = .returned st → st.value.1.ok = true →
        self.hdfs_.hdfsDelete st.world c.value.fs (HadoopFileSystem.TranslateName dir) 1 = d →
        self.DeleteDir env dir w =
          if d.ret ≠ 0 then
            (IOError env.strerror dir d.errno).andThen fun s =>
              .returned ⟨s, d.world, c.calls ++
                ([.hdfsListDirectory c.value.fs (HadoopFileSystem.TranslateName dir) true
                    l.numEntries] ++
                  (st.calls ++
                    [.hdfsDelete c.value.fs (HadoopFileSystem.TranslateName dir) 1 d.ret]))⟩
          else
            .returned ⟨Status.OK, d.world, c.calls ++
              ([.hdfsListDirectory c.value.fs (HadoopFileSystem.TranslateName dir) true
                  l.numEntries] ++
                (st.calls ++
                  [.hdfsDelete c.value.fs (HadoopFileSystem.TranslateName dir) 1 d.ret]))⟩) := by
  have hcalls : ∀ call ∈ c.calls, call.NoDelete :=
    self.Connect_sat env (P := NativeCall.NoDelete)
      (fun call hb => by cases call <;> trivial) _ w c hc
  -- the end of the run, after native calls `pre` none of which is a delete
  have key : ∀ (pre : List NativeCall) (w1 : σ) (r : Run σ Status),
      (∀ call ∈ pre, call.NoDelete) →
      ((self.DeleteDirTail env dir c.value.fs l.numEntries w1).andThen fun r1 =>
        (.returned ⟨r1.value, r1.world, c.calls ++ (pre ++ r1.calls)⟩ :
          Outcome (Run σ Status))) = .returned r →
      ((∃ ret, NativeCall.hdfsDelete c.value.fs (HadoopFileSystem.TranslateName dir) 1 ret
          ∈ r.calls) ↔ ¬ 0 < l.numEntries) ∧
      (∀ call ∈ r.calls, ¬ call.NoDelete →
        ∃ ret, call = .hdfsDelete c.value.fs (HadoopFileSystem.TranslateName dir) 1 ret) := by
    intro pre w1 r hpre hrun
    obtain ⟨r1, hr1, hr⟩ := (Outcome.andThen_eq_returned _ _ _).mp hrun
    cases hr
    have htail := self.DeleteDirTail_calls env dir c.value.fs l.numEntries w1 r1 hr1
    by_cases he : 0 < l.numEntries
    · rw [htail.1 he]
      constructor
      · constructor
        · rintro ⟨ret, hmem⟩
          simp only [List.append_nil, List.mem_append] at hmem
          rcases hmem with hmem | hmem
          · exact (hcalls _ hmem).elim
          · exact (hpre _ hmem).elim
        · intro hne
          exact absurd he hne
      · intro call hmem hnd
        simp only [List.append_nil, List.mem_append] at hmem
        rcases hmem with hmem | hmem
        · exact absurd (hcalls _ hmem) hnd
        · exact absurd (hpre _ hmem) hnd
    · rw [htail.2 he]
      constructor
      · constructor
        · intro _
          exact he
        · intro _
          exact ⟨(self.hdfs_.hdfsDelete w1 c.value.fs (HadoopFileSystem.TranslateName dir) 1).ret,
            List.mem_append_right _ (List.mem_append_right _ (List.mem_singleton.mpr rfl))⟩
      · intro call hmem hnd
        simp only [List.mem_append, List.mem_singleton] at hmem
        rcases hmem with hmem | hmem | hmem
        · exact absurd (hcalls _ hmem) hnd
        · exact absurd (hpre _ hmem) hnd
        · exact ⟨_, hmem⟩
  -- a run that ends before the end of `DeleteDir`, with no delete
  have early : ∀ (calls : List NativeCall), (∀ call ∈ calls, call.NoDelete) →
      (¬ ∃ ret, NativeCall.hdfsDelete c.value.fs (HadoopFileSystem.TranslateName dir) 1 ret
          ∈ calls) ∧
      (∀ call ∈ calls, ¬ call.NoDelete →
        ∃ ret, call = .hdfsDelete c.value.fs (HadoopFileSystem.TranslateName dir) 1 ret) :=
    fun calls h => ⟨fun ⟨_, hmem⟩ => (h _ hmem).elim, fun call hmem hnd => absurd (h _ hmem) hnd⟩
  constructor
  · intro r hr
    by_cases hok : c.value.status.ok = true
    · obtain ⟨hrun1, hrun2, hrun3⟩ := self.DeleteDir_run env dir w c hc hok l hl
      by_cases hsome : l.ret.isSome = true
      · rw [hrun1 hsome] at hr
        obtain ⟨h1, h2⟩ := key _ _ r
          (fun call hmem => by
            simp only [List.mem_cons, List.mem_singleton, List.not_mem_nil, or_false] at hmem
            rcases hmem with rfl | rfl <;> trivial) hr
        refine ⟨h1.trans ?_, h2⟩
        constructor
        · exact fun he => ⟨hok, he, Or.inl hsome⟩
        · exact fun h => h.2.1
      · have hsome2 : l.ret.isSome = false := by simpa using hsome
        by_cases herr : l.errno = 0
        · rw [hrun2 hsome2 herr] at hr
          obtain ⟨h1, h2⟩ := key _ _ r
            (fun call hmem => by
              simp only [List.mem_singleton] at hmem
              subst hmem
              trivial) hr
          refine ⟨h1.trans ?_, h2⟩
          constructor
          · exact fun he => ⟨hok, he, Or.inr (Or.inl herr)⟩
          · exact fun h => h.2.1
        · rw [hrun3 hsome2 herr] at hr
          obtain ⟨st, hst, hr2⟩ := (Outcome.andThen_eq_returned _ _ _).mp hr
          have hstcalls : ∀ call ∈ st.calls, call.NoDelete :=
            self.Stat_noDelete env dir _ st hst
          by_cases hstok : st.value.1.ok = true
          · rw [if_pos hstok] at hr2
            have hr3 : ((self.DeleteDirTail env dir c.value.fs l.numEntries st.world).andThen
                fun r1 => (.returned ⟨r1.value, r1.world, c.calls ++
                  (([NativeCall.hdfsListDirectory c.value.fs
                    (HadoopFileSystem.TranslateName dir) true l.numEntries] ++ st.calls) ++
                    r1.calls)⟩ : Outcome (Run σ Status))) = .returned r := hr2
            obtain ⟨h1, h2⟩ := key _ _ r
              (fun call hmem => by
                simp only [List.mem_append, List.mem_singleton] at hmem
                rcases hmem with rfl | hmem
                · trivial
                · exact hstcalls _ hmem) hr3
            refine ⟨h1.trans ?_, h2⟩
            constructor
            · exact fun he => ⟨hok, he, Or.inr (Or.inr ⟨st, hst, hstok⟩)⟩
            · exact fun h => h.2.1
          · rw [if_neg hstok] at hr2
            cases hr2
            obtain ⟨h1, h2⟩ := early (c.calls ++
              ([NativeCall.hdfsListDirectory c.value.fs (HadoopFileSystem.TranslateName dir) true
                l.numEntries] ++ st.calls))
              (fun call hmem => by
                simp only [List.mem_append, List.mem_singleton] at hmem
                rcases hmem with hmem | rfl | hmem
                · exact hcalls _ hmem
                · trivial
                · exact hstcalls _ hmem)
            refine ⟨⟨fun h => absurd h h1, ?_⟩, h2⟩
            rintro ⟨_, _, h | h | ⟨st1, hst1, hst1ok⟩⟩
            · exact absurd h hsome
            · exact absurd h herr
            · rw [hst] at hst1
              cases hst1
              exact absurd hst1ok hstok
    · have hrun : self.DeleteDir env dir w = .returned ⟨c.value.status, c.world, c.calls⟩ := by
        simp [HadoopFileSystem.DeleteDir, Native.andThen, Outcome.andThen, hc, hok, Native.ret]
      rw [hrun] at hr
      cases hr
      obtain ⟨h1, h2⟩ := early c.calls hcalls
      exact ⟨⟨fun h => absurd h h1, fun h => absurd h.1 hok⟩, h2⟩
  · intro hok hsome herr he st d hst hstok hd
    rw [(self.DeleteDir_run env dir w c hc hok l hl).2.2 hsome herr, hst]
    simp only [Outcome.andThen, hstok, if_true]
    rw [HadoopFileSystem.DeleteDirTail_run, if_neg he, hd]
    by_cases hd0 : d.ret = 0
    · simp [hd0]
    · simp only [hd0, ne_eq, not_false_eq_true, if_true]
      cases IOError env.strerror dir d.errno with
      | returned s => simp [Outcome.andThen]
      | aborted f => simp [Outcome.andThen]

/-- C23, at a concrete input: over the scripted table the listing of
"hdfs://nn1/f" fails with `EAGAIN`, `Stat` finds a plain file of three bytes
there, and `DeleteDir` deletes it recursively and returns OK. -/
theorem DeleteDir_recursive_delete_iff_witness :
    scriptFS.DeleteDir plainEnv "hdfs://nn1/f"
        (connectOK ++ ([⟨0, EAGAIN, []⟩] ++ (connectOK ++
          [⟨1, 0, [⟨kObjectKindFile, "hdfs://nn1/f", 0, 3⟩]⟩, ⟨0, 0, []⟩, ⟨0, 0, []⟩]))) =
      .returned ⟨Status.OK, [], connectCalls (some "nn1") ++
        ([.hdfsListDirectory 9 "/f" true 0] ++
          ((connectCalls (some "nn1") ++
            [.hdfsGetPathInfo 9 "/f" false, .hdfsFreeFileInfo 1]) ++
            [.hdfsDelete 9 "/f" 1 0]))⟩ := by
  have h := (DeleteDir_recursive_delete_iff plainEnv scriptFS "hdfs://nn1/f"
    (connectOK ++ ([⟨0, EAGAIN, []⟩] ++ (connectOK ++
      [⟨1, 0, [⟨kObjectKindFile, "hdfs://nn1/f", 0, 3⟩]⟩, ⟨0, 0, []⟩, ⟨0, 0, []⟩])))
    ⟨⟨Status.OK, 9⟩, [⟨0, EAGAIN, []⟩] ++ (connectOK ++
      [⟨1, 0, [⟨kObjectKindFile, "hdfs://nn1/f", 0, 3⟩]⟩, ⟨0, 0, []⟩, ⟨0, 0, []⟩]),
      connectCalls (some "nn1")⟩
    ⟨none, 0, EAGAIN, connectOK ++
      [⟨1, 0, [⟨kObjectKindFile, "hdfs://nn1/f", 0, 3⟩]⟩, ⟨0, 0, []⟩, ⟨0, 0, []⟩]⟩
    (by rfl) (by rfl)).2 (by rfl) (by rfl) (by decide) (by decide)
    ⟨(Status.OK, some ⟨3, 0, false⟩), [⟨0, 0, []⟩],
      connectCalls (some "nn1") ++
        [NativeCall.hdfsGetPathInfo 9 "/f" false, NativeCall.hdfsFreeFileInfo 1]⟩
    ⟨0, 0, []⟩ (by rfl) (by rfl) (by rfl)
  exact h

/-! ### The status of a failed load -/

/-- What `IOError` builds when it is handed `Code::NOT_FOUND`, the integer 5,
as the error number: the kind of `EIO`. -/
theorem IOError_NOT_FOUND (strerror : Int → String) (context : String) :
    IOError strerror context Code.NOT_FOUND =
      .returned ⟨some ⟨Code.UNKNOWN, context ++ "; " ++ strerror 5⟩⟩ := by
  have h : ErrnoToCode Code.NOT_FOUND = Code.UNKNOWN := by decide
  rw [IOError_of_ne_zero strerror context Code.NOT_FOUND (by decide), h]
  rfl

/-- What `IOError` builds when it is handed `Code::FAILED_PRECONDITION`, the
integer 9, as the error number: the kind of `EBADF`. -/
theorem IOError_FAILED_PRECONDITION (strerror : Int → String) (context : String) :
    IOError strerror context Code.FAILED_PRECONDITION =
      .returned ⟨some ⟨Code.FAILED_PRECONDITION, context⟩⟩ := by
  have h : ErrnoToCode Code.FAILED_PRECONDITION = Code.FAILED_PRECONDITION := by decide
  rw [IOError_of_ne_zero strerror context Code.FAILED_PRECONDITION (by decide), h]
  rfl

/-- Binding a list of entry points of which the first `found` are there and
the next is missing: the status is that of the missing one. -/
theorem LibHDFS.BindAll_first_missing (strerror : Int → String) (dl : DynamicLoader)
    (handle : Nat) (found : List String) (function : String) (rest : List String)
    (text : String) (hfound : ∀ g ∈ found, ∃ symbol, dl.dlsym handle g = .ok symbol)
    (hmissing : dl.dlsym handle function = .error text) :
    LibHDFS.BindAll strerror dl handle (found ++ function :: rest) =
      .returned ⟨some ⟨Code.UNKNOWN, text ++ "; " ++ strerror 5⟩⟩ := by
  induction found with
  | nil =>
    simp [LibHDFS.BindAll, LibHDFS.BindFunc, LibHDFS.GetSymbolFromLibrary, hmissing,
      IOError_NOT_FOUND, Outcome.andThen, Status.ok]
  | cons g found ih =>
    obtain ⟨symbol, hg⟩ := hfound g (List.mem_cons_self _ _)
    have := ih fun g1 hg1 => hfound g1 (List.mem_cons_of_mem _ hg1)
    simp [LibHDFS.BindAll, LibHDFS.BindFunc, LibHDFS.GetSymbolFromLibrary, hg,
      Outcome.andThen, Status.ok, Status.OK, this]

/-- Binding a list of entry points that are all there gives OK. -/
theorem LibHDFS.BindAll_found (strerror : Int → String) (dl : DynamicLoader)
    (handle : Nat) (found : List String)
    (hfound : ∀ g ∈ found, ∃ symbol, dl.dlsym handle g = .ok symbol) :
    LibHDFS.BindAll strerror dl handle found = .returned Status.OK := by
  induction found with
  | nil => rfl
  | cons g found ih =>
    obtain ⟨symbol, hg⟩ := hfound g (List.mem_cons_self _ _)
    have := ih fun g1 hg1 => hfound g1 (List.mem_cons_of_mem _ hg1)
    simp [LibHDFS.BindAll, LibHDFS.BindFunc, LibHDFS.GetSymbolFromLibrary, hg,
      Outcome.andThen, Status.ok, Status.OK, this]

/-- C24: the kind of the cached status of a failed load.  The loading code
hands `IOError` a value of `Code` where it takes an OS error number, so the
kind recorded is `ErrnoToCode` of the integer value of the code: with
`NOT_FOUND = 5 = EIO` that is `UNKNOWN`, with `FAILED_PRECONDITION = 9 =
EBADF` it is `FAILED_PRECONDITION`.  Hence, for every environment and dynamic
loader: when `HADOOP_HDFS_HOME` is not set, `status_` has the kind
`FAILED_PRECONDITION` and the message "Environment variable HADOOP_HDFS_HOME
not set"; when the library under that root fails to open, or opens and the
first entry point that is missing is reached, `status_` has the kind `UNKNOWN`
(not `NOT_FOUND`) and the message is the text of `dlerror()`, "; " and the OS
description of the error 5; when the library opens and every entry point is
found, `status_` is OK. -/
theorem LoadAndBind_status (env : Env) (dl : DynamicLoader) :
    ErrnoToCode Code.NOT_FOUND = Code.UNKNOWN ∧
    ErrnoToCode Code.FAILED_PRECONDITION = Code.FAILED_PRECONDITION ∧
    Code.NOT_FOUND = EIO ∧ Code.FAILED_PRECONDITION = EBADF ∧
    (env.getenv "HADOOP_HDFS_HOME" = none →
      LibHDFS.LoadAndBind env dl = .returned ⟨some ⟨Code.FAILED_PRECONDITION,
        "Environment variable HADOOP_HDFS_HOME not set"⟩⟩) ∧
    (∀ hdfs_home text, env.getenv "HADOOP_HDFS_HOME" = some hdfs_home →
      dl.dlopen (hdfs_home ++ "/lib/native/libhdfs.so") = .error text →
      LibHDFS.LoadAndBind env dl =
        .returned ⟨some ⟨Code.UNKNOWN, text ++ "; " ++ env.strerror 5⟩⟩) ∧
    (∀ hdfs_home handle found function rest text,
      env.getenv "HADOOP_HDFS_HOME" = some hdfs_home →
      dl.dlopen (hdfs_home ++ "/lib/native/libhdfs.so") = .ok handle →
      boundFunctions = found ++ function :: rest →
      (∀ g ∈ found, ∃ symbol, dl.dlsym handle g = .ok symbol) →
      dl.dlsym handle function = .error text →
      LibHDFS.LoadAndBind env dl =
        .returned ⟨some ⟨Code.UNKNOWN, text ++ "; " ++ env.strerror 5⟩⟩) ∧
    (∀ hdfs_home handle, env.getenv "HADOOP_HDFS_HOME" = some hdfs_home →
      dl.dlopen (hdfs_home ++ "/lib/native/libhdfs.so") = .ok handle →
      (∀ g ∈ boundFunctions, ∃ symbol, dl.dlsym handle g = .ok symbol) →
      LibHDFS.LoadAndBind env dl = .returned Status.OK) := by
  refine ⟨by decide, by decide, rfl, rfl, ?_, ?_, ?_, ?_⟩
  · intro hnone
    simp only [LibHDFS.LoadAndBind, hnone]
    exact IOError_FAILED_PRECONDITION _ _
  · intro hdfs_home text hhome hopen
    simp [LibHDFS.LoadAndBind, hhome, LibHDFS.TryLoadAndBind, LibHDFS.LoadLibrary, hopen,
      IOError_NOT_FOUND, Outcome.andThen, Status.ok]
  · intro hdfs_home handle found function rest text hhome hopen hsplit hfound hmissing
    simp only [LibHDFS.LoadAndBind, hhome, LibHDFS.TryLoadAndBind, LibHDFS.LoadLibrary, hopen,
      Outcome.andThen, hsplit]
    rw [LibHDFS.BindAll_first_missing env.strerror dl handle found function rest text hfound
      hmissing]
    simp [Status.ok, Status.OK]
  · intro hdfs_home handle hhome hopen hfound
    simp only [LibHDFS.LoadAndBind, hhome, LibHDFS.TryLoadAndBind, LibHDFS.LoadLibrary, hopen,
      Outcome.andThen]
    rw [LibHDFS.BindAll_found env.strerror dl handle boundFunctions hfound]
    simp [Status.ok, Status.OK]

/-- C24, at concrete inputs: a library that cannot be opened, a library
without `hdfsHSync`, and an environment without the installation root. -/
theorem LoadAndBind_status_witness :
    LibHDFS.LoadAndBind hadoopEnv (sampleLoader "/usr/lib/libhdfs.so" []) =
      .returned ⟨some ⟨Code.UNKNOWN, "/opt/hadoop/lib/native/libhdfs.so: cannot open shared " ++
        "object file: No such file or directory; errno 5"⟩⟩ ∧
    LibHDFS.LoadAndBind hadoopEnv
        (sampleLoader "/opt/hadoop/lib/native/libhdfs.so" ["hdfsHSync", "hdfsMove"]) =
      .returned ⟨some ⟨Code.UNKNOWN, "undefined symbol: hdfsHSync; errno 5"⟩⟩ ∧
    LibHDFS.LoadAndBind plainEnv (sampleLoader "/opt/hadoop/lib/native/libhdfs.so" []) =
      .returned failedFS.hdfs_.status_ := by
  refine ⟨?_, ?_, ?_⟩
  · exact (LoadAndBind_status hadoopEnv (sampleLoader "/usr/lib/libhdfs.so" [])).2.2.2.2.2.1
      "/opt/hadoop" _ (by rfl) (by rfl)
  · exact (LoadAndBind_status hadoopEnv
      (sampleLoader "/opt/hadoop/lib/native/libhdfs.so" ["hdfsHSync", "hdfsMove"])).2.2.2.2.2.2.1
      "/opt/hadoop" 1
      ["hdfsBuilderConnect", "hdfsNewBuilder", "hdfsBuilderSetNameNode",
        "hdfsBuilderSetKerbTicketCachePath", "hdfsCloseFile", "hdfsPread", "hdfsWrite",
        "hdfsFlush"]
      "hdfsHSync" _ _ (by rfl) (by rfl) (by rfl)
      (by
        intro g hg
        simp only [List.mem_cons, List.mem_singleton, List.not_mem_nil, or_false] at hg
        rcases hg with rfl | rfl | rfl | rfl | rfl | rfl | rfl | rfl <;> exact ⟨2, by rfl⟩)
      (by rfl)
  · exact (LoadAndBind_status plainEnv
      (sampleLoader "/opt/hadoop/lib/native/libhdfs.so" [])).2.2.2.2.1 (by rfl)

/-! ### `Status::ToString` is injective -/

/-- The value of a decimal digit character. -/
theorem digitChar_value (k : Nat) (hk : k < 10) :
    (Nat.digitChar k).toNat - 48 = k ∧ (Nat.digitChar k).isDigit = true := by
  interval_cases k <;> exact ⟨by decide, by decide⟩

/-- What `Nat.toDigitsCore 10` puts in front of its accumulator: digits only,
at least one, that read back as the number. -/
theorem toDigitsCore_spec (fuel : Nat) :
    ∀ (n : Nat) (ds : List Char), n < fuel →
      ∃ D : List Char, Nat.toDigitsCore 10 fuel n ds = D ++ ds ∧ D ≠ [] ∧
        (∀ c ∈ D, c.isDigit = true) ∧
        ∀ a : Nat, D.foldl (fun a c => 10 * a + (c.toNat - 48)) a = a * 10 ^ D.length + n := by
  induction fuel with
  | zero => intro n ds h; omega
  | succ fuel ih =>
    intro n ds hn
    have hd := digitChar_value (n % 10) (Nat.mod_lt _ (by norm_num))
    by_cases h0 : n / 10 = 0
    · refine ⟨[Nat.digitChar (n % 10)], ?_, by simp, ?_, ?_⟩
      · simp [Nat.toDigitsCore, h0]
      · intro c hc
        simp only [List.mem_singleton] at hc
        rw [hc]
        exact hd.2
      · intro a
        simp only [List.foldl_cons, List.foldl_nil, List.length_singleton, hd.1]
        omega
    · obtain ⟨D, hD, _, hdig, hval⟩ := ih (n / 10) (Nat.digitChar (n % 10) :: ds) (by omega)
      refine ⟨D ++ [Nat.digitChar (n % 10)], ?_, by simp, ?_, ?_⟩
      · simp [Nat.toDigitsCore, h0, hD]
      · intro c hc
        simp only [List.mem_append, List.mem_singleton] at hc
        rcases hc with hc | hc
        · exact hdig c hc
        · rw [hc]
          exact hd.2
      · intro a
        simp only [List.foldl_append, List.foldl_cons, List.foldl_nil, hval, hd.1,
          List.length_append, List.length_singleton, pow_succ]
        have := Nat.div_add_mod n 10
        nlinarith [this]

/-- The characters of `Nat.repr`: digits only, at least one, that read back
as the number. -/
theorem Nat.repr_spec (n : Nat) :
    (Nat.repr n).data ≠ [] ∧ (∀ c ∈ (Nat.repr n).data, c.isDigit = true) ∧
    (Nat.repr n).data.foldl (fun a c => 10 * a + (c.toNat - 48)) 0 = n := by
  obtain ⟨D, hD, hne, hdig, hval⟩ := toDigitsCore_spec (n + 1) n [] (by omega)
  have hdata : (Nat.repr n).data = D := by
    simp only [Nat.repr, Nat.toDigits, List.asString, hD, List.append_nil]
  rw [hdata]
  exact ⟨hne, hdig, by simpa using hval 0⟩

theorem Nat.repr_inj {a b : Nat} (h : Nat.repr a = Nat.repr b) : a = b := by
  have ha := (Nat.repr_spec a).2.2
  have hb := (Nat.repr_spec b).2.2
  rw [h] at ha
  exact ha.symm.trans hb

/-- The characters of the decimal form of an integer: digits and '-'. -/
theorem Int.toString_chars (c : Int) :
    ∀ ch ∈ (toString c).data, ch.isDigit = true ∨ ch = '-' := by
  cases c with
  | ofNat m =>
    intro ch hch
    exact Or.inl ((Nat.repr_spec m).2.1 ch hch)
  | negSucc m =>
    intro ch hch
    have hdata : (toString (Int.negSucc m)).data = '-' :: (Nat.repr (m + 1)).data := rfl
    rw [hdata, List.mem_cons] at hch
    rcases hch with hch | hch
    · exact Or.inr hch
    · exact Or.inl ((Nat.repr_spec (m + 1)).2.1 ch hch)

theorem Int.toString_inj {a b : Int} (h : toString a = toString b) : a = b := by
  have hdata := congrArg String.data h
  cases a with
  | ofNat m =>
    cases b with
    | ofNat k =>
      have : Nat.repr m = Nat.repr k := h
      rw [Nat.repr_inj this]
    | negSucc k =>
      exfalso
      have h1 : (toString (Int.ofNat m)).data = (Nat.repr m).data := rfl
      have h2 : (toString (Int.negSucc k)).data = '-' :: (Nat.repr (k + 1)).data := rfl
      rw [h1, h2] at hdata
      have hmem : '-' ∈ (Nat.repr m).data := by rw [hdata]; exact List.mem_cons_self _ _
      have := (Nat.repr_spec m).2.1 _ hmem
      exact absurd this (by decide)
  | negSucc m =>
    cases b with
    | ofNat k =>
      exfalso
      have h1 : (toString (Int.ofNat k)).data = (Nat.repr k).data := rfl
      have h2 : (toString (Int.negSucc m)).data = '-' :: (Nat.repr (m + 1)).data := rfl
      rw [h1, h2] at hdata
      have hmem : '-' ∈ (Nat.repr k).data := by rw [← hdata]; exact List.mem_cons_self _ _
      have := (Nat.repr_spec k).2.1 _ hmem
      exact absurd this (by decide)
    | negSucc k =>
      have h1 : (toString (Int.negSucc m)).data = '-' :: (Nat.repr (m + 1)).data := rfl
      have h2 : (toString (Int.negSucc k)).data = '-' :: (Nat.repr (k + 1)).data := rfl
      rw [h1, h2] at hdata
      have hr : Nat.repr (m + 1) = Nat.repr (k + 1) :=
        String.ext (List.cons.inj hdata).2
      have := Nat.repr_inj hr
      have hmk : m = k := by omega
      rw [hmk]

theorem typeName_kindNames : ∀ p ∈ kindNames, Status.typeName p.1 = p.2 := by decide

theorem kindNames_chars : ∀ p ∈ kindNames, ':' ∉ p.2.data ∧ '(' ∉ p.2.data := by decide

theorem kindNames_names_inj :
    ∀ p ∈ kindNames, ∀ q ∈ kindNames, p.2 = q.2 → p.1 = q.1 := by decide

/-- The two shapes of the name of a code that is an `int`: a name of the
table, or "Unknown code(N)". -/
theorem Status.typeName_cases (c : Code) (h1 : -2 ^ 31 ≤ c) (h2 : c < 2 ^ 31) :
    (∃ p ∈ kindNames, p.1 = c ∧ Status.typeName c = p.2) ∨
    (c ∉ kindNames.map Prod.fst ∧
      (Status.typeName c).data = "Unknown code(".data ++ (toString c).data ++ ")".data) := by
  by_cases hc : c ∈ kindNames.map Prod.fst
  · left
    obtain ⟨p, hp, rfl⟩ := List.mem_map.mp hc
    exact ⟨p, hp, rfl, typeName_kindNames p hp⟩
  · right
    refine ⟨hc, ?_⟩
    rw [Status.typeName_of_unnamed c h1 h2 hc]
    simp only [String.data_append]

theorem Status.typeName_no_colon (c : Code) (h1 : -2 ^ 31 ≤ c) (h2 : c < 2 ^ 31) :
    ':' ∉ (Status.typeName c).data := by
  rcases Status.typeName_cases c h1 h2 with ⟨p, hp, _, hname⟩ | ⟨_, hdata⟩
  · rw [hname]
    exact (kindNames_chars p hp).1
  · rw [hdata]
    simp only [List.mem_append, not_or]
    refine ⟨⟨by decide, ?_⟩, by decide⟩
    intro hmem
    rcases Int.toString_chars c _ hmem with h | h
    · exact absurd h (by decide)
    · exact absurd h (by decide)

theorem Status.typeName_inj (c1 c2 : Code) (h1 : -2 ^ 31 ≤ c1 ∧ c1 < 2 ^ 31)
    (h2 : -2 ^ 31 ≤ c2 ∧ c2 < 2 ^ 31) (h : Status.typeName c1 = Status.typeName c2) :
    c1 = c2 := by
  have hparen : ∀ (c : Code) (s : String),
      s.data = "Unknown code(".data ++ (toString c).data ++ ")".data → '(' ∈ s.data := by
    intro c s hs
    rw [hs]
    simp only [List.mem_append]
    exact Or.inl (Or.inl (by decide))
  rcases Status.typeName_cases c1 h1.1 h1.2 with ⟨p, hp, hpc, hname1⟩ | ⟨_, hdata1⟩
  · rcases Status.typeName_cases c2 h2.1 h2.2 with ⟨q, hq, hqc, hname2⟩ | ⟨_, hdata2⟩
    · rw [← hpc, ← hqc]
      exact kindNames_names_inj p hp q hq (by rw [← hname1, ← hname2, h])
    · exfalso
      have := hparen c2 _ hdata2
      rw [← h, hname1] at this
      exact (kindNames_chars p hp).2 this
  · rcases Status.typeName_cases c2 h2.1 h2.2 with ⟨q, hq, hqc, hname2⟩ | ⟨_, hdata2⟩
    · exfalso
      have := hparen c1 _ hdata1
      rw [h, hname2] at this
      exact (kindNames_chars q hq).2 this
    · rw [h, hdata2] at hdata1
      have := List.append_cancel_left (List.append_cancel_right hdata1)
      exact (Int.toString_inj (String.ext this)).symm

/-- Two texts that agree and have their first `c` at the ends of `l1` and
`l2` agree before and after it. -/
theorem List.append_cons_inj_of_not_mem {c : Char} :
    ∀ (l1 l2 r1 r2 : List Char), c ∉ l1 → c ∉ l2 → l1 ++ c :: r1 = l2 ++ c :: r2 →
      l1 = l2 ∧ r1 = r2
  | [], [], r1, r2, _, _, h => ⟨rfl, (List.cons.inj h).2⟩
  | [], b :: l2, r1, r2, _, h2, h => by
    simp only [List.nil_append, List.cons_append, List.cons.injEq] at h
    exact absurd (h.1 ▸ List.mem_cons_self _ _) h2
  | a :: l1, [], r1, r2, h1, _, h => by
    simp only [List.nil_append, List.cons_append, List.cons.injEq] at h
    exact absurd (h.1 ▸ List.mem_cons_self _ _) h1
  | a :: l1, b :: l2, r1, r2, h1, h2, h => by
    simp only [List.cons_append, List.cons.injEq] at h
    obtain ⟨hl, hr⟩ := List.append_cons_inj_of_not_mem l1 l2 r1 r2
      (fun hm => h1 (List.mem_cons_of_mem _ hm)) (fun hm => h2 (List.mem_cons_of_mem _ hm)) h.2
    exact ⟨by rw [h.1, hl], hr⟩

theorem Status.ToString_data (c : Code) (m : String) :
    (⟨some ⟨c, m⟩⟩ : Status).ToString.data =
      (Status.typeName c).data ++ ':' :: ' ' :: m.data := by
  simp [Status.ToString, String.data_append]

/-- C25: `Status::ToString` is injective.  For every two Status values, OK or
not, whose codes are values of `int` (named kinds or not) and whose messages
are any strings, equal renderings imply that the two values are equal, so
that their codes are equal and their messages are equal; and a Status that
renders as "OK" is the OK value, whatever its code. -/
theorem ToString_injective :
    (∀ s1 s2 : Status, -2 ^ 31 ≤ s1.code → s1.code < 2 ^ 31 → -2 ^ 31 ≤ s2.code →
      s2.code < 2 ^ 31 → s1.ToString = s2.ToString →
      s1 = s2 ∧ s1.code = s2.code ∧ s1.error_message = s2.error_message) ∧
    (∀ s : Status, s.ToString = "OK" → s = Status.OK) := by
  have hok : ∀ (c : Code) (m : String), (⟨some ⟨c, m⟩⟩ : Status).ToString ≠ "OK" := by
    intro c m h
    have hdata := congrArg String.data h
    rw [Status.ToString_data] at hdata
    have hmem : ':' ∈ "OK".data := by
      rw [← hdata]
      exact List.mem_append_right _ (List.mem_cons_self _ _)
    exact absurd hmem (by decide)
  constructor
  · intro s1 s2 h1 h1' h2 h2' h
    have heq : s1 = s2 := by
      obtain ⟨st1⟩ := s1
      obtain ⟨st2⟩ := s2
      cases st1 with
      | none =>
        cases st2 with
        | none => rfl
        | some t2 => exact absurd h.symm (hok t2.code t2.msg)
      | some t1 =>
        cases st2 with
        | none => exact absurd h (hok t1.code t1.msg)
        | some t2 =>
          obtain ⟨c1, m1⟩ := t1
          obtain ⟨c2, m2⟩ := t2
          have hdata := congrArg String.data h
          rw [Status.ToString_data, Status.ToString_data] at hdata
          obtain ⟨hname, hmsg⟩ := List.append_cons_inj_of_not_mem _ _ _ _
            (Status.typeName_no_colon c1 h1 h1') (Status.typeName_no_colon c2 h2 h2') hdata
          have hc : c1 = c2 :=
            Status.typeName_inj c1 c2 ⟨h1, h1'⟩ ⟨h2, h2'⟩ (String.ext hname)
          have hm : m1 = m2 := String.ext (List.cons.inj hmsg).2
          rw [hc, hm]
    exact ⟨heq, by rw [heq], by rw [heq]⟩
  · intro s h
    obtain ⟨st⟩ := s
    cases st with
    | none => rfl
    | some t => exact absurd h (hok t.code t.msg)

/-- C25, at concrete inputs: two statuses of a code outside the named kinds
with one rendering are one status; "Not found: x" and "Unknown code(5): x"
differ. -/
theorem ToString_injective_witness :
    ((⟨some ⟨17, "x"⟩⟩ : Status) = ⟨some ⟨17, "x"⟩⟩ ∧
      (⟨some ⟨17, "x"⟩⟩ : Status).code = (⟨some ⟨17, "x"⟩⟩ : Status).code ∧
      (⟨some ⟨17, "x"⟩⟩ : Status).error_message = (⟨some ⟨17, "x"⟩⟩ : Status).error_message) ∧
    (⟨some ⟨Code.NOT_FOUND, "x"⟩⟩ : Status).ToString = "Not found: x" :=
  ⟨ToString_injective.1 ⟨some ⟨17, "x"⟩⟩ ⟨some ⟨17, "x"⟩⟩ (by decide) (by decide) (by decide)
    (by decide) rfl, by decide⟩

/-! ### `DeleteDir`: the refusal -/

/-- C16 (amended): `DeleteDir` refuses a directory whose native listing counts
at least one entry.  For every directory on which `Connect` succeeds and for
which the listing reports a positive entry count, no run of `DeleteDir` that
returns has an `hdfsDelete` among its native calls; when the listing is an
array, or is null with `errno` at 0, `DeleteDir` returns FAILED_PRECONDITION
with the message of the source after the listing (and the release of the
array); when the listing is null with a nonzero `errno`, `Stat` is run first
and `DeleteDir` returns FAILED_PRECONDITION if `Stat` succeeds and the status
of `Stat` if it does not.  The refusal rests on the count of the listing and
on nothing else: a directory that holds entries and whose listing fails is
not refused. -/
theorem DeleteDir_refuses_counted_entries {σ : Type} (env : Env) (self : HadoopFileSystem σ)
    (dir : String) (w : σ) (c : Run σ Connected) (l : ListReply σ)
    (hc : self.Connect env (StringPiece.ofStd dir) w = .returned c)
    (hok : c.value.status.ok = true)
    (hl : self.hdfs_.hdfsListDirectory c.world c.value.fs
      (HadoopFileSystem.TranslateName dir) = l)
    (hentries : 0 < l.numEntries) :
    (∀ r, self.DeleteDir env dir w = .returned r → ∀ call ∈ r.calls, call.NoDelete) ∧
    (l.ret.isSome = true →
      self.DeleteDir env dir w = .returned
        ⟨⟨some ⟨Code.FAILED_PRECONDITION, "Cannot delete a non-empty directory."⟩⟩,
          (self.hdfs_.hdfsFreeFileInfo l.world l.numEntries).world,
          c.calls ++
            [.hdfsListDirectory c.value.fs (HadoopFileSystem.TranslateName dir) false
                l.numEntries, .hdfsFreeFileInfo l.numEntries]⟩) ∧
    (l.ret.isSome = false → l.errno = 0 →
      self.DeleteDir env dir w = .returned
        ⟨⟨some ⟨Code.FAILED_PRECONDITION, "Cannot delete a non-empty directory."⟩⟩,
          l.world,
          c.calls ++
            [.hdfsListDirectory c.value.fs (HadoopFileSystem.TranslateName dir) true
                l.numEntries]⟩) ∧
    (l.ret.isSome = false → l.errno ≠ 0 →
      ∀ st, self.Stat env dir l.world = .returned st →
        self.DeleteDir env dir w = .returned
          ⟨if st.value.1.ok = true then
              ⟨some ⟨Code.FAILED_PRECONDITION, "Cannot delete a non-empty directory."⟩⟩
            else st.value.1,
            st.world,
            c.calls ++
              ([.hdfsListDirectory c.value.fs (HadoopFileSystem.TranslateName dir) true
                  l.numEntries] ++ st.calls)⟩) := by
  have hcalls : ∀ call ∈ c.calls, call.NoDelete :=
    self.Connect_sat env (P := NativeCall.NoDelete)
      (fun call hb => by cases call <;> trivial) _ w c hc
  obtain ⟨hrun1, hrun2, hrun3⟩ := self.DeleteDir_run env dir w c hc hok l hl
  have htail : ∀ w1, self.DeleteDirTail env dir c.value.fs l.numEntries w1 = .returned
      ⟨⟨some ⟨Code.FAILED_PRECONDITION, "Cannot delete a non-empty directory."⟩⟩, w1, []⟩ := by
    intro w1
    rw [HadoopFileSystem.DeleteDirTail_run, if_pos hentries]
  have h1 : l.ret.isSome = true →
      self.DeleteDir env dir w = .returned
        ⟨⟨some ⟨Code.FAILED_PRECONDITION, "Cannot delete a non-empty directory."⟩⟩,
          (self.hdfs_.hdfsFreeFileInfo l.world l.numEntries).world,
          c.calls ++
            [.hdfsListDirectory c.value.fs (HadoopFileSystem.TranslateName dir) false
                l.numEntries, .hdfsFreeFileInfo l.numEntries]⟩ := by
    intro hsome
    rw [hrun1 hsome, htail]
    simp [Outcome.andThen]
  have h2 : l.ret.isSome = false → l.errno = 0 →
      self.DeleteDir env dir w = .returned
        ⟨⟨some ⟨Code.FAILED_PRECONDITION, "Cannot delete a non-empty directory."⟩⟩,
          l.world,
          c.calls ++
            [.hdfsListDirectory c.value.fs (HadoopFileSystem.TranslateName dir) true
                l.numEntries]⟩ := by
    intro hsome herr
    rw [hrun2 hsome herr, htail]
    simp [Outcome.andThen]
  have h3 : l.ret.isSome = false → l.errno ≠ 0 →
      ∀ st, self.Stat env dir l.world = .returned st →
        self.DeleteDir env dir w = .returned
          ⟨if st.value.1.ok = true then
              ⟨some ⟨Code.FAILED_PRECONDITION, "Cannot delete a non-empty directory."⟩⟩
            else st.value.1,
            st.world,
            c.calls ++
              ([.hdfsListDirectory c.value.fs (HadoopFileSystem.TranslateName dir) true
                  l.numEntries] ++ st.calls)⟩ := by
    intro hsome herr st hst
    rw [hrun3 hsome herr, hst]
    by_cases hstok : st.value.1.ok = true
    · simp [Outcome.andThen, hstok, htail]
    · simp [Outcome.andThen, hstok]
  refine ⟨?_, h1, h2, h3⟩
  intro r hr call hmem
  by_cases hsome : l.ret.isSome = true
  · rw [h1 hsome] at hr
    cases hr
    simp only [List.mem_append, List.mem_cons, List.mem_singleton, List.not_mem_nil,
      or_false] at hmem
    rcases hmem with h | h | h
    · exact hcalls call h
    · subst h; trivial
    · subst h; trivial
  · have hsome2 : l.ret.isSome = false := by simpa using hsome
    by_cases herr : l.errno = 0
    · rw [h2 hsome2 herr] at hr
      cases hr
      simp only [List.mem_append, List.mem_singleton] at hmem
      rcases hmem with h | h
      · exact hcalls call h
      · subst h; trivial
    · cases hst : self.Stat env dir l.world with
      | aborted f =>
        rw [hrun3 hsome2 herr, hst] at hr
        cases hr
      | returned st =>
        rw [h3 hsome2 herr st hst] at hr
        cases hr
        simp only [List.mem_append, List.mem_singleton] at hmem
        rcases hmem with h | h | h
        · exact hcalls call h
        · subst h; trivial
        · exact self.Stat_noDelete env dir _ st hst call h

/-- C16, at a concrete input: the scripted table connects, lists one entry for
"hdfs://nn1/d" and is asked to release it; `DeleteDir` refuses. -/
theorem DeleteDir_refuses_counted_entries_witness :
    scriptFS.DeleteDir plainEnv "hdfs://nn1/d" (connectOK ++ [dirInfo, ⟨0, 0, []⟩]) = .returned
      ⟨⟨some ⟨Code.FAILED_PRECONDITION, "Cannot delete a non-empty directory."⟩⟩, [],
        connectCalls (some "nn1") ++
          [.hdfsListDirectory 9 "/d" false 1, .hdfsFreeFileInfo 1]⟩ := by
  have h := (DeleteDir_refuses_counted_entries plainEnv scriptFS "hdfs://nn1/d"
    (connectOK ++ [dirInfo, ⟨0, 0, []⟩])
    ⟨⟨Status.OK, 9⟩, [dirInfo, ⟨0, 0, []⟩], connectCalls (some "nn1")⟩
    ⟨some fun i =>
        [(⟨kObjectKindDirectory, "hdfs://nn1/d", 0, 0⟩ : hdfsFileInfo)].getD i blankInfo,
      1, 0, [⟨0, 0, []⟩]⟩
    (by rfl) (by rfl) (by rfl) (by decide)).2.1 (by rfl)
  exact h

/-- C16, the claim as first stated fails for a directory that holds an entry
and whose listing fails: over the client whose listing answers null with
`EAGAIN`, the directory "/d" holds the file "/d/x"; `DeleteDir` of
"hdfs://nn1/d" has the listing fail, confirms the path by `Stat`, issues the
recursive `hdfsDelete`, and returns OK, and the directory and the file are
gone. -/
theorem DeleteDir_failed_listing_counterexample :
    List.lookup "/d" [("/d", true), ("/d/x", false)] = some true ∧
    List.lookup "/d/x" [("/d", true), ("/d/x", false)] = some false ∧
    flakyFS.DeleteDir plainEnv "hdfs://nn1/d" [("/d", true), ("/d/x", false)] = .returned
      ⟨Status.OK, [],
        connectCalls (some "nn1") ++
          ([.hdfsListDirectory 9 "/d" true 0] ++
            ((connectCalls (some "nn1") ++
              [.hdfsGetPathInfo 9 "/d" false, .hdfsFreeFileInfo 1]) ++
              [.hdfsDelete 9 "/d" 1 0]))⟩ := by
  refine ⟨by rfl, by rfl, by rfl⟩

end caffe
